import Mathlib

/-!
# ProgramInfo (3C): function maps, the linker, `addVariable`, the caches,
statistics and root causes

A shallow embedding of `clang/lib/3C/ProgramInfo.cpp` and of `main` of
`clang/tools/3c/3CStandalone.cpp`.

* `std::map` is an association list kept in key order (`StdMap`), `std::set` of
  pointers a list of addresses kept in ascending order.
* A constraint variable is a value (`PVConstraint`, `FVConstraint`); the objects
  that the tables point to live in heaps indexed by address, so that "the entry
  is `NewC`" is an equation between addresses.
* `exit(1)` is `Except.error 1`.
* The constraint-variable layer (`mergeDeclaration`, `brainTransplant`,
  `constrainToWild`, `constrainConsVarGeq`) is not part of `ProgramInfo.cpp`; it
  enters as the parameter `CVOps`, and `specOps` is its model from the
  specification.
* `addVariable` returns the state together with the calls it made into that
  layer, in order; what it reads of the AST (`Rewriter::isRewritable`, the kind
  of the declaration, `isVarArgType`, `hasVoidType`) are fields of the
  declaration, and `canWrite` and `PSL.valid()` are parameters (`Externals`).
* A failed `assert`, `llvm_unreachable` and `exit` are values of `Failure`; the
  assertion on `Persisted` is `Failure.persisted`.
* `printStats` returns its tables and totals with the text it writes; the
  solution of the constraints and the checked graph are parameters (`StatsEnv`,
  `ConstraintsGraph`).
* A loop that the source bounds by the data it shortens (the allocator list of
  `main`) is run with fuel, and enough fuel is shown to exist.
-/

namespace ThreeC

/-! ## Containers -/

/-- The strict order that `std::map` keeps its keys in. -/
class KeyOrder (K : Type) where
  lt : K → K → Bool

instance : KeyOrder String := ⟨fun a b => decide (a.data < b.data)⟩

instance : KeyOrder Nat := ⟨fun a b => decide (a < b)⟩

/-- A `std::map<K, V>`: the bindings in iteration order. -/
abbrev StdMap (K V : Type) := List (K × V)

namespace StdMap

/-- The value of `Map.find(k)`, `none` standing for `Map.end()`. -/
def find {K V : Type} [DecidableEq K] : StdMap K V → K → Option V
  | [], _ => none
  | (k', v) :: m, k => if k = k' then some v else find m k

/-- The test `Map.find(k) != Map.end()`. -/
def contains {K V : Type} [DecidableEq K] (m : StdMap K V) (k : K) : Bool := (find m k).isSome

/-- The assignment `Map[k] = v`: the binding of `k` is replaced where it stands,
or a new binding is put at the place the key order gives it. -/
def set {K V : Type} [DecidableEq K] [KeyOrder K] : StdMap K V → K → V → StdMap K V
  | [], k, v => [(k, v)]
  | (k', v') :: m, k, v =>
    if k = k' then (k', v) :: m
    else if KeyOrder.lt k k' then (k, v) :: (k', v') :: m
    else (k', v') :: set m k v

/-- The map after an `operator[]` access of `k`: an absent key is bound to the
default value. -/
def touch {K V : Type} [DecidableEq K] [KeyOrder K] [Inhabited V] (m : StdMap K V) (k : K) :
    StdMap K V :=
  match find m k with
  | some _ => m
  | none => set m k default

/-- The value that `Map[k]` refers to. -/
def index {K V : Type} [DecidableEq K] [Inhabited V] (m : StdMap K V) (k : K) : V :=
  (find m k).getD default

end StdMap

/-- The `std::set<T *>::insert` of an address: ascending order, no duplicates. -/
def setInsert : List Nat → Nat → List Nat
  | [], a => [a]
  | b :: s, a => if a = b then b :: s else if a < b then a :: b :: s else b :: setInsert s a

/-! ## Atoms and constraints -/

/-- Modelled from the spec: an atom (class `Atom` is declared outside
`ProgramInfo.cpp`): "one of the four lattice values `PTR`, `NTARR`, `ARR`,
`WILD`" or a variable atom "identified by a unique integer key". -/
inductive Atom where
  | Ptr
  | Arr
  | NTArr
  | Wild
  | Var (Loc : Nat)
deriving DecidableEq, Repr

/-- Modelled from the spec: the `Geq(L, R, checked?, reason)` constraint of the
constraint store (class `Geq` is declared outside `ProgramInfo.cpp`), without
its reason. -/
structure Geq where
  L : Atom
  R : Atom
  Checked : Bool
deriving DecidableEq, Repr

/-- Modelled from the spec: the three constraint shapes of the constraint store
(`Geq`, `Eq`, `Implies`; declared outside `ProgramInfo.cpp`). The value is what
the store compares for de-duplication: kind, atoms and checked flag. -/
inductive Constraint where
  | geq (C : Geq)
  | eq (L R : Atom)
  | implies (Premise Conclusion : Geq)
deriving DecidableEq, Repr

/-- A constraint as it is handed to the store: the constraint and its reason. -/
abbrev Request := Constraint × String

/-- The constraint store `CS`: each stored constraint with its reasons, the
first one first. -/
abbrev Constraints := List (Constraint × List String)

/-- Modelled from the spec: `Constraints::addConstraint` (class `Constraints` is
declared outside `ProgramInfo.cpp`): "structural deduplication of constraints
with identical (kind, L, R, checked?); reasons are unioned on duplicate
inserts (first-wins for display)". -/
def addConstraint : Constraints → Request → Constraints
  | [], (c, r) => [(c, [r])]
  | (c', rs) :: S, (c, r) =>
    if c = c' then (c', if r ∈ rs then rs else rs ++ [r]) :: S
    else (c', rs) :: addConstraint S (c, r)

/-- The store after a sequence of requests, in order. -/
def addConstraints (S : Constraints) (rs : List Request) : Constraints :=
  rs.foldl addConstraint S

/-- Modelled from the spec: the modes of `constrainConsVarGeq` (the enumeration
is declared outside `ProgramInfo.cpp`): "a mode in {Same_to_Same, Wild_to_Same,
Safe_to_Wild}". -/
inductive ConsAction where
  | Same_to_Same
  | Wild_to_Same
  | Safe_to_Wild
deriving DecidableEq, Repr

/-! ## Constraint variables -/

mutual
/-- Modelled from the spec: a pointer variable (class `PVConstraint` is declared
outside `ProgramInfo.cpp`): "for each pointer indirection in the declarator
(outer to inner), one variable atom. If the pointee is a function type, embeds
an FVC"; with the flags that `ProgramInfo.cpp` reads through `getIsGeneric()`,
`isForValidDecl()` and `isPartOfFunctionPrototype()`. -/
inductive PVConstraint where
  | mk (vars : List Atom) (FV : Option FVConstraint)
      (IsGeneric ValidDecl PartOfFuncPrototype : Bool)
/-- Modelled from the spec: a function variable (class `FVConstraint` is declared
outside `ProgramInfo.cpp`): "an external and an internal PVC for the return,
and for each parameter one external/internal pair"; with the flags that
`ProgramInfo.cpp` reads through `hasBody()` and `isForValidDecl()`. -/
inductive FVConstraint where
  | mk (ReturnVar : PVConstraint × PVConstraint)
      (ParamVars : List (PVConstraint × PVConstraint)) (Hasbody ValidDecl : Bool)
end

instance : Inhabited PVConstraint := ⟨.mk [] none false false false⟩

instance : Inhabited FVConstraint := ⟨.mk (default, default) [] false false⟩

namespace PVConstraint

/-- The atoms of `getCvars()`. -/
def getCvars : PVConstraint → List Atom
  | .mk vars _ _ _ _ => vars

/-- The embedded function variable of `getFV()`, `none` for a null pointer. -/
def getFV : PVConstraint → Option FVConstraint
  | .mk _ fv _ _ _ => fv

/-- The flag of `getIsGeneric()`. -/
def getIsGeneric : PVConstraint → Bool
  | .mk _ _ g _ _ => g

/-- The flag of `isForValidDecl()`. -/
def isForValidDecl : PVConstraint → Bool
  | .mk _ _ _ v _ => v

/-- The flag of `isPartOfFunctionPrototype()`. -/
def isPartOfFunctionPrototype : PVConstraint → Bool
  | .mk _ _ _ _ p => p

end PVConstraint

namespace FVConstraint

/-- The flag of `hasBody()`. -/
def hasBody : FVConstraint → Bool
  | .mk _ _ b _ => b

/-- The flag of `isForValidDecl()`. -/
def isForValidDecl : FVConstraint → Bool
  | .mk _ _ _ v => v

/-- The (external, internal) pairs of the parameters. -/
def ParamVars : FVConstraint → List (PVConstraint × PVConstraint)
  | .mk _ ps _ _ => ps

/-- The count of `numParams()`. -/
def numParams (F : FVConstraint) : Nat := F.ParamVars.length

/-- The variable of `getExternalReturn()`. -/
def getExternalReturn : FVConstraint → PVConstraint
  | .mk r _ _ _ => r.1

/-- The variable of `getInternalReturn()`. -/
def getInternalReturn : FVConstraint → PVConstraint
  | .mk r _ _ _ => r.2

/-- The variable of `getExternalParam(I)`. -/
def getExternalParam (F : FVConstraint) (I : Nat) : PVConstraint :=
  (F.ParamVars.getD I default).1

/-- The variable of `getInternalParam(I)`. -/
def getInternalParam (F : FVConstraint) (I : Nat) : PVConstraint :=
  (F.ParamVars.getD I default).2

end FVConstraint

mutual
/-- All atoms of a pointer variable: its own, then those of the embedded
function variable. -/
def PVConstraint.atoms : PVConstraint → List Atom
  | .mk vars fv _ _ _ =>
    vars ++ (match fv with
      | none => []
      | some f => f.atoms)
/-- All atoms of a function variable: of the return pair, then of each
parameter pair. -/
def FVConstraint.atoms : FVConstraint → List Atom
  | .mk (e, i) ps _ _ => e.atoms ++ i.atoms ++ pairsAtoms ps
/-- All atoms of a list of (external, internal) pairs. -/
def pairsAtoms : List (PVConstraint × PVConstraint) → List Atom
  | [] => []
  | (e, i) :: ps => e.atoms ++ i.atoms ++ pairsAtoms ps
end

/-- The heap of function variables: the object at each address. -/
abbrev FVHeap := Nat → FVConstraint

/-- The heap of the pointer variables that `addVariable` allocates on their own. -/
abbrev PVHeap := Nat → PVConstraint

/-- The constraint-variable layer that `ProgramInfo.cpp` calls into and that is
defined outside it.
* `mergeDeclaration OldC NewC` is the receiver `OldC` after
  `OldC->mergeDeclaration(NewC, *this, ReasonFailed)`, with `ReasonFailed`;
* `brainTransplant NewC OldC` is the receiver `NewC` after
  `NewC->brainTransplant(OldC, *this)`;
* `constrainToWild P Rsn` are the constraints that `P->constrainToWild(CS, Rsn)`
  hands to the store;
* `constrainConsVarGeq L R CA DoEqType` are the constraints that
  `constrainConsVarGeq(L, R, CS, nullptr, CA, DoEqType, this)` hands to it. -/
structure CVOps where
  mergeDeclaration : FVConstraint → FVConstraint → FVConstraint × String
  brainTransplant : FVConstraint → FVConstraint → FVConstraint
  constrainToWild : PVConstraint → String → List Request
  constrainConsVarGeq : PVConstraint → PVConstraint → ConsAction → Bool → List Request

/-! ## The constraint-variable layer as the specification describes it -/

/-- Modelled from the spec: `PVConstraint::brainTransplant` (defined outside
`ProgramInfo.cpp`): "replaces this variable's atoms with `old`'s atoms". The
receiver keeps its flags and takes the atoms of `From`, those of an embedded
function variable included. -/
def PVConstraint.brainTransplant : PVConstraint → PVConstraint → PVConstraint
  | .mk _ _ g v p, From => .mk From.getCvars From.getFV g v p

/-- Modelled from the spec: the parameter pairs after a brain transplant,
pointwise: the pair at an index that both lists have takes the atoms of the
pair of `From` at that index; a pair beyond the end of `From` is kept. -/
def transplantParams :
    List (PVConstraint × PVConstraint) → List (PVConstraint × PVConstraint) →
      List (PVConstraint × PVConstraint)
  | (e, i) :: ps, (e', i') :: ps' =>
    (e.brainTransplant e', i.brainTransplant i') :: transplantParams ps ps'
  | ps, _ => ps

/-- Modelled from the spec: `FVConstraint::brainTransplant` (defined outside
`ProgramInfo.cpp`): "replaces this variable's atoms with `old`'s atoms", so
that "`NewC.getCvars() == old.getCvars()` pointwise". The receiver keeps its
flags and its number of parameters. -/
def FVConstraint.brainTransplant : FVConstraint → FVConstraint → FVConstraint
  | .mk (e, i) ps b v, From =>
    .mk (e.brainTransplant From.getExternalReturn, i.brainTransplant From.getInternalReturn)
      (transplantParams ps From.ParamVars) b v

/-- Modelled from the spec: `FVConstraint::mergeDeclaration` (defined outside
`ProgramInfo.cpp`): "Fails (returns nonempty reason) on incompatible parameter
counts, incompatible generic-parameter markers, or incompatible interop
typedefs". Typedefs are not part of this data model; the spec does not say how
a successful merge changes the receiver, which is left as it is. -/
def FVConstraint.mergeDeclaration (OldC NewC : FVConstraint) : FVConstraint × String :=
  if OldC.numParams ≠ NewC.numParams then (OldC, "incompatible parameter counts")
  else if OldC.getExternalReturn.getIsGeneric ≠ NewC.getExternalReturn.getIsGeneric
      ∨ OldC.ParamVars.map (fun p => p.1.getIsGeneric)
          ≠ NewC.ParamVars.map (fun p => p.1.getIsGeneric) then
    (OldC, "incompatible generic-parameter markers")
  else (OldC, "")

/-- Modelled from the spec: `PVConstraint::constrainToWild` (defined outside
`ProgramInfo.cpp`): "adds `Geq(WILD, a_i, reason)` for each owned atom and for
atoms of any embedded FVC (transitively into function-pointer
return/params)". The constraints are on the checked side. -/
def PVConstraint.constrainToWild (P : PVConstraint) (Rsn : String) : List Request :=
  P.atoms.map (fun a => (Constraint.geq ⟨Atom.Wild, a, true⟩, Rsn))

/-- Modelled from the spec: `constrainConsVarGeq` on two pointer variables
(defined outside `ProgramInfo.cpp`), as far as the spec fixes it: "it walks the
atom vectors in parallel, emitting `Geq` constraints per level";
"`Same_to_Same` is bidirectional"; `DoEqType` is taken as the checked flag. -/
def constrainConsVarGeq (L R : PVConstraint) (CA : ConsAction) (DoEqType : Bool) :
    List Request :=
  List.zipWith (fun l r => (Constraint.geq ⟨l, r, DoEqType⟩, "")) L.getCvars R.getCvars
    ++ (if CA = ConsAction.Same_to_Same then
          List.zipWith (fun l r => (Constraint.geq ⟨r, l, DoEqType⟩, "")) L.getCvars R.getCvars
        else [])

/-- The constraint-variable layer as modelled from the specification. -/
def specOps : CVOps where
  mergeDeclaration := FVConstraint.mergeDeclaration
  brainTransplant := FVConstraint.brainTransplant
  constrainToWild := PVConstraint.constrainToWild
  constrainConsVarGeq := constrainConsVarGeq

/-! ## Function maps -/

/-- A `ExternalFunctionMapType`: function name to the address of its FVC. -/
abbrev ExternalFunctionMapType := StdMap String Nat

/-- A `StaticFunctionMapType`: file name to the function map of that file. -/
abbrev StaticFunctionMapType := StdMap String ExternalFunctionMapType

/-- `ProgramInfo::insertIntoExternalFunctionMap`, on the heap of the function
  variables and the map handed in by reference; `Except.error 1` is `exit(1)`. -/
def insertIntoExternalFunctionMap (ops : CVOps) (H : FVHeap) (Map : ExternalFunctionMapType)
    (FuncName : String) (NewC : Nat) : Except Nat (FVHeap × ExternalFunctionMapType) :=
  match StdMap.find Map FuncName with
  | none => .ok (H, StdMap.set Map FuncName NewC)
  | some OldC =>
    if !(H OldC).hasBody then
      if (H NewC).hasBody || ((H OldC).numParams == 0 && (H NewC).numParams != 0) then
        .ok (Function.update H NewC (ops.brainTransplant (H NewC) (H OldC)),
          StdMap.set Map FuncName NewC)
      else
        let Merged := ops.mergeDeclaration (H OldC) (H NewC)
        let MergingFailed := Merged.2 != ""
        if MergingFailed then .error 1
        else .ok (Function.update H OldC Merged.1, Map)
    else if (H NewC).hasBody then .error 1
    else .ok (Function.update H NewC (ops.brainTransplant (H NewC) (H OldC)), Map)

/-- `ProgramInfo::insertIntoStaticFunctionMap`. -/
def insertIntoStaticFunctionMap (ops : CVOps) (H : FVHeap) (Map : StaticFunctionMapType)
    (FuncName FileName : String) (ToIns : Nat) : Except Nat (FVHeap × StaticFunctionMapType) :=
  if !StdMap.contains Map FileName then
    .ok (H, StdMap.set Map FileName (StdMap.set [] FuncName ToIns))
  else
    match insertIntoExternalFunctionMap ops H (StdMap.index Map FileName) FuncName ToIns with
    | .error e => .error e
    | .ok (H', Sub) => .ok (H', StdMap.set Map FileName Sub)

/-! ## ProgramInfo -/

/-- Modelled from the spec: a persistent source location (class
`PersistentSourceLoc` is declared outside `ProgramInfo.cpp`): "(file path,
line, column) triple". -/
structure PersistentSourceLoc where
  FileName : String
  LineNo : Nat
  ColNo : Nat
deriving DecidableEq, Repr

instance : KeyOrder PersistentSourceLoc :=
  ⟨fun a b => KeyOrder.lt a.FileName b.FileName
    || (a.FileName == b.FileName
        && (decide (a.LineNo < b.LineNo)
            || (a.LineNo == b.LineNo && decide (a.ColNo < b.ColNo))))⟩

/-- A pointer to a `PVConstraint`: an object that `addVariable` allocated on its
own, or a component of the function variable at address `F`. -/
inductive PVRef where
  | obj (A : Nat)
  | externalReturn (F : Nat)
  | internalReturn (F : Nat)
  | externalParam (F I : Nat)
  | internalParam (F I : Nat)
deriving DecidableEq, Repr

/-- A pointer to a `ConstraintVariable`, as `Variables` stores it. -/
inductive CVRef where
  | PV (P : PVRef)
  | FV (F : Nat)
deriving DecidableEq, Repr

/-- What `ProgramInfo.cpp` reads of a `FunctionDecl`: `getNameAsString()`,
`isGlobal()` and the location that `PersistentSourceLoc::mkPSL` gives it. -/
structure FunctionDecl where
  Name : String
  Global : Bool
  PSL : PersistentSourceLoc
deriving DecidableEq, Repr

/-- The state of a `ProgramInfo` object, with the heaps of the objects that its
tables point to. -/
structure ProgramInfo where
  Persisted : Bool
  CS : Constraints
  FVs : FVHeap
  PVs : PVHeap
  Variables : StdMap PersistentSourceLoc CVRef
  ExternalFunctionFVCons : ExternalFunctionMapType
  StaticFunctionFVCons : StaticFunctionMapType
  GlobalVariableSymbols : StdMap String (List Nat)
  ExternGVars : StdMap String Bool
  TypedefVars : StdMap PersistentSourceLoc (List PVRef × Bool) := []
  ExprConstraintVars : StdMap PersistentSourceLoc (List CVRef) := []
  ImplicitCastConstraintVars : StdMap PersistentSourceLoc (List CVRef) := []
  TypeParamBindings : StdMap PersistentSourceLoc (StdMap Nat CVRef) := []

/-- The constructor `ProgramInfo::ProgramInfo()`: persisted, all tables empty. -/
def ProgramInfo.new : ProgramInfo where
  Persisted := true
  CS := []
  FVs := fun _ => default
  PVs := fun _ => default
  Variables := []
  ExternalFunctionFVCons := []
  StaticFunctionFVCons := []
  GlobalVariableSymbols := []
  ExternGVars := []

/-- The `PVConstraint` that a pointer refers to. -/
def ProgramInfo.deref (I : ProgramInfo) : PVRef → PVConstraint
  | .obj A => I.PVs A
  | .externalReturn F => (I.FVs F).getExternalReturn
  | .internalReturn F => (I.FVs F).getInternalReturn
  | .externalParam F J => (I.FVs F).getExternalParam J
  | .internalParam F J => (I.FVs F).getInternalParam J

/-- `ProgramInfo::insertNewFVConstraint`: `FVCon` is the address of the new
function variable. -/
def insertNewFVConstraint (ops : CVOps) (I : ProgramInfo) (FD : FunctionDecl) (FVCon : Nat) :
    Except Nat ProgramInfo :=
  let FuncName := FD.Name
  if FD.Global then
    match insertIntoExternalFunctionMap ops I.FVs I.ExternalFunctionFVCons FuncName FVCon with
    | .error e => .error e
    | .ok (H, M) => .ok { I with FVs := H, ExternalFunctionFVCons := M }
  else
    let FuncFileName := FD.PSL.FileName
    match insertIntoStaticFunctionMap ops I.FVs I.StaticFunctionFVCons FuncName FuncFileName
        FVCon with
    | .error e => .error e
    | .ok (H, M) => .ok { I with FVs := H, StaticFunctionFVCons := M }

/-- Lines 611-623 of `ProgramInfo::addVariable`: what a pointer- or array-typed
`VarDecl` with global storage, named `VarName` and with the new variable at
address `P`, does to `ExternGVars` and `GlobalVariableSymbols`. -/
def recordGlobalVar (I : ProgramInfo) (VarName : String) (HasDefinition : Bool) (P : Nat) :
    ProgramInfo :=
  let E :=
    if HasDefinition then StdMap.set I.ExternGVars VarName true
    else if !StdMap.index I.ExternGVars VarName then
      StdMap.set (StdMap.touch I.ExternGVars VarName) VarName false
    else StdMap.touch I.ExternGVars VarName
  { I with
    ExternGVars := E
    GlobalVariableSymbols :=
      StdMap.set I.GlobalVariableSymbols VarName
        (setInsert (StdMap.index I.GlobalVariableSymbols VarName) P) }

/-! ## The linker -/

/-- A call that `link` makes into the constraint-variable layer. -/
inductive CVCall where
  | constrainConsVarGeq (LHS RHS : PVRef) (CA : ConsAction) (DoEqType : Bool)
  | constrainToWild (P : PVRef) (Rsn : String)
deriving DecidableEq, Repr

/-- The `while (J != C.end())` loop of the first sweep: `I` is at the head of
the list and `J` one element further. -/
def linkGlobalsLoop : List Nat → List CVCall
  | I :: J :: C =>
    .constrainConsVarGeq (.obj I) (.obj J) .Same_to_Same true :: linkGlobalsLoop (J :: C)
  | _ => []

/-- The body of the first sweep of `link` for one entry of
`GlobalVariableSymbols`. -/
def linkGlobalVariable (V : String × List Nat) : List CVCall :=
  let C := V.2
  if C.length > 1 then linkGlobalsLoop C else []

/-- The first sweep of `link`: the calls it makes, in order. -/
def linkGlobalVariables (I : ProgramInfo) : List CVCall :=
  I.GlobalVariableSymbols.flatMap linkGlobalVariable

/-- The reason string of the second sweep. -/
def externRsn (VarName : String) : String :=
  "External global variable " ++ VarName ++ " has no definition"

/-- The body of the second sweep of `link` for one entry of `ExternGVars`; the
state is `GlobalVariableSymbols`, which `operator[]` may extend, and the calls
made so far. -/
def linkExternGVar (St : StdMap String (List Nat) × List CVCall) (V : String × Bool) :
    StdMap String (List Nat) × List CVCall :=
  if !V.2 then
    let VarName := V.1
    let Rsn := externRsn VarName
    let C := StdMap.index St.1 VarName
    (StdMap.touch St.1 VarName, St.2 ++ C.map (fun Var => .constrainToWild (.obj Var) Rsn))
  else St

/-- The second sweep of `link`: `GlobalVariableSymbols` after it and the calls
it makes, in order. -/
def linkExternGVars (I : ProgramInfo) : StdMap String (List Nat) × List CVCall :=
  I.ExternGVars.foldl linkExternGVar (I.GlobalVariableSymbols, [])

/-- The reason string of the third sweep. -/
def externalFunctionRsn (FuncName : String) : String :=
  "Unchecked pointer in parameter or return of external function " ++ FuncName

/-- The reason string of the fourth sweep. -/
def staticFunctionRsn (FuncName FileName : String) : String :=
  "Unchecked pointer in parameter or return of static function " ++ FuncName ++ " in "
    ++ FileName

/-- The body of the third sweep of `link` for one entry of
`ExternalFunctionFVCons`. -/
def linkExternalFunction (H : FVHeap) (U : String × Nat) : List CVCall :=
  let FuncName := U.1
  let G := U.2
  if !(H G).hasBody then
    let Rsn := externalFunctionRsn FuncName
    [CVCall.constrainToWild (.internalReturn G) Rsn]
      ++ (if !(H G).getExternalReturn.getIsGeneric then
            [CVCall.constrainToWild (.externalReturn G) Rsn]
          else [])
      ++ (List.range (H G).numParams).flatMap (fun J =>
            [CVCall.constrainToWild (.internalParam G J) Rsn]
              ++ (if !((H G).getExternalParam J).getIsGeneric then
                    [CVCall.constrainToWild (.externalParam G J) Rsn]
                  else []))
  else []

/-- The third sweep of `link`: the calls it makes, in order. -/
def linkExternalFunctions (I : ProgramInfo) : List CVCall :=
  I.ExternalFunctionFVCons.flatMap (linkExternalFunction I.FVs)

/-- The body of the fourth sweep of `link` for one function `V` of the file
`FileName`. -/
def linkStaticFunction (H : FVHeap) (FileName : String) (V : String × Nat) : List CVCall :=
  let FuncName := V.1
  let G := V.2
  if !(H G).hasBody then
    let Rsn := staticFunctionRsn FuncName FileName
    (if !(H G).getExternalReturn.getIsGeneric then
        [CVCall.constrainToWild (.externalReturn G) Rsn]
      else [])
      ++ (List.range (H G).numParams).flatMap (fun J =>
            if !((H G).getExternalParam J).getIsGeneric then
              [CVCall.constrainToWild (.externalParam G J) Rsn]
            else [])
  else []

/-- The fourth sweep of `link`: the calls it makes, in order. -/
def linkStaticFunctions (I : ProgramInfo) : List CVCall :=
  I.StaticFunctionFVCons.flatMap (fun U => U.2.flatMap (linkStaticFunction I.FVs U.1))

/-- All calls of `link` into the constraint-variable layer, in order. -/
def linkCalls (I : ProgramInfo) : List CVCall :=
  linkGlobalVariables I ++ (linkExternGVars I).2 ++ linkExternalFunctions I
    ++ linkStaticFunctions I

/-- The constraints that a call hands to the store. -/
def callRequests (ops : CVOps) (I : ProgramInfo) : CVCall → List Request
  | .constrainConsVarGeq L R CA DoEqType =>
    ops.constrainConsVarGeq (I.deref L) (I.deref R) CA DoEqType
  | .constrainToWild P Rsn => ops.constrainToWild (I.deref P) Rsn

/-- All constraints that `link` hands to the store, in order. -/
def linkRequests (ops : CVOps) (I : ProgramInfo) : List Request :=
  (linkCalls I).flatMap (callRequests ops I)

/-- `ProgramInfo::link`: the state after it and its return value. The calls go
to the store in the order of the four sweeps; the second sweep reads
`GlobalVariableSymbols` with `operator[]`. -/
def link (ops : CVOps) (I : ProgramInfo) : ProgramInfo × Bool :=
  ({ I with
      CS := addConstraints I.CS (linkRequests ops I)
      GlobalVariableSymbols := (linkExternGVars I).1 },
    true)

/-! ## Declarations, failures and the collaborators of `addVariable` -/

/-- The ways in which a call does not return. -/
inductive Failure where
  | persisted
  | assertion (Msg : String)
  | unreachable (Msg : String)
  | undefined (Msg : String)
  | thrown (What : String)
  | exit (Status : Nat)
deriving DecidableEq, Repr

/-- The code that `ProgramInfo.cpp` calls and that is defined outside it: the
constraint-variable layer, with `constrainToWildFV F Rsn` for the constraints
that `F->constrainToWild(CS, Rsn, PSL)` hands to the store when `F` is a
function variable, `canWrite` of `Utils` and `PersistentSourceLoc::valid`. -/
structure Externals extends CVOps where
  constrainToWildFV : FVConstraint → String → List Request
  canWrite : String → Bool
  valid : PersistentSourceLoc → Bool

/-- Modelled from the spec: `FVConstraint::constrainToWild` (defined outside
`ProgramInfo.cpp`): "adds `Geq(WILD, a_i, reason)` for each owned atom". -/
def FVConstraint.constrainToWild (F : FVConstraint) (Rsn : String) : List Request :=
  F.atoms.map (fun a => (Constraint.geq ⟨Atom.Wild, a, true⟩, Rsn))

/-- The collaborators for the samples: the layer as modelled from the
specification, every file writable, a location valid when it names a file. -/
def specExternals : Externals where
  toCVOps := specOps
  constrainToWildFV := FVConstraint.constrainToWild
  canWrite := fun _ => true
  valid := fun PSL => PSL.FileName != ""

/-- Modelled from the spec: `PVConstraint::setValidDecl` (defined outside
`ProgramInfo.cpp`): the flag that `isForValidDecl()` reads is set. -/
def PVConstraint.setValidDecl : PVConstraint → PVConstraint
  | .mk vars fv g _ p => .mk vars fv g true p

/-- Modelled from the spec: `FVConstraint::setValidDecl` (defined outside
`ProgramInfo.cpp`): the flag that `isForValidDecl()` reads is set. -/
def FVConstraint.setValidDecl : FVConstraint → FVConstraint
  | .mk r ps b _ => .mk r ps b true

/-- The function variable after `getInternalParam(J)->setValidDecl()`. -/
def FVConstraint.setInternalParamValid : FVConstraint → Nat → FVConstraint
  | .mk r ps b v, J => .mk r (ps.modify (fun p => (p.1, p.2.setValidDecl)) J) b v

/-- What `unifyIfTypedef` reads of a `TypedefType`: the location and the name of
its declaration. -/
structure TypedefDecl where
  PSL : PersistentSourceLoc
  Name : String
deriving DecidableEq, Repr

/-- What `addVariable` reads of a parameter declaration: its location, whether
`Rewriter::isRewritable` holds of it, the `TypedefType` of its type if it is
one, `isVarArgType`, `hasVoidType` and `isVoidType` of its type, and whether
`getParentFunctionOrMethod()` is non-null. -/
structure ParmVarDecl where
  PSL : PersistentSourceLoc
  Rewritable : Bool
  Typedef : Option TypedefDecl
  VarArgType : Bool
  VoidType : Bool
  IsVoidType : Bool
  Parented : Bool
deriving DecidableEq, Repr

/-- A `Decl` as `getVariable` sees it: a parameter with its parent function, the
variable that the constructor builds for the parent and its index; a function
with the variable that the constructor builds for it; any other declaration
with its location. -/
inductive Decl where
  | Parm (Parent : Option (FunctionDecl × FVConstraint)) (PIdx : Nat)
  | Function (FD : FunctionDecl) (Built : FVConstraint)
  | Other (PSL : PersistentSourceLoc)

/-- The kinds of `DeclaratorDecl` that `addVariable` tells apart, each with what
is read of it; `Built` is the variable that the constructor
(`new FVConstraint(D, ...)`, `new PVConstraint(D, ...)`) builds for it. -/
inductive DeclaratorKind where
  | Function (Name : String) (Global : Bool) (ReturnTypedef : Option TypedefDecl)
      (Params : List ParmVarDecl) (Built : FVConstraint)
  | Var (Name : String) (IsParm PointerOrArray GlobalStorage HasDefinition : Bool)
      (Built : PVConstraint)
  | Field (PointerOrArray : Bool) (Built : PVConstraint)
  | Other

/-- The test `isa<FunctionDecl>(D)`. -/
def DeclaratorKind.isFunction : DeclaratorKind → Bool
  | .Function _ _ _ _ _ => true
  | _ => false

/-- What `addVariable` reads of a `DeclaratorDecl`: its location, whether
`Rewriter::isRewritable` holds of it, the `TypedefType` of its type if it is
one, `isVarArgType`, `hasVoidType` and `isVoidType` of its type, and its kind. -/
structure DeclaratorDecl where
  PSL : PersistentSourceLoc
  Rewritable : Bool
  Typedef : Option TypedefDecl
  VarArgType : Bool
  VoidType : Bool
  IsVoidType : Bool
  Kind : DeclaratorKind

/-- A call that `addVariable` makes into the constraint-variable layer. -/
inductive LayerCall where
  | constrainToWild (CV : CVRef) (Rsn : String) (PSL : Option PersistentSourceLoc)
  | constrainConsVarGeq (LHS RHS : PVRef) (CA : ConsAction) (DoEqType : Bool)
      (PSL : Option PersistentSourceLoc)
deriving DecidableEq, Repr

/-- The constraints that a call hands to the store. -/
def layerRequests (X : Externals) (I : ProgramInfo) : LayerCall → List Request
  | .constrainToWild (.PV P) Rsn _ => X.constrainToWild (I.deref P) Rsn
  | .constrainToWild (.FV F) Rsn _ => X.constrainToWildFV (I.FVs F) Rsn
  | .constrainConsVarGeq L R CA DoEqType _ =>
    X.constrainConsVarGeq (I.deref L) (I.deref R) CA DoEqType

/-- A call into the layer: the store takes its constraints and the call is put
at the end of the calls made so far. -/
def invoke (X : Externals) (St : ProgramInfo × List LayerCall) (c : LayerCall) :
    ProgramInfo × List LayerCall :=
  ({ St.1 with CS := addConstraints St.1.CS (layerRequests X St.1 c) }, St.2 ++ [c])

/-- `ProgramInfo::constrainWildIfMacro`; `Rewritable` is
`Rewriter::isRewritable(Location)`. -/
def constrainWildIfMacro (X : Externals) (St : ProgramInfo × List LayerCall) (CV : CVRef)
    (Rewritable : Bool) (PSL : Option PersistentSourceLoc) : ProgramInfo × List LayerCall :=
  let Rsn := "Pointer in Macro declaration."
  if !Rewritable then invoke X St (.constrainToWild CV Rsn PSL) else St

/-- The `std::set::insert` of a pointer that is not ordered by an address. -/
def refInsert {α : Type} [DecidableEq α] (S : List α) (x : α) : List α :=
  if x ∈ S then S else S ++ [x]

/-- `ProgramInfo::unifyIfTypedef`; `Ty` is the `TypedefType` if the type is one.
The typedef back-reference that `setTypedef` records in `P` is not part of
the variable's model. -/
def unifyIfTypedef (X : Externals) (St : ProgramInfo × List LayerCall)
    (Ty : Option TypedefDecl) (P : PVRef) : ProgramInfo × List LayerCall :=
  match Ty with
  | none => St
  | some TDT =>
    let PSL := TDT.PSL
    let Pair := StdMap.index St.1.TypedefVars PSL
    let St1 : ProgramInfo × List LayerCall :=
      ({ St.1 with TypedefVars := StdMap.touch St.1.TypedefVars PSL }, St.2)
    if Pair.2 then
      let St2 := Pair.1.foldl
        (fun S B => invoke X S (.constrainConsVarGeq P B .Same_to_Same true (some PSL))) St1
      ({ St2.1 with
          TypedefVars := StdMap.set St2.1.TypedefVars PSL (refInsert Pair.1 P, Pair.2) },
        St2.2)
    else St1

/-! ## Looking up constraint variables -/

/-- `ProgramInfo::getExtFuncDefnConstraint`; `none` is `nullptr`. -/
def getExtFuncDefnConstraint (I : ProgramInfo) (FuncName : String) : Option Nat :=
  StdMap.find I.ExternalFunctionFVCons FuncName

/-- `ProgramInfo::getStaticFuncConstraint`; `none` is `nullptr`. -/
def getStaticFuncConstraint (I : ProgramInfo) (FuncName FileName : String) : Option Nat :=
  match StdMap.find I.StaticFunctionFVCons FileName with
  | none => none
  | some Sub => StdMap.find Sub FuncName

/-- `ProgramInfo::getFuncConstraint`. -/
def getFuncConstraint (I : ProgramInfo) (FD : FunctionDecl) : Option Nat :=
  if FD.Global then getExtFuncDefnConstraint I FD.Name
  else getStaticFuncConstraint I FD.Name FD.PSL.FileName

/-- `ProgramInfo::getFuncFVConstraint`: `Built` is the variable that
`new FVConstraint(FD, ...)` builds and `A` the address that `new` returns. -/
def getFuncFVConstraint (I : ProgramInfo) (FD : FunctionDecl) (Built : FVConstraint) (A : Nat) :
    Except Failure (ProgramInfo × Option Nat) :=
  if FD.Global then
    match getExtFuncDefnConstraint I FD.Name with
    | some FunFVar => .ok (I, some FunFVar)
    | none =>
      if Built.hasBody then .error (.assertion "!F->hasBody()")
      else
        .ok ({ I with
                FVs := Function.update I.FVs A Built
                ExternalFunctionFVCons := StdMap.set I.ExternalFunctionFVCons FD.Name A },
              some A)
  else .ok (I, getStaticFuncConstraint I FD.Name FD.PSL.FileName)

/-- `ProgramInfo::getVariable`: the state after the call and the variable found,
`none` for an empty `CVarOption`. -/
def getVariable (I : ProgramInfo) (D : Decl) (A : Nat) :
    Except Failure (ProgramInfo × Option CVRef) :=
  if I.Persisted then .error .persisted
  else
    match D with
    | .Parm Parent PIdx =>
      match Parent with
      | none => .ok (I, none)
      | some (FD, Built) =>
        match getFuncFVConstraint I FD Built A with
        | .error e => .error e
        | .ok (_, none) => .error (.assertion "Unable to find function constraints.")
        | .ok (I', some FunFVar) => .ok (I', some (.PV (.internalParam FunFVar PIdx)))
    | .Function FD Built =>
      match getFuncFVConstraint I FD Built A with
      | .error e => .error e
      | .ok (_, none) => .error (.undefined "*FunFVar with FunFVar == nullptr")
      | .ok (I', some FunFVar) => .ok (I', some (.FV FunFVar))
    | .Other PSL =>
      match StdMap.find I.Variables PSL with
      | some CV => .ok (I, some CV)
      | none => .ok (I, none)

/-- What `specialCaseVarIntros` reads of a `ValueDecl`: the declaration as
`getVariable` sees it, its location, and `isVarArgType`, `hasVoidType` and
`isVoidType` of its type. -/
structure ValueDecl where
  D : Decl
  PSL : PersistentSourceLoc
  VarArgType : Bool
  VoidType : Bool
  IsVoidType : Bool

/-- The test `isa<ParmVarDecl>(D)`. -/
def Decl.isParm : Decl → Bool
  | .Parm _ _ => true
  | _ => false

/-- `ProgramInfo::specialCaseVarIntros`. -/
def specialCaseVarIntros (X : Externals) (St : ProgramInfo × List LayerCall) (D : ValueDecl)
    (A : Nat) : Except Failure (ProgramInfo × List LayerCall) :=
  match getVariable St.1 D.D A with
  | .error e => .error e
  | .ok (I1, CVOpt) =>
    let PVC : Option PVRef :=
      match CVOpt with
      | some (.PV P) => some P
      | _ => none
    let IsGeneric : Bool :=
      if D.D.isParm then
        match PVC with
        | some P => (I1.deref P).getIsGeneric
        | none => false
      else false
    if D.VarArgType || (D.VoidType && !IsGeneric) then
      let Rsn := if !D.IsVoidType then "Variable type is va_list." else "Variable type void."
      match PVC with
      | some P => .ok (invoke X (I1, St.2) (.constrainToWild (.PV P) Rsn (some D.PSL)))
      | none => .ok (I1, St.2)
    else .ok (I1, St.2)

/-! ## addVariable -/

/-- Lines 640-644 of `ProgramInfo::addVariable`: the new variable is constrained
if its file cannot be written or its location is in a macro, and is stored
in `Variables`. -/
def installNewCV (X : Externals) (St : ProgramInfo × List LayerCall) (D : DeclaratorDecl)
    (NewCV : CVRef) : ProgramInfo × List LayerCall :=
  let PLoc := D.PSL
  let St1 :=
    if !X.canWrite PLoc.FileName then
      invoke X St (.constrainToWild NewCV "Declaration in non-writable file" (some PLoc))
    else St
  let St2 := constrainWildIfMacro X St1 NewCV D.Rewritable none
  ({ St2.1 with Variables := StdMap.set St2.1.Variables PLoc NewCV }, St2.2)

/-- The loop over the parameters of `ProgramInfo::addVariable` (lines 582-600),
from parameter `J` on: `F` is the address of the new function variable, `FD`
the function and `Built` the variable that the constructor builds for it, and
`New K` the address that the `K`-th `new` of the call returns. -/
def addParams (X : Externals) (F : Nat) (FD : FunctionDecl) (Built : FVConstraint)
    (New : Nat → Nat) :
    ProgramInfo × List LayerCall → List ParmVarDecl → Nat →
      Except Failure (ProgramInfo × List LayerCall)
  | St, [], _ => .ok St
  | St, PVD :: Ps, J =>
    let St1 := unifyIfTypedef X St PVD.Typedef (.internalParam F J)
    let St2 := unifyIfTypedef X St1 PVD.Typedef (.externalParam F J)
    let St3 : ProgramInfo × List LayerCall :=
      ({ St2.1 with
          FVs := Function.update St2.1.FVs F ((St2.1.FVs F).setInternalParamValid J) },
        St2.2)
    let St4 := constrainWildIfMacro X St3 (.PV (.externalParam F J)) PVD.Rewritable none
    match specialCaseVarIntros X St4
        ⟨.Parm (if PVD.Parented then some (FD, Built) else none) J, PVD.PSL, PVD.VarArgType,
          PVD.VoidType, PVD.IsVoidType⟩ (New (J + 1)) with
    | .error e => .error e
    | .ok St5 =>
      let St6 : ProgramInfo × List LayerCall :=
        if StdMap.contains St5.1.Variables PVD.PSL then St5
        else
          ({ St5.1 with
              Variables := StdMap.set St5.1.Variables PVD.PSL (.PV (.internalParam F J)) },
            St5.2)
      addParams X F FD Built New St6 Ps (J + 1)

/-- Lines 522-645 of `ProgramInfo::addVariable`, after its two assertions: the
state after the call and the calls made into the constraint-variable layer,
in order. `New K` is the address that the `K`-th `new` of the call returns. -/
def addVariableChecked (X : Externals) (I : ProgramInfo) (D : DeclaratorDecl)
    (New : Nat → Nat) : Except Failure (ProgramInfo × List LayerCall) :=
  let PLoc := D.PSL
  match StdMap.find I.Variables PLoc, D.Kind with
  | some CV, .Var _ _ _ _ _ _ | some CV, .Field _ _ | some CV, .Other =>
    if !D.Rewritable then
      let Rsn := "Duplicate source location. Possibly part of a macro."
      .ok (invoke X (I, []) (.constrainToWild CV Rsn (some PLoc)))
    else .ok (I, [])
  | Found, .Function Name Global ReturnTypedef Params Built =>
    let F := New 0
    let FD : FunctionDecl := ⟨Name, Global, PLoc⟩
    let I1 := { I with FVs := Function.update I.FVs F Built.setValidDecl }
    if Found.isSome then
      match getFuncConstraint I1 FD with
      | none =>
        match insertNewFVConstraint X.toCVOps I1 FD F with
        | .error e => .error (.exit e)
        | .ok I2 => .ok (constrainWildIfMacro X (I2, []) (.FV F) D.Rewritable none)
      | some _ => .ok (I1, [])
    else
      match insertNewFVConstraint X.toCVOps I1 FD F with
      | .error e => .error (.exit e)
      | .ok I2 =>
        let St1 := unifyIfTypedef X (I2, []) ReturnTypedef (.externalReturn F)
        let St2 := unifyIfTypedef X St1 ReturnTypedef (.internalReturn F)
        match addParams X F FD Built New St2 Params 0 with
        | .error e => .error e
        | .ok St3 => .ok (installNewCV X St3 D (.FV F))
  | none, .Var VarName IsParm PointerOrArray GlobalStorage HasDefinition Built =>
    if IsParm then .error (.assertion "!isa<ParmVarDecl>(VD)")
    else if PointerOrArray then
      let P := New 0
      let I1 := { I with PVs := Function.update I.PVs P Built.setValidDecl }
      let St1 := unifyIfTypedef X (I1, []) D.Typedef (.obj P)
      let St2 : ProgramInfo × List LayerCall :=
        if GlobalStorage then (recordGlobalVar St1.1 VarName HasDefinition P, St1.2)
        else St1
      match specialCaseVarIntros X St2
          ⟨.Other PLoc, PLoc, D.VarArgType, D.VoidType, D.IsVoidType⟩ (New 1) with
      | .error e => .error e
      | .ok St3 => .ok (installNewCV X St3 D (.PV (.obj P)))
    else .error (.assertion "We shouldn't be adding a null CV to Variables map.")
  | none, .Field PointerOrArray Built =>
    if PointerOrArray then
      let P := New 0
      let I1 := { I with PVs := Function.update I.PVs P Built }
      let St1 := unifyIfTypedef X (I1, []) D.Typedef (.obj P)
      let St2 : ProgramInfo × List LayerCall :=
        ({ St1.1 with PVs := Function.update St1.1.PVs P (St1.1.PVs P).setValidDecl },
          St1.2)
      match specialCaseVarIntros X St2
          ⟨.Other PLoc, PLoc, D.VarArgType, D.VoidType, D.IsVoidType⟩ (New 1) with
      | .error e => .error e
      | .ok St3 => .ok (installNewCV X St3 D (.PV (.obj P)))
    else .error (.assertion "We shouldn't be adding a null CV to Variables map.")
  | none, .Other => .error (.unreachable "unknown decl type")

/-- `ProgramInfo::addVariable`: the state after the call and the calls made into
the constraint-variable layer, in order. `New K` is the address that the
`K`-th `new` of the call returns. -/
def addVariable (X : Externals) (I : ProgramInfo) (D : DeclaratorDecl) (New : Nat → Nat) :
    Except Failure (ProgramInfo × List LayerCall) :=
  if I.Persisted then .error .persisted
  else
    let PLoc := D.PSL
    if !X.valid PLoc then .error (.assertion "PLoc.valid()")
    else addVariableChecked X I D New

/-! ## Compilation units -/

/-- `ProgramInfo::enterCompilationUnit`: the `MappingVisitor` is run on an empty
set of locations and writes nothing to the `ProgramInfo`. -/
def enterCompilationUnit (I : ProgramInfo) : Except Failure ProgramInfo :=
  if I.Persisted then .ok { I with Persisted := false } else .error .persisted

/-- `ProgramInfo::exitCompilationUnit`. -/
def exitCompilationUnit (I : ProgramInfo) : Except Failure ProgramInfo :=
  if !I.Persisted then .ok { I with Persisted := true } else .error .persisted

/-- A call of one of the four operations that assert on `Persisted`. -/
inductive Call where
  | enterCompilationUnit
  | exitCompilationUnit
  | addVariable (D : DeclaratorDecl) (New : Nat → Nat)
  | getVariable (D : Decl) (A : Nat)

/-- The state after one call. -/
def Call.run (X : Externals) (I : ProgramInfo) : Call → Except Failure ProgramInfo
  | .enterCompilationUnit => ThreeC.enterCompilationUnit I
  | .exitCompilationUnit => ThreeC.exitCompilationUnit I
  | .addVariable D New =>
    match ThreeC.addVariable X I D New with
    | .error e => .error e
    | .ok St => .ok St.1
  | .getVariable D A =>
    match ThreeC.getVariable I D A with
    | .error e => .error e
    | .ok R => .ok R.1

/-- The state after a sequence of calls; the first call that does not return
ends the run. -/
def runCalls (X : Externals) : ProgramInfo → List Call → Except Failure ProgramInfo
  | I, [] => .ok I
  | I, c :: cs =>
    match c.run X I with
    | .error e => .error e
    | .ok I' => runCalls X I' cs

/-! ## The expression caches -/

/-- What the cache operations read of an `Expr`: its location, the test
`isa<ImplicitCastExpr>(E)` and `Rewriter::isRewritable(E->getBeginLoc())`. -/
structure Expr where
  PSL : PersistentSourceLoc
  ImplicitCast : Bool
  Rewritable : Bool
deriving DecidableEq, Repr

/-- `ProgramInfo::hasPersistentConstraints`. -/
def hasPersistentConstraints (X : Externals) (I : ProgramInfo) (E : Expr) : Bool :=
  let PSL := E.PSL
  let HasImpCastConstraint :=
    E.ImplicitCast && StdMap.contains I.ImplicitCastConstraintVars PSL
      && !(StdMap.index I.ImplicitCastConstraintVars PSL).isEmpty
  let HasExprConstraint :=
    !E.ImplicitCast && StdMap.contains I.ExprConstraintVars PSL
      && !(StdMap.index I.ExprConstraintVars PSL).isEmpty
  X.valid PSL && (HasExprConstraint || HasImpCastConstraint)

/-- The value of `Map.at(k)`, which throws for an absent key. -/
def StdMap.at {K V : Type} [DecidableEq K] (m : StdMap K V) (k : K) : Except Failure V :=
  match StdMap.find m k with
  | some v => .ok v
  | none => .error (.thrown "std::out_of_range")

/-- `ProgramInfo::getPersistentConstraints`. -/
def getPersistentConstraints (X : Externals) (I : ProgramInfo) (E : Expr) :
    Except Failure (List CVRef) :=
  if !hasPersistentConstraints X I E then
    .error (.assertion "Persistent constraints not present.")
  else
    let PLoc := E.PSL
    if E.ImplicitCast then StdMap.at I.ImplicitCastConstraintVars PLoc
    else StdMap.at I.ExprConstraintVars PLoc

/-- `ProgramInfo::storePersistentConstraints`: `ExprMap[PSL].insert` of all
elements of `Vars`. -/
def storePersistentConstraints (X : Externals) (I : ProgramInfo) (E : Expr)
    (Vars : List CVRef) : ProgramInfo :=
  let PSL := E.PSL
  if X.valid PSL && E.Rewritable then
    if E.ImplicitCast then
      { I with
        ImplicitCastConstraintVars :=
          StdMap.set (StdMap.touch I.ImplicitCastConstraintVars PSL) PSL
            (Vars.foldl refInsert (StdMap.index I.ImplicitCastConstraintVars PSL)) }
    else
      { I with
        ExprConstraintVars :=
          StdMap.set (StdMap.touch I.ExprConstraintVars PSL) PSL
            (Vars.foldl refInsert (StdMap.index I.ExprConstraintVars PSL)) }
  else I

/-! ## Type parameter bindings -/

/-- What the binding operations read of a `CallExpr`: its location. -/
structure CallExpr where
  PSL : PersistentSourceLoc
deriving DecidableEq, Repr

/-- `ProgramInfo::setTypeParamBinding`: `CallMap` is a copy of
`TypeParamBindings[PSL]`, which `operator[]` creates when it is absent. -/
def setTypeParamBinding (I : ProgramInfo) (CE : CallExpr) (TypeVarIdx : Nat) (CV : CVRef) :
    Except Failure ProgramInfo :=
  let PSL := CE.PSL
  let CallMap := StdMap.index I.TypeParamBindings PSL
  let T1 := StdMap.touch I.TypeParamBindings PSL
  if StdMap.contains CallMap TypeVarIdx then
    .error (.assertion "Attempting to overwrite type param binding in ProgramInfo.")
  else
    .ok { I with
          TypeParamBindings := StdMap.set T1 PSL (StdMap.set (StdMap.index T1 PSL) TypeVarIdx CV) }

/-- `ProgramInfo::hasTypeParamBindings`. -/
def hasTypeParamBindings (I : ProgramInfo) (CE : CallExpr) : Bool :=
  StdMap.contains I.TypeParamBindings CE.PSL

/-- `ProgramInfo::getTypeParamBindings`. -/
def getTypeParamBindings (I : ProgramInfo) (CE : CallExpr) :
    Except Failure (StdMap Nat CVRef) :=
  if !StdMap.contains I.TypeParamBindings CE.PSL then
    .error (.assertion "Type parameter bindings could not be found.")
  else StdMap.at I.TypeParamBindings CE.PSL

/-- The state after a sequence of `setTypeParamBinding` calls; the first call
whose assertion fails ends the run. -/
def setTypeParamBindings :
    ProgramInfo → List (CallExpr × Nat × CVRef) → Except Failure ProgramInfo
  | I, [] => .ok I
  | I, (CE, TypeVarIdx, CV) :: Bs =>
    match setTypeParamBinding I CE TypeVarIdx CV with
    | .error e => .error e
    | .ok I' => setTypeParamBindings I' Bs

/-! ## The driver -/

/-- The `_3CInterface` as `main` uses it: `create` is the state of the interface
that `_3CInterface::create` returns, `none` for a null pointer; each phase
returns its result and the state of the interface after it. -/
structure Interface (σ : Type) where
  create : Option σ
  buildInitialConstraints : σ → Bool × σ
  solveConstraints : σ → Bool × σ
  writeAllConvertedFilesToDisk : σ → Bool × σ

/-- The calls of `main` on the interface. -/
inductive Phase where
  | create
  | buildInitialConstraints
  | solveConstraints
  | writeAllConvertedFilesToDisk
deriving DecidableEq, Repr

/-- Lines 310-357 of `main` in `3CStandalone.cpp`: the value returned and the
calls made on the interface, in order. -/
def main {σ : Type} (X : Interface σ) : Nat × List Phase :=
  match X.create with
  | none => (1, [.create])
  | some S0 =>
    let R1 := X.buildInitialConstraints S0
    if !R1.1 then (1, [.create, .buildInitialConstraints])
    else
      let R2 := X.solveConstraints R1.2
      if !R2.1 then (1, [.create, .buildInitialConstraints, .solveConstraints])
      else
        let R3 := X.writeAllConvertedFilesToDisk R2.2
        if !R3.1 then
          (1, [.create, .buildInitialConstraints, .solveConstraints,
            .writeAllConvertedFilesToDisk])
        else
          (0, [.create, .buildInitialConstraints, .solveConstraints,
            .writeAllConvertedFilesToDisk])

/-! ## Typedefs -/

/-- `ProgramInfo::lookupTypedef`: the state after the call and the pair that the
call returns; `TypedefVars[PSL]` is an `operator[]` access. -/
def lookupTypedef (I : ProgramInfo) (PSL : PersistentSourceLoc) :
    ProgramInfo × (List PVRef × Bool) :=
  ({ I with TypedefVars := StdMap.touch I.TypedefVars PSL }, StdMap.index I.TypedefVars PSL)

/-- `ProgramInfo::seenTypedef`: `TypedefVars.count(PSL) != 0`. -/
def seenTypedef (I : ProgramInfo) (PSL : PersistentSourceLoc) : Bool :=
  StdMap.contains I.TypedefVars PSL

/-- `ProgramInfo::addTypedef`. -/
def addTypedef (I : ProgramInfo) (PSL : PersistentSourceLoc) (ShouldCheck : Bool) :
    ProgramInfo :=
  { I with TypedefVars := StdMap.set I.TypedefVars PSL ([], ShouldCheck) }

/-! ## The allocator list of the driver -/

/-- `Malloc.find(Delimiter)` for the delimiter `","`: the position of the first
comma, `none` for `std::string::npos`. -/
def findDelimiter : List Char → Option Nat
  | [] => none
  | c :: s => if c = ',' then some 0 else (findDelimiter s).map (fun Pos => Pos + 1)

/-- The `while` loop of lines 300-304 of `main`, run for at most `Fuel` tests of
its condition: `Malloc` and `AllocatorFunctions` when the loop is left, `none`
when the fuel does not suffice. -/
def splitLoop : Nat → List Char → List (List Char) → Option (List Char × List (List Char))
  | 0, _, _ => none
  | Fuel + 1, Malloc, AllocatorFunctions =>
    match findDelimiter Malloc with
    | some Pos =>
      let Token := Malloc.take Pos
      splitLoop Fuel (Malloc.drop (Pos + 1)) (AllocatorFunctions ++ [Token])
    | none => some (Malloc, AllocatorFunctions)

/-- Lines 295-308 of `main`: `CcOptions.AllocatorFunctions`, empty in the fresh
`CcOptions`, after the value `Malloc` of `-use-malloc` has been split. -/
def allocatorFunctions (Fuel : Nat) (Malloc : List Char) : Option (List (List Char)) :=
  if !Malloc.isEmpty then
    match splitLoop Fuel Malloc [] with
    | none => none
    | some (Rest, AllocatorFunctions) =>
      let Token := Rest
      some (AllocatorFunctions ++ [Token])
  else some []

/-! ## Runs of function insertions -/

/-- The heap and the map after a sequence of `insertIntoExternalFunctionMap`
calls on one map, each with the name and the address of the new variable; a
fatal call ends the run. -/
def insertAll (ops : CVOps) :
    FVHeap → ExternalFunctionMapType → List (String × Nat) →
      Except Nat (FVHeap × ExternalFunctionMapType)
  | H, Map, [] => .ok (H, Map)
  | H, Map, (FuncName, NewC) :: Calls =>
    match insertIntoExternalFunctionMap ops H Map FuncName NewC with
    | .error e => .error e
    | .ok (H', Map') => insertAll ops H' Map' Calls

/-- The heap and the map after a sequence of `insertIntoStaticFunctionMap` calls
on one map, each with the function name, the file name and the address of
the new variable; a fatal call ends the run. -/
def insertAllStatic (ops : CVOps) :
    FVHeap → StaticFunctionMapType → List (String × String × Nat) →
      Except Nat (FVHeap × StaticFunctionMapType)
  | H, Map, [] => .ok (H, Map)
  | H, Map, (FuncName, FileName, ToIns) :: Calls =>
    match insertIntoStaticFunctionMap ops H Map FuncName FileName ToIns with
    | .error e => .error e
    | .ok (H', Map') => insertAllStatic ops H' Map' Calls

/-! ## Statistics -/

mutual
/-- The static `getVarsFromConstraint` on a pointer variable: its atoms are
put at the front of `R`, then the embedded function variable is visited. -/
def PVConstraint.getVarsFromConstraint : PVConstraint → List Atom → List Atom
  | .mk vars fv _ _ _, R =>
    match fv with
    | none => vars ++ R
    | some FVC => FVC.getVarsFromConstraint (vars ++ R)
/-- The static `getVarsFromConstraint` on a function variable: the external
return, then the external parameters in order. -/
def FVConstraint.getVarsFromConstraint : FVConstraint → List Atom → List Atom
  | .mk (e, _) ps _ _, R => paramsVarsFromConstraint ps (e.getVarsFromConstraint R)
/-- The loop over the parameters of `getVarsFromConstraint`. -/
def paramsVarsFromConstraint : List (PVConstraint × PVConstraint) → List Atom → List Atom
  | [], R => R
  | (e, _) :: ps, R => paramsVarsFromConstraint ps (e.getVarsFromConstraint R)
end

/-- The static `getVarsFromConstraint` on a pointer as `Variables` stores it. -/
def getVarsFromConstraint (I : ProgramInfo) : CVRef → List Atom → List Atom
  | .PV P, R => (I.deref P).getVarsFromConstraint R
  | .FV F, R => (I.FVs F).getVarsFromConstraint R

/-- The flag that `isForValidDecl()` reads through a pointer of `Variables`. -/
def CVRef.isForValidDecl (I : ProgramInfo) : CVRef → Bool
  | .PV P => (I.deref P).isForValidDecl
  | .FV F => (I.FVs F).isForValidDecl

/-- What `printStats` reads from outside `ProgramInfo.cpp`: the solution
`CS.getAssignment`, the options `AllTypes`, `EnablePropThruIType` and
`HandleVARARGS`, and the text that `ArrBInfo.printStats(O, InSrcCVars,
JsonFormat)` writes. -/
structure StatsEnv where
  getAssignment : Atom → Atom
  AllTypes : Bool
  EnablePropThruIType : Bool
  HandleVARARGS : Bool
  boundsStats : List CVRef → Bool → String

/-- The tuple `(VarC, PC, NtaC, AC, WC)` of a file. The counters are `int`s (and
the totals `unsigned int`s) that count atoms held in memory; they are taken in
ℕ, so a run that leaves the range of `int` is outside the model. -/
structure FileStats where
  VarC : Nat
  PC : Nat
  NtaC : Nat
  AC : Nat
  WC : Nat
deriving DecidableEq, Repr

instance : Inhabited FileStats := ⟨⟨0, 0, 0, 0, 0⟩⟩

/-- The loop over `FoundVars` of `printStats` (lines 182-201). -/
def countAssignments (Env : StatsEnv) : List Atom → FileStats → Except Failure FileStats
  | [], S => .ok S
  | N :: Ns, S =>
    match Env.getAssignment N with
    | .Arr => countAssignments Env Ns { S with AC := S.AC + 1 }
    | .NTArr => countAssignments Env Ns { S with NtaC := S.NtaC + 1 }
    | .Ptr => countAssignments Env Ns { S with PC := S.PC + 1 }
    | .Wild => countAssignments Env Ns { S with WC := S.WC + 1 }
    | .Var _ => .error (.unreachable "bad constant in environment map")

/-- The body of the first loop of `printStats` (lines 163-205) for one entry of
`Variables`: `FilesToVars` and `InSrcCVars` after it. -/
def statsStep (Env : StatsEnv) (I : ProgramInfo) (F : List String)
    (Acc : StdMap String FileStats × List CVRef) (E : PersistentSourceLoc × CVRef) :
    Except Failure (StdMap String FileStats × List CVRef) :=
  let FileName := E.1.FileName
  if FileName ∈ F then
    let S0 : FileStats :=
      match StdMap.find Acc.1 FileName with
      | some J => J
      | none => ⟨0, 0, 0, 0, 0⟩
    let C := E.2
    if C.isForValidDecl I then
      let InSrcCVars := refInsert Acc.2 C
      let FoundVars := getVarsFromConstraint I C []
      match countAssignments Env FoundVars { S0 with VarC := S0.VarC + FoundVars.length } with
      | .error e => .error e
      | .ok S1 => .ok (StdMap.set Acc.1 FileName S1, InSrcCVars)
    else .ok (StdMap.set Acc.1 FileName S0, Acc.2)
  else .ok Acc

/-- The first loop of `printStats` (lines 162-206), over the entries of
`Variables` in order. -/
def aggregateStats (Env : StatsEnv) (I : ProgramInfo) (F : List String) :
    StdMap String FileStats × List CVRef → List (PersistentSourceLoc × CVRef) →
      Except Failure (StdMap String FileStats × List CVRef)
  | Acc, [] => .ok Acc
  | Acc, E :: Es =>
    match statsStep Env I F Acc E with
    | .error e => .error e
    | .ok Acc' => aggregateStats Env I F Acc' Es

/-- The text of `O << b` for a `bool`. -/
def showBool (b : Bool) : String := if b then "1" else "0"

/-- The body of the second loop of `printStats` (lines 223-249) for one row: the
output, the totals `(TotC, TotP, TotNt, TotA, TotWi)` and `AddComma` after it. -/
def dumpRow (OnlySummary JsonFormat : Bool) (St : String × FileStats × Bool)
    (Row : String × FileStats) : String × FileStats × Bool :=
  let O := St.1
  let AddComma := St.2.2
  let V := Row.2.VarC
  let P := Row.2.PC
  let Nt := Row.2.NtaC
  let A := Row.2.AC
  let W := Row.2.WC
  let Tot : FileStats :=
    ⟨St.2.1.VarC + V, St.2.1.PC + P, St.2.1.NtaC + Nt, St.2.1.AC + A, St.2.1.WC + W⟩
  if !OnlySummary then
    if JsonFormat then
      let O1 := if AddComma then O ++ ",\n" else O
      (O1 ++ "\x7b\"" ++ Row.1 ++ "\":\x7b"
          ++ "\"constraints\":" ++ toString V ++ ","
          ++ "\"ptr\":" ++ toString P ++ ","
          ++ "\"ntarr\":" ++ toString Nt ++ ","
          ++ "\"arr\":" ++ toString A ++ ","
          ++ "\"wild\":" ++ toString W
          ++ "\x7d\x7d",
        Tot, true)
    else
      (O ++ Row.1 ++ "|" ++ toString V ++ "|" ++ toString P ++ "|" ++ toString Nt ++ "|"
          ++ toString A ++ "|" ++ toString W ++ "\n",
        Tot, AddComma)
  else (O, Tot, AddComma)

/-- What `printStats` has computed and written when it returns: `FilesToVars`,
`InSrcCVars`, the totals and the text written to `O`. -/
structure StatsResult where
  FilesToVars : StdMap String FileStats
  InSrcCVars : List CVRef
  Tot : FileStats
  O : String

/-- `ProgramInfo::printStats`. -/
def printStats (Env : StatsEnv) (I : ProgramInfo) (F : List String)
    (OnlySummary JsonFormat : Bool) : Except Failure StatsResult :=
  let O0 : String :=
    if !OnlySummary && !JsonFormat then
      "Enable itype propagation:" ++ showBool Env.EnablePropThruIType ++ "\n"
        ++ "Sound handling of var args functions:" ++ showBool Env.HandleVARARGS ++ "\n"
    else ""
  match aggregateStats Env I F ([], []) I.Variables with
  | .error e => .error e
  | .ok (FilesToVars, InSrcCVars) =>
    let O1 := if JsonFormat then O0 ++ "\x7b\"Stats\":\x7b" ++ "\"ConstraintStats\":\x7b" else O0
    let O2 :=
      if !OnlySummary then
        if JsonFormat then O1 ++ "\"Individual\":["
        else O1 ++ "file|#constraints|#ptr|#ntarr|#arr|#wild\n"
      else O1
    let St := FilesToVars.foldl (dumpRow OnlySummary JsonFormat) (O2, ⟨0, 0, 0, 0, 0⟩, false)
    let O3 := St.1
    let Tot := St.2.1
    let O4 := if !OnlySummary && JsonFormat then O3 ++ "]," else O3
    let O5 :=
      if !JsonFormat then
        O4 ++ "Summary\nTotalConstraints|TotalPtrs|TotalNTArr|TotalArr|TotalWild\n"
          ++ toString Tot.VarC ++ "|" ++ toString Tot.PC ++ "|" ++ toString Tot.NtaC ++ "|"
          ++ toString Tot.AC ++ "|" ++ toString Tot.WC ++ "\n"
      else
        O4 ++ "\"Summary\":\x7b"
          ++ "\"TotalConstraints\":" ++ toString Tot.VarC ++ ","
          ++ "\"TotalPtrs\":" ++ toString Tot.PC ++ ","
          ++ "\"TotalNTArr\":" ++ toString Tot.NtaC ++ ","
          ++ "\"TotalArr\":" ++ toString Tot.AC ++ ","
          ++ "\"TotalWild\":" ++ toString Tot.WC
          ++ "\x7d\x7d,\n"
    let O6 :=
      if Env.AllTypes then
        (if JsonFormat then O5 ++ "\"BoundsStats\":" else O5)
          ++ Env.boundsStats InSrcCVars JsonFormat
      else O5
    let O7 := if JsonFormat then O6 ++ "\x7d\x7d" else O6
    .ok ⟨FilesToVars, InSrcCVars, Tot, O7⟩

/-! ## Root causes -/

/-- What `computeInterimConstraintState` reads of the checked constraint graph
`CS.getChkCG()` (class `ConstraintsGraph`, defined outside `ProgramInfo.cpp`):
`getSuccessors A` are the atoms that `getSuccessors(A, S)` puts into `S`, in
the order in which `S` is iterated, and `visitBreadthFirst Start` the atoms on
which `visitBreadthFirst(Start, Visitor)` calls the visitor, in order. -/
structure ConstraintsGraph where
  getSuccessors : Atom → List Atom
  visitBreadthFirst : Atom → List Atom

/-- A step from a pointer variable through its embedded function variable, to
the external return or to an external parameter of that function variable. -/
inductive Via where
  | externalReturn
  | externalParam (I : Nat)
deriving DecidableEq, Repr

/-- A pointer to a `PVConstraint` of the object graph: a pointer variable that
a table can hold, followed by the steps that lead from it to a component of
its embedded function variables. -/
structure PVPtr where
  root : PVRef
  path : List Via
deriving DecidableEq, Repr

/-- Pointers are ordered by address, which the model does not fix: a map keyed
by pointers keeps its keys in the order of their insertion. -/
instance : KeyOrder PVPtr := ⟨fun _ _ => false⟩

/-- See the order of `PVPtr`: the atoms that key `ImpMap` are pointers. -/
instance : KeyOrder Atom := ⟨fun _ _ => false⟩

/-- The fields of `CState` that `computeInterimConstraintState` and
`computePtrLevelStats` compute from the graph (the class is declared outside
`ProgramInfo.cpp`); a `CVars` is a `std::set<ConstraintKey>`. The fields
`ValidSourceFiles`, `AtomSourceMap` and `RootWildAtomsWithReason`, which lines
922-941 write and nothing here reads, are left out. -/
structure ConstraintsInfo where
  AllWildAtoms : List Nat := []
  InSrcWildAtoms : List Nat := []
  TotalNonDirectWildAtoms : List Nat := []
  InSrcNonDirectWildAtoms : List Nat := []
  RCMap : StdMap Nat (List Nat) := []
  SrcWMap : StdMap Nat (List Nat) := []
  PtrRCMap : StdMap PVPtr (List Nat) := []
  PtrSrcWMap : StdMap Nat (List PVPtr) := []

/-- The loop over `PVC->getCvars()` of `insertCVAtoms` (lines 975-982); `Proto`
is `PVC->isPartOfFunctionPrototype()`. -/
def insertOwnAtoms : List Atom → Bool → PVPtr → StdMap Nat PVPtr →
    Except Failure (StdMap Nat PVPtr)
  | [], _, _, AtomMap => .ok AtomMap
  | A :: As, Proto, PVC, AtomMap =>
    match A with
    | .Var Loc =>
      if StdMap.contains AtomMap Loc && !Proto then
        .error (.assertion
          "AtomMap.find(VA->getLoc()) == AtomMap.end() || PVC->isPartOfFunctionPrototype()")
      else insertOwnAtoms As Proto PVC (StdMap.set AtomMap Loc PVC)
    | _ => insertOwnAtoms As Proto PVC AtomMap

mutual
/-- `ProgramInfo::insertCVAtoms` on the pointer variable that `PVC` points to. -/
def PVConstraint.insertCVAtoms : PVConstraint → PVPtr → StdMap Nat PVPtr →
    Except Failure (StdMap Nat PVPtr)
  | .mk vars fv _ _ p, PVC, AtomMap =>
    match insertOwnAtoms vars p PVC AtomMap with
    | .error e => .error e
    | .ok AtomMap1 =>
      match fv with
      | none => .ok AtomMap1
      | some FVC => FVC.insertCVAtoms (fun V => ⟨PVC.root, PVC.path ++ [V]⟩) AtomMap1
/-- `ProgramInfo::insertCVAtoms` on a function variable; `Component V` is the
pointer to its external return or external parameter. -/
def FVConstraint.insertCVAtoms : FVConstraint → (Via → PVPtr) → StdMap Nat PVPtr →
    Except Failure (StdMap Nat PVPtr)
  | .mk (e, _) ps _ _, Component, AtomMap =>
    match e.insertCVAtoms (Component .externalReturn) AtomMap with
    | .error err => .error err
    | .ok AtomMap1 => insertParamsCVAtoms ps Component 0 AtomMap1
/-- The loop over the parameters of `insertCVAtoms` (lines 987-988), from
parameter `J` on. -/
def insertParamsCVAtoms : List (PVConstraint × PVConstraint) → (Via → PVPtr) → Nat →
    StdMap Nat PVPtr → Except Failure (StdMap Nat PVPtr)
  | [], _, _, AtomMap => .ok AtomMap
  | (e, _) :: ps, Component, J, AtomMap =>
    match e.insertCVAtoms (Component (.externalParam J)) AtomMap with
    | .error err => .error err
    | .ok AtomMap1 => insertParamsCVAtoms ps Component (J + 1) AtomMap1
end

/-- The pointers to the external return and the external parameters of the
function variable at address `F`. -/
def componentOf (F : Nat) : Via → PVPtr
  | .externalReturn => ⟨.externalReturn F, []⟩
  | .externalParam J => ⟨.externalParam F J, []⟩

/-- `ProgramInfo::insertCVAtoms` on a pointer as `Variables` stores it. -/
def insertCVAtoms (I : ProgramInfo) : CVRef → StdMap Nat PVPtr →
    Except Failure (StdMap Nat PVPtr)
  | .PV P, AtomMap => (I.deref P).insertCVAtoms ⟨P, []⟩ AtomMap
  | .FV F, AtomMap => (I.FVs F).insertCVAtoms (componentOf F) AtomMap

/-- The first loop of `computePtrLevelStats` (lines 997-998). -/
def buildAtomPtrMap (I : ProgramInfo) :
    StdMap Nat PVPtr → List (PersistentSourceLoc × CVRef) → Except Failure (StdMap Nat PVPtr)
  | AtomPtrMap, [] => .ok AtomPtrMap
  | AtomPtrMap, E :: Es =>
    match insertCVAtoms I E.2 AtomPtrMap with
    | .error e => .error e
    | .ok AtomPtrMap1 => buildAtomPtrMap I AtomPtrMap1 Es

/-- The second loop of `computePtrLevelStats` (lines 1001-1007), over the entries
of `RCMap`. -/
def ptrRCLoop (AtomPtrMap : StdMap Nat PVPtr) :
    StdMap PVPtr (List Nat) → List (Nat × List Nat) → Except Failure (StdMap PVPtr (List Nat))
  | PtrRCMap, [] => .ok PtrRCMap
  | PtrRCMap, Entry :: Entries =>
    match StdMap.find AtomPtrMap Entry.1 with
    | none => .error (.assertion "RCMap entry is not mapped to a pointer!")
    | some CV =>
      ptrRCLoop AtomPtrMap
        (Entry.2.foldl (fun M RC => StdMap.set M CV (setInsert (StdMap.index M CV) RC))
          PtrRCMap)
        Entries

/-- The inner loop of lines 1009-1012, over the keys of one entry of `SrcWMap`. -/
def ptrSrcWInner (AtomPtrMap : StdMap Nat PVPtr) (First : Nat) :
    StdMap Nat (List PVPtr) → List Nat → Except Failure (StdMap Nat (List PVPtr))
  | PtrSrcWMap, [] => .ok PtrSrcWMap
  | PtrSrcWMap, Key :: Keys =>
    match StdMap.find AtomPtrMap Key with
    | none => .error (.assertion "AtomPtrMap.find(Key) != AtomPtrMap.end()")
    | some CV =>
      ptrSrcWInner AtomPtrMap First
        (StdMap.set PtrSrcWMap First (refInsert (StdMap.index PtrSrcWMap First) CV)) Keys

/-- The third loop of `computePtrLevelStats` (lines 1008-1013), over the entries
of `SrcWMap`. -/
def ptrSrcWLoop (AtomPtrMap : StdMap Nat PVPtr) :
    StdMap Nat (List PVPtr) → List (Nat × List Nat) →
      Except Failure (StdMap Nat (List PVPtr))
  | PtrSrcWMap, [] => .ok PtrSrcWMap
  | PtrSrcWMap, Entry :: Entries =>
    match ptrSrcWInner AtomPtrMap Entry.1 PtrSrcWMap Entry.2 with
    | .error e => .error e
    | .ok PtrSrcWMap1 => ptrSrcWLoop AtomPtrMap PtrSrcWMap1 Entries

/-- `ProgramInfo::computePtrLevelStats`: `CState` after the call, together with
the local `AtomPtrMap`. -/
def computePtrLevelStats (I : ProgramInfo) (CState : ConstraintsInfo) :
    Except Failure (ConstraintsInfo × StdMap Nat PVPtr) :=
  match buildAtomPtrMap I [] I.Variables with
  | .error e => .error e
  | .ok AtomPtrMap =>
    match ptrRCLoop AtomPtrMap CState.PtrRCMap CState.RCMap with
    | .error e => .error e
    | .ok PtrRCMap =>
      match ptrSrcWLoop AtomPtrMap CState.PtrSrcWMap CState.SrcWMap with
      | .error e => .error e
      | .ok PtrSrcWMap =>
        .ok ({ CState with PtrRCMap := PtrRCMap, PtrSrcWMap := PtrSrcWMap }, AtomPtrMap)

/-- The body of the first loop of `computeInterimConstraintState` (lines
846-854) for one entry of `Variables`: `ValidVarsVec` and `AllValidVars`
after it. -/
def validVarsStep (X : Externals) (I : ProgramInfo) (Acc : List Atom × List Atom)
    (E : PersistentSourceLoc × CVRef) : List Atom × List Atom :=
  let FileName := E.1.FileName
  let C := E.2
  if C.isForValidDecl I then
    let Tmp := getVarsFromConstraint I C []
    let AllValidVars := Tmp.foldl refInsert Acc.2
    if X.canWrite FileName then (Tmp ++ Acc.1, AllValidVars) else (Acc.1, AllValidVars)
  else Acc

/-- The lambda `GetLocOrZero`. -/
def getLocOrZero : Atom → Nat
  | .Var Loc => Loc
  | _ => 0

/-- The loop of lines 885-890 for one constraint of the store: `ImpMap` after
it. `getLHS()` of a `Geq` is its field `L`. -/
def impMapStep (ImpMap : StdMap Atom (List Atom)) (C : Constraint × List String) :
    StdMap Atom (List Atom) :=
  match C.1 with
  | .implies Pre Con =>
    StdMap.set ImpMap Pre.L (refInsert (StdMap.index ImpMap Pre.L) Con.L)
  | _ => ImpMap

/-- The lambda `BFSVisitor` for the direct wild atom with key `VA`: `RCMap` and
`TmpCGrp` after a call on `SearchAtom`. -/
def bfsVisitor (AllValidVars : List Atom) (VA : Nat) (St : StdMap Nat (List Nat) × List Nat)
    (SearchAtom : Atom) : StdMap Nat (List Nat) × List Nat :=
  match SearchAtom with
  | .Var Loc =>
    if SearchAtom ∈ AllValidVars then
      (StdMap.set St.1 Loc (setInsert (StdMap.index St.1 Loc) VA), setInsert St.2 Loc)
    else St
  | _ => St

/-- The body of the loop over `DirectWildVarAtoms` (lines 893-916) for one atom:
`CState` after it. -/
def directWildStep (G : ConstraintsGraph) (ImpMap : StdMap Atom (List Atom))
    (AllValidVars : List Atom) (CState : ConstraintsInfo) (A : Atom) : ConstraintsInfo :=
  match A with
  | .Var VA =>
    let St1 := (G.visitBreadthFirst A).foldl (bfsVisitor AllValidVars VA) (CState.RCMap, [])
    let St2 :=
      if StdMap.contains ImpMap A then
        (StdMap.index ImpMap A).foldl
          (fun St ImpA =>
            match ImpA with
            | .Var _ => (G.visitBreadthFirst ImpA).foldl (bfsVisitor AllValidVars VA) St
            | _ => St)
          St1
      else St1
    let TmpCGrp := St2.2
    { CState with
      RCMap := St2.1
      TotalNonDirectWildAtoms := TmpCGrp.foldl setInsert CState.TotalNonDirectWildAtoms
      AllWildAtoms := setInsert CState.AllWildAtoms VA
      SrcWMap :=
        StdMap.set CState.SrcWMap VA (TmpCGrp.foldl setInsert (StdMap.index CState.SrcWMap VA)) }
  | _ => CState

/-- Modelled from the spec: `findIntersection` (a template of `Utils.h`, outside
`src/`): `InSrcWildAtoms` is `AllWildAtoms` "restricted to writable files";
the members of the first set that are in the second are put into the third. -/
def findIntersection (A B Out : List Nat) : List Nat :=
  (A.filter (fun K => decide (K ∈ B))).foldl setInsert Out

/-- Lines 843-872 of `computeInterimConstraintState`: `ValidVarsVec` and
`AllValidVars`. -/
def validVars (X : Externals) (I : ProgramInfo) : List Atom × List Atom :=
  I.Variables.foldl (validVarsStep X I) ([], [])

/-- Lines 843-920 of `computeInterimConstraintState`: `CState` before the maps
of the source locations and the pointer-level statistics are computed.
`CState.clear()` leaves every field empty; `AllValidVarsKey` is computed and
never read. -/
def interimState (X : Externals) (G : ConstraintsGraph) (I : ProgramInfo) : ConstraintsInfo :=
  let ValidVarsVec := (validVars X I).1
  let AllValidVars := (validVars X I).2
  let ValidVarsS := ValidVarsVec.foldl refInsert []
  let ValidVarsKey := ValidVarsS.foldl (fun K A => setInsert K (getLocOrZero A)) []
  let DirectWildVarAtoms := G.getSuccessors Atom.Wild
  let ImpMap := I.CS.foldl impMapStep []
  let CState := DirectWildVarAtoms.foldl (directWildStep G ImpMap AllValidVars) {}
  { CState with
    InSrcWildAtoms := findIntersection CState.AllWildAtoms ValidVarsKey CState.InSrcWildAtoms
    InSrcNonDirectWildAtoms :=
      findIntersection CState.TotalNonDirectWildAtoms ValidVarsKey
        CState.InSrcNonDirectWildAtoms }

/-- `ProgramInfo::computeInterimConstraintState`: `CState` after the call and the
value returned, with the `AtomPtrMap` of `computePtrLevelStats`. `FilePaths`
is not read. -/
def computeInterimConstraintState (X : Externals) (G : ConstraintsGraph) (I : ProgramInfo)
    (_FilePaths : List String) : Except Failure (ConstraintsInfo × Bool × StdMap Nat PVPtr) :=
  match computePtrLevelStats I (interimState X G I) with
  | .error e => .error e
  | .ok R => .ok (R.1, true, R.2)

/-! ## Predicates of the statements -/

/-- Every name of `ExternGVars` is a name of `GlobalVariableSymbols`; the
constructor and `addVariable`, the only writers of the two tables, keep it. -/
def ExternKeysInGlobals (I : ProgramInfo) : Prop :=
  ∀ VarName, StdMap.contains I.ExternGVars VarName = true →
    StdMap.contains I.GlobalVariableSymbols VarName = true

/-- The store holds the constraint of the request and, among its reasons, the
reason of the request: handing the request to the store changes nothing. -/
def Covered : Constraints → Request → Prop
  | [], _ => False
  | (c', rs) :: S, (c, r) => if c = c' then r ∈ rs else Covered S (c, r)

/-- The first sweep has made a `Same_to_Same` call on the two variables, in one
order or the other. -/
def GlobalsJoined (I : ProgramInfo) (a b : Nat) : Prop :=
  CVCall.constrainConsVarGeq (.obj a) (.obj b) .Same_to_Same true ∈ linkGlobalVariables I
    ∨ CVCall.constrainConsVarGeq (.obj b) (.obj a) .Same_to_Same true ∈ linkGlobalVariables I

/-- A name is in the external function map and in the static function map of
some file. -/
def InBothMaps (I : ProgramInfo) (FuncName : String) : Prop :=
  StdMap.contains I.ExternalFunctionFVCons FuncName = true
    ∧ ∃ FileName Sub, StdMap.find I.StaticFunctionFVCons FileName = some Sub
        ∧ StdMap.contains Sub FuncName = true

/-- The binding of a type variable index at a call site, if there is one. -/
def typeParamBinding (I : ProgramInfo) (PSL : PersistentSourceLoc) (TypeVarIdx : Nat) :
    Option CVRef :=
  StdMap.find (StdMap.index I.TypeParamBindings PSL) TypeVarIdx

/-- The cache of the kind of an expression: `ImplicitCastConstraintVars` for an
implicit cast, `ExprConstraintVars` otherwise. -/
def cacheOfKind (I : ProgramInfo) (ImplicitCast : Bool) :
    StdMap PersistentSourceLoc (List CVRef) :=
  if ImplicitCast then I.ImplicitCastConstraintVars else I.ExprConstraintVars

/-- The two states agree on `Persisted`, `ExternGVars` and
`GlobalVariableSymbols`. -/
def Frame (I I' : ProgramInfo) : Prop :=
  I'.Persisted = I.Persisted ∧ I'.ExternGVars = I.ExternGVars
    ∧ I'.GlobalVariableSymbols = I.GlobalVariableSymbols

/-- The sighting of a global variable that `addVariable` installs for a
declaration: a `VarDecl` of pointer or array type with global storage whose
location has no entry in `Variables`, with its name and whether it carries a
definition. -/
def sighting (I : ProgramInfo) (D : DeclaratorDecl) : Option (String × Bool) :=
  match StdMap.find I.Variables D.PSL, D.Kind with
  | none, .Var VarName false true true HasDefinition _ => some (VarName, HasDefinition)
  | _, _ => none

/-- The state after a sequence of `addVariable` calls, with the sightings of
global variables that the calls installed, in order; the first call that
does not return ends the run. -/
def addVariables (X : Externals) :
    ProgramInfo → List (DeclaratorDecl × (Nat → Nat)) →
      Except Failure (ProgramInfo × List (String × Bool))
  | I, [] => .ok (I, [])
  | I, (D, New) :: Ds =>
    match addVariable X I D New with
    | .error e => .error e
    | .ok St =>
      match addVariables X St.1 Ds with
      | .error e => .error e
      | .ok R => .ok (R.1, (sighting I D).toList ++ R.2)

/-- The per-file reading of static insertion: the external insertion policy on
the sub-map of the file, an absent file standing for an empty sub-map, and the
result stored back under the file. -/
def insertPerFile (ops : CVOps) (H : FVHeap) (Map : StaticFunctionMapType)
    (FuncName FileName : String) (ToIns : Nat) : Except Nat (FVHeap × StaticFunctionMapType) :=
  match insertIntoExternalFunctionMap ops H ((StdMap.find Map FileName).getD []) FuncName
      ToIns with
  | .error e => .error e
  | .ok (H', Sub) => .ok (H', StdMap.set Map FileName Sub)

/-- Whether a call is `enterCompilationUnit`. -/
def Call.isEnter : Call → Bool
  | .enterCompilationUnit => true
  | _ => false

/-- Whether a call is `exitCompilationUnit`. -/
def Call.isExit : Call → Bool
  | .exitCompilationUnit => true
  | _ => false

/-- The discipline of a sequence of calls on a store that has `Open` units open
at the start (0 for a persisted store, 1 for a live one): every
`enterCompilationUnit` comes when each earlier enter has been closed by an
exit, and every other call (`exitCompilationUnit`, `addVariable`,
`getVariable`) comes inside a unit, when exactly one enter is not closed yet.
For `Open = 0` the enters and exits alternate, starting with an enter, and
each `addVariable` and `getVariable` comes after an enter and before the exit
that closes it. -/
def Disciplined (Open : Nat) (cs : List Call) : Prop :=
  ∀ k c, cs[k]? = some c →
    Open + (cs.take k).countP Call.isEnter
      = (cs.take k).countP Call.isExit + (if c.isEnter then 0 else 1)

/-- The two states have the same tables, constraint store and heaps. -/
def SameTables (I I' : ProgramInfo) : Prop :=
  I'.Variables = I.Variables ∧ I'.ExternalFunctionFVCons = I.ExternalFunctionFVCons
    ∧ I'.StaticFunctionFVCons = I.StaticFunctionFVCons
    ∧ I'.GlobalVariableSymbols = I.GlobalVariableSymbols ∧ I'.ExternGVars = I.ExternGVars
    ∧ I'.CS = I.CS ∧ I'.FVs = I.FVs ∧ I'.PVs = I.PVs

/-- The tokens joined again, with a comma between neighbours. -/
def joinTokens : List (List Char) → List Char
  | [] => []
  | [Token] => Token
  | Token :: Tokens => Token ++ ',' :: joinTokens Tokens

/-- The atoms that an entry of `Variables` brings to the count of a file: those
that `getVarsFromConstraint` collects from its variable, if the location of
the entry is in the file and the variable is for a valid declaration. -/
def entryAtoms (I : ProgramInfo) (E : PersistentSourceLoc × CVRef) (File : String) :
    List Atom :=
  if E.1.FileName = File ∧ E.2.isForValidDecl I = true then getVarsFromConstraint I E.2 []
  else []

/-- The atoms that count for a file, over the entries `Es` of `Variables`. -/
def countedAtoms (I : ProgramInfo) : List (PersistentSourceLoc × CVRef) → String → List Atom
  | [], _ => []
  | E :: Es, File => entryAtoms I E File ++ countedAtoms I Es File

/-- The number of atoms of a list that the solution assigns the constant `K`. -/
def countKind (Env : StatsEnv) (K : Atom) (As : List Atom) : Nat :=
  As.countP (fun N => decide (Env.getAssignment N = K))

/-- The row of a list of atoms: their number, and how many of them the solution
assigns `PTR`, `NTARR`, `ARR` and `WILD`. -/
def rowOfAtoms (Env : StatsEnv) (As : List Atom) : FileStats :=
  ⟨As.length, countKind Env .Ptr As, countKind Env .NTArr As, countKind Env .Arr As,
    countKind Env .Wild As⟩

/-- The sum of two rows, column by column. -/
def FileStats.add (S T : FileStats) : FileStats :=
  ⟨S.VarC + T.VarC, S.PC + T.PC, S.NtaC + T.NtaC, S.AC + T.AC, S.WC + T.WC⟩

/-- The sum of the rows of a table, column by column. -/
def sumRows : List (String × FileStats) → FileStats
  | [] => ⟨0, 0, 0, 0, 0⟩
  | Row :: Rows => Row.2.add (sumRows Rows)

/-- The solution assigns one of the four lattice constants to the atom. -/
def IsLatticeConstant (Env : StatsEnv) (N : Atom) : Prop :=
  ∀ Loc, Env.getAssignment N ≠ Atom.Var Loc

/-- The constraints count of a row is the sum of its four other counters. -/
def RowOK (S : FileStats) : Prop := S.VarC = S.PC + S.NtaC + S.AC + S.WC

/-- The state `St'` of the visitor (`RCMap`, `TmpCGrp`) is the state `St` with
the keys `Hs`, all of variable atoms of valid declarations, attributed to the
direct wild atom `VA`. -/
def Attributed (AllValidVars : List Atom) (VA : Nat)
    (St St' : StdMap Nat (List Nat) × List Nat) (Hs : List Nat) : Prop :=
  (∀ a w, w ∈ StdMap.index St'.1 a ↔ w ∈ StdMap.index St.1 a ∨ (w = VA ∧ a ∈ Hs))
  ∧ (∀ a, a ∈ St'.2 ↔ a ∈ St.2 ∨ a ∈ Hs)
  ∧ (∀ a ∈ Hs, Atom.Var a ∈ AllValidVars)
  ∧ (∀ a, StdMap.contains St'.1 a = true → StdMap.contains St.1 a = true ∨ a ∈ Hs)

/-- What holds of `CState` during the loop over the direct wild atoms: `RCMap`
and `SrcWMap` are inverse relations, the keys of `SrcWMap` are the members of
`AllWildAtoms`, the causes in `RCMap` are members of `AllWildAtoms`, and the
keys of `RCMap` and the members of the sets of `SrcWMap` are keys of variable
atoms of valid declarations. -/
def InterimInv (AllValidVars : List Atom) (C : ConstraintsInfo) : Prop :=
  (∀ a w, w ∈ StdMap.index C.RCMap a ↔ a ∈ StdMap.index C.SrcWMap w)
  ∧ (∀ w, StdMap.contains C.SrcWMap w = true ↔ w ∈ C.AllWildAtoms)
  ∧ (∀ a w, w ∈ StdMap.index C.RCMap a → w ∈ C.AllWildAtoms)
  ∧ (∀ a, StdMap.contains C.RCMap a = true → Atom.Var a ∈ AllValidVars)
  ∧ (∀ w a, a ∈ StdMap.index C.SrcWMap w → Atom.Var a ∈ AllValidVars)

/-- The keys of a map over `ConstraintKey` are in strictly ascending order. -/
def KeysAscending {V : Type} (m : StdMap Nat V) : Prop :=
  (m.map Prod.fst).Pairwise (fun a b => a < b)

/-! ## Sample objects -/

/-- A pointer variable with one variable atom, part of a prototype. -/
def samplePV (Loc : Nat) : PVConstraint := .mk [Atom.Var Loc] none false true true

/-- The function variable of a definition `int *f(int *x) { ... }`. -/
def sampleDefinition : FVConstraint :=
  .mk (samplePV 1, samplePV 2) [(samplePV 3, samplePV 4)] true true

/-- The function variable of a prototype `int *f(int *x);`. -/
def samplePrototype : FVConstraint :=
  .mk (samplePV 11, samplePV 12) [(samplePV 13, samplePV 14)] false true

/-- A heap with the definition at address 0 and prototypes at 1 and 2. -/
def sampleFVs : FVHeap := fun A =>
  if A = 0 then sampleDefinition else if A = 1 ∨ A = 2 then samplePrototype else default

/-- A fresh `ProgramInfo` over the sample heap. -/
def sampleInfo : ProgramInfo := { ProgramInfo.new with FVs := sampleFVs }

/-- The state after one translation unit `a.c` that declares
`static int *f(int *x);` and never defines it: the prototype is at address 1. -/
def sampleStaticInfo : ProgramInfo :=
  { sampleInfo with StaticFunctionFVCons := [("a.c", [("f", 1)])] }

/-- The state after one translation unit that declares `int *f(int *x);`
with external linkage and never defines it: the prototype is at address 1. -/
def sampleExternalInfo : ProgramInfo :=
  { sampleInfo with ExternalFunctionFVCons := [("f", 1)] }

/-- The call `test_single(a, b)` of `t0` in `type_params.c`. -/
def sampleCallT0 : CallExpr := ⟨⟨"type_params.c", 14, 3⟩⟩

/-- The call `test_single(a, &c)` of `t1` in `type_params.c`. -/
def sampleCallT1 : CallExpr := ⟨⟨"type_params.c", 21, 3⟩⟩

/-- The state after `setTypeParamBinding` has bound index 0 at the call of `t0`
to the variable at address 5. -/
def sampleBoundInfo : ProgramInfo :=
  { ProgramInfo.new with
    TypeParamBindings := [(sampleCallT0.PSL, [(0, CVRef.PV (.obj 5))])] }

/-- A global function `f`, declared in `b.c`. -/
def sampleGlobalDecl : FunctionDecl := ⟨"f", true, ⟨"b.c", 1, 1⟩⟩

/-- A static function `f`, declared in `a.c`. -/
def sampleStaticDecl : FunctionDecl := ⟨"f", false, ⟨"a.c", 1, 1⟩⟩

/-- The addresses that the `new`s of a sample call return: 100, 101, ... -/
def sampleNew : Nat → Nat := fun K => 100 + K

/-- A live `ProgramInfo` with empty tables. -/
def sampleLiveInfo : ProgramInfo := { ProgramInfo.new with Persisted := false }

/-- A live `ProgramInfo` whose `Variables` holds the variable at address 7 for
the location `m.c:2:5`. -/
def sampleCollisionInfo : ProgramInfo :=
  { ProgramInfo.new with
    Persisted := false
    PVs := fun A => samplePV A
    Variables := [(⟨"m.c", 2, 5⟩, .PV (.obj 7))] }

/-- A local `int *q` whose location is `m.c:2:5` again and is rewritable. -/
def sampleCollidingDecl : DeclaratorDecl :=
  ⟨⟨"m.c", 2, 5⟩, true, none, false, false, false,
    .Var "q" false true false true (samplePV 30)⟩

/-- A local `void *p` at `a.c:3:9`, a rewritable location: `hasVoidType` holds of
it and `isVoidType` does not hold of its type. -/
def sampleVoidPtrDecl : DeclaratorDecl :=
  ⟨⟨"a.c", 3, 9⟩, true, none, false, true, false,
    .Var "p" false true false true (samplePV 40)⟩

/-- The declaration of `sampleCollidingDecl` at a location inside a macro
expansion. -/
def sampleMacroCollidingDecl : DeclaratorDecl :=
  { sampleCollidingDecl with Rewritable := false }

/-- A parameter `int *x` at `m.c:5:12`, inside a macro expansion. -/
def sampleMacroParm : ParmVarDecl := ⟨⟨"m.c", 5, 12⟩, false, none, false, false, false, true⟩

/-- A global definition `int *f(int *x) { ... }` at `m.c:5:1` that a macro
expands to. -/
def sampleMacroFunction : DeclaratorDecl :=
  ⟨⟨"m.c", 5, 1⟩, false, none, false, false, false,
    .Function "f" true none [sampleMacroParm] sampleDefinition⟩

/-- The result of `addVariable` on `sampleMacroFunction` in the live state with
empty tables. -/
def sampleMacroResult : ProgramInfo × List LayerCall :=
  match addVariable specExternals sampleLiveInfo sampleMacroFunction sampleNew with
  | .ok St => St
  | .error _ => (sampleLiveInfo, [])

/-- A file-scope `int *g` at line 1 of `FileName`, with a definition
(`int *g = 0;`) or without one (`extern int *g;`); its variable has the atom
`Loc`. -/
def sampleGlobalVar (FileName : String) (HasDefinition : Bool) (Loc : Nat) : DeclaratorDecl :=
  ⟨⟨FileName, 1, 6⟩, true, none, false, false, false,
    .Var "g" false true true HasDefinition (samplePV Loc)⟩

/-- The declaration `extern int *g;` of the header `g.h`, outside any macro: every
translation unit that includes `g.h` sees it at the location `g.h:1:6`, which
is rewritable. -/
def sampleHeaderDecl : DeclaratorDecl := sampleGlobalVar "g.h" false 50

/-- The result of `addVariable` on `sampleHeaderDecl` in the live state with
empty tables: the sighting from the first translation unit that includes
`g.h`. -/
def sampleHeaderSighting : ProgramInfo × List LayerCall :=
  match addVariable specExternals sampleLiveInfo sampleHeaderDecl sampleNew with
  | .ok St => St
  | .error _ => (sampleLiveInfo, [])

/-- Three sightings of `g`: `extern int *g;` in `a.c`, `int *g = 0;` in `b.c`
and `extern int *g;` in `c.c`; the `new`s return 100, 200 and 300. -/
def sampleGlobalDecls : List (DeclaratorDecl × (Nat → Nat)) :=
  [(sampleGlobalVar "a.c" false 50, fun K => 100 + K),
    (sampleGlobalVar "b.c" true 51, fun K => 200 + K),
    (sampleGlobalVar "c.c" false 52, fun K => 300 + K)]

/-- The result of `addVariables` on `sampleGlobalDecls` in the live state with
empty tables. -/
def sampleGlobalsRun : ProgramInfo × List (String × Bool) :=
  match addVariables specExternals sampleLiveInfo sampleGlobalDecls with
  | .ok R => R
  | .error _ => (sampleLiveInfo, [])

/-- Two translation units: the first adds the global `g` of `a.c` and looks up
the variable at its location, the second is empty. -/
def sampleCalls : List Call :=
  [.enterCompilationUnit, .addVariable (sampleGlobalVar "a.c" false 50) sampleNew,
    .getVariable (.Other ⟨"a.c", 1, 6⟩) 110, .exitCompilationUnit, .enterCompilationUnit,
    .exitCompilationUnit]

/-- The run of three insertions on the map that holds the definition of `f`
(address 0): the prototype at address 1 under `f`, the prototype at address 2
under `g`, and the prototype at address 2 under `f`. -/
def sampleInsertCalls : List (String × Nat) := [("f", 1), ("g", 2), ("f", 2)]

/-- The heap and the map after `sampleInsertCalls`. -/
def sampleInsertRun : FVHeap × ExternalFunctionMapType :=
  match insertAll specOps sampleFVs [("f", 0)] sampleInsertCalls with
  | .ok R => R
  | .error _ => (sampleFVs, [])

/-- A solution for the samples: a variable atom with an even key is `PTR`, one
with an odd key `WILD`; `AllTypes` is off. -/
def sampleStatsEnv : StatsEnv where
  getAssignment := fun A =>
    match A with
    | .Var Loc => if Loc % 2 = 0 then .Ptr else .Wild
    | K => K
  AllTypes := false
  EnablePropThruIType := false
  HandleVARARGS := false
  boundsStats := fun _ _ => ""

/-- A state with four entries in `Variables`: in `a.c` a valid `int *` (atom 50)
and a pointer that is not for a valid declaration (atom 60), in `b.c` the
definition of `f` (external atoms 1 and 3), in `c.c` a valid `int *` (atom
52). -/
def sampleStatsInfo : ProgramInfo :=
  { ProgramInfo.new with
    FVs := sampleFVs
    PVs := fun A => if A = 2 then .mk [Atom.Var 60] none false false false else samplePV (49 + A)
    Variables :=
      [(⟨"a.c", 1, 6⟩, .PV (.obj 1)), (⟨"a.c", 2, 6⟩, .PV (.obj 2)), (⟨"b.c", 1, 1⟩, .FV 0),
        (⟨"c.c", 1, 6⟩, .PV (.obj 3))] }

/-- What `printStats` computes and writes for `sampleStatsInfo` and the files
`a.c` and `b.c`, in JSON. -/
def sampleStatsResult : StatsResult :=
  match printStats sampleStatsEnv sampleStatsInfo ["a.c", "b.c"] false true with
  | .ok R => R
  | .error _ => ⟨[], [], default, ""⟩

/-- Three valid `int *` declarations of `a.c` with the atoms 1, 2 and 3; the
store holds `1 ⊒ WILD`, `2 ⊒ 1` and the implication `2 ⊒ WILD ⇒ 3 ⊒ WILD`. -/
def sampleBlameInfo : ProgramInfo :=
  { ProgramInfo.new with
    PVs := fun A => samplePV A
    Variables :=
      [(⟨"a.c", 1, 6⟩, .PV (.obj 1)), (⟨"a.c", 2, 6⟩, .PV (.obj 2)),
        (⟨"a.c", 3, 6⟩, .PV (.obj 3))]
    CS :=
      [(.geq ⟨.Var 1, .Wild, true⟩, ["cast"]), (.geq ⟨.Var 2, .Var 1, true⟩, [""]),
        (.implies ⟨.Var 2, .Wild, true⟩ ⟨.Var 3, .Wild, true⟩, [""])] }

/-- The checked graph of `sampleBlameInfo` after solving: `WILD` has the edges
to atom 1, from its constraint, and to atom 3, from the implication that
fired; atom 1 has the edge to atom 2. -/
def sampleBlameGraph : ConstraintsGraph where
  getSuccessors := fun A =>
    if A = .Wild then [.Var 1, .Var 3] else if A = .Var 1 then [.Var 2] else []
  visitBreadthFirst := fun A => if A = .Var 1 then [.Var 1, .Var 2] else [A]

/-! ## Lemmas on the containers -/

namespace StdMap

variable {K V : Type} [DecidableEq K] [KeyOrder K]

theorem find_set_self (m : StdMap K V) (k : K) (v : V) : find (set m k v) k = some v := by
  induction m with
  | nil => simp [set, find]
  | cons b m ih =>
    obtain ⟨k', v'⟩ := b
    by_cases h : k = k'
    · simp [set, find, h]
    · by_cases hl : KeyOrder.lt k k' = true
      · simp [set, find, h, hl]
      · simp [set, find, h, hl, ih]

theorem find_set_other (m : StdMap K V) (k k0 : K) (v : V) (hne : k0 ≠ k) :
    find (set m k v) k0 = find m k0 := by
  induction m with
  | nil => simp [set, find, hne]
  | cons b m ih =>
    obtain ⟨k', v'⟩ := b
    by_cases h : k = k'
    · subst h
      simp [set, find, hne]
    · by_cases hl : KeyOrder.lt k k' = true
      · simp [set, find, h, hl, hne]
      · simp [set, find, h, hl, ih]

theorem touch_eq_of_contains [Inhabited V] (m : StdMap K V) (k : K)
    (h : contains m k = true) : touch m k = m := by
  unfold contains at h
  unfold touch
  cases hf : find m k with
  | none => simp [hf] at h
  | some v => rfl

theorem find_touch_other [Inhabited V] (m : StdMap K V) (k k0 : K) (hne : k0 ≠ k) :
    find (touch m k) k0 = find m k0 := by
  unfold touch
  cases hf : find m k with
  | none => exact find_set_other m k k0 default hne
  | some v => rfl

theorem index_touch [Inhabited V] (m : StdMap K V) (k k0 : K) :
    index (touch m k) k0 = index m k0 := by
  by_cases hne : k0 = k
  · subst hne
    unfold index touch
    cases hf : find m k0 with
    | none => simp [find_set_self]
    | some v => simp [hf]
  · unfold index
    rw [find_touch_other m k k0 hne]

theorem contains_touch [Inhabited V] (m : StdMap K V) (k k0 : K)
    (h : contains m k0 = true) : contains (touch m k) k0 = true := by
  by_cases hne : k0 = k
  · subst hne
    rw [touch_eq_of_contains m k0 h]
    exact h
  · unfold contains
    rw [find_touch_other m k k0 hne]
    exact h

omit [KeyOrder K] in
theorem exists_mem_of_find (m : StdMap K V) (k : K) (v : V) (h : find m k = some v) :
    (k, v) ∈ m := by
  induction m with
  | nil => simp [find] at h
  | cons b m ih =>
    obtain ⟨k', v'⟩ := b
    by_cases hk : k = k'
    · subst hk
      simp [find] at h
      simp [h]
    · simp [find, hk] at h
      exact List.mem_cons_of_mem _ (ih h)

omit [KeyOrder K] in
theorem contains_of_mem (m : StdMap K V) (k : K) (v : V) (h : (k, v) ∈ m) :
    contains m k = true := by
  induction m with
  | nil => simp at h
  | cons b m ih =>
    obtain ⟨k', v'⟩ := b
    by_cases hk : k = k'
    · simp [contains, find, hk]
    · have : (k, v) ∈ m := by
        rcases List.mem_cons.1 h with h1 | h1
        · exact absurd (congrArg Prod.fst h1) hk
        · exact h1
      have := ih this
      simpa [contains, find, hk] using this

end StdMap

/-! ## Function insertion -/

theorem insert_absent (ops : CVOps) (H : FVHeap) (Map : ExternalFunctionMapType)
    (FuncName : String) (NewC : Nat) (hf : StdMap.find Map FuncName = none) :
    insertIntoExternalFunctionMap ops H Map FuncName NewC
      = .ok (H, StdMap.set Map FuncName NewC) := by
  simp [insertIntoExternalFunctionMap, hf]

theorem insert_replace (ops : CVOps) (H : FVHeap) (Map : ExternalFunctionMapType)
    (FuncName : String) (NewC OldC : Nat) (hf : StdMap.find Map FuncName = some OldC)
    (hO : (H OldC).hasBody = false)
    (hc : (H NewC).hasBody = true ∨ ((H OldC).numParams = 0 ∧ 1 ≤ (H NewC).numParams)) :
    insertIntoExternalFunctionMap ops H Map FuncName NewC
      = .ok (Function.update H NewC (ops.brainTransplant (H NewC) (H OldC)),
          StdMap.set Map FuncName NewC) := by
  have hb : ((H NewC).hasBody || ((H OldC).numParams == 0 && (H NewC).numParams != 0))
      = true := by
    rcases hc with h | ⟨h0, h1⟩
    · simp [h]
    · have : (H NewC).numParams ≠ 0 := by omega
      simp [h0, this]
  simp only [insertIntoExternalFunctionMap, hf, hO, hb]
  rfl

theorem insert_merge (ops : CVOps) (H : FVHeap) (Map : ExternalFunctionMapType)
    (FuncName : String) (NewC OldC : Nat) (hf : StdMap.find Map FuncName = some OldC)
    (hO : (H OldC).hasBody = false) (hN : (H NewC).hasBody = false)
    (hc : ¬ ((H OldC).numParams = 0 ∧ 1 ≤ (H NewC).numParams)) :
    insertIntoExternalFunctionMap ops H Map FuncName NewC
      = if (ops.mergeDeclaration (H OldC) (H NewC)).2 = "" then
          .ok (Function.update H OldC (ops.mergeDeclaration (H OldC) (H NewC)).1, Map)
        else .error 1 := by
  have hb : ((H NewC).hasBody || ((H OldC).numParams == 0 && (H NewC).numParams != 0))
      = false := by
    by_cases h0 : (H OldC).numParams = 0
    · have : (H NewC).numParams = 0 := by
        by_contra hne
        exact hc ⟨h0, by omega⟩
      simp [hN, this]
    · simp [hN, h0]
  simp only [insertIntoExternalFunctionMap, hf, hO, hb]
  by_cases hm : (ops.mergeDeclaration (H OldC) (H NewC)).2 = "" <;> simp [hm]

theorem insert_duplicate (ops : CVOps) (H : FVHeap) (Map : ExternalFunctionMapType)
    (FuncName : String) (NewC OldC : Nat) (hf : StdMap.find Map FuncName = some OldC)
    (hO : (H OldC).hasBody = true) (hN : (H NewC).hasBody = true) :
    insertIntoExternalFunctionMap ops H Map FuncName NewC = .error 1 := by
  simp [insertIntoExternalFunctionMap, hf, hO, hN]

theorem insert_prototype (ops : CVOps) (H : FVHeap) (Map : ExternalFunctionMapType)
    (FuncName : String) (NewC OldC : Nat) (hf : StdMap.find Map FuncName = some OldC)
    (hO : (H OldC).hasBody = true) (hN : (H NewC).hasBody = false) :
    insertIntoExternalFunctionMap ops H Map FuncName NewC
      = .ok (Function.update H NewC (ops.brainTransplant (H NewC) (H OldC)), Map) := by
  simp [insertIntoExternalFunctionMap, hf, hO, hN]

/-- C1: `insertIntoExternalFunctionMap(Map, name, NewC)` ends in `exit(1)` if
and only if `name` is already present as `OldC` and either both `OldC` and
`NewC` have bodies, or neither has a body, it is not the case that `OldC` has 0
parameters while `NewC` has at least 1, and `OldC.mergeDeclaration(NewC)`
reports a non-empty reason; in every other case it returns normally. -/
theorem insertIntoExternalFunctionMap_exit_iff (ops : CVOps) (H : FVHeap)
    (Map : ExternalFunctionMapType) (FuncName : String) (NewC : Nat) :
    (insertIntoExternalFunctionMap ops H Map FuncName NewC = .error 1 ↔
      ∃ OldC, StdMap.find Map FuncName = some OldC ∧
        (((H OldC).hasBody = true ∧ (H NewC).hasBody = true) ∨
          ((H OldC).hasBody = false ∧ (H NewC).hasBody = false ∧
            ¬ ((H OldC).numParams = 0 ∧ 1 ≤ (H NewC).numParams) ∧
            (ops.mergeDeclaration (H OldC) (H NewC)).2 ≠ "")))
    ∧ (insertIntoExternalFunctionMap ops H Map FuncName NewC = .error 1 ∨
        ∃ R, insertIntoExternalFunctionMap ops H Map FuncName NewC = .ok R) := by
  cases hf : StdMap.find Map FuncName with
  | none =>
    rw [insert_absent ops H Map FuncName NewC hf]
    simp
  | some OldC =>
    cases hO : (H OldC).hasBody <;> cases hN : (H NewC).hasBody
    · by_cases hp : (H OldC).numParams = 0 ∧ 1 ≤ (H NewC).numParams
      · rw [insert_replace ops H Map FuncName NewC OldC hf hO (Or.inr hp)]
        simp [hO, hN, hp]
      · rw [insert_merge ops H Map FuncName NewC OldC hf hO hN hp]
        by_cases hm : (ops.mergeDeclaration (H OldC) (H NewC)).2 = ""
        · simp [hO, hN, hm]
        · simp only [hm, if_false, true_and, Option.some.injEq, exists_eq_left', hO, hN,
            Bool.false_eq_true, false_and, false_or, ne_eq, not_false_eq_true, and_true,
            true_or, iff_true, and_self]
          exact ⟨fun _ => hp, fun _ => trivial⟩
    · rw [insert_replace ops H Map FuncName NewC OldC hf hO (Or.inl hN)]
      simp [hO, hN]
    · rw [insert_prototype ops H Map FuncName NewC OldC hf hO hN]
      simp [hO, hN]
    · rw [insert_duplicate ops H Map FuncName NewC OldC hf hO hN]
      simp [hO, hN]

/-- C2: after a non-fatal `insertIntoExternalFunctionMap(Map, name, NewC)`, an
absent `name` is bound to `NewC`; a `name` bound to `OldC` is bound to `NewC`
exactly when `OldC` has no body and `NewC` has a body or `OldC` has 0
parameters and `NewC` at least 1, and is still bound to `OldC` otherwise; the
entries of all other names are unchanged. -/
theorem insertIntoExternalFunctionMap_entry (ops : CVOps) (H H' : FVHeap)
    (Map Map' : ExternalFunctionMapType) (FuncName : String) (NewC : Nat)
    (h : insertIntoExternalFunctionMap ops H Map FuncName NewC = .ok (H', Map')) :
    (StdMap.find Map FuncName = none → StdMap.find Map' FuncName = some NewC)
    ∧ (∀ OldC, StdMap.find Map FuncName = some OldC →
        StdMap.find Map' FuncName
            = some (if (H OldC).hasBody = false ∧ ((H NewC).hasBody = true
                      ∨ ((H OldC).numParams = 0 ∧ 1 ≤ (H NewC).numParams))
                    then NewC else OldC)
          ∧ (NewC ≠ OldC →
              (StdMap.find Map' FuncName = some NewC ↔
                (H OldC).hasBody = false ∧ ((H NewC).hasBody = true
                  ∨ ((H OldC).numParams = 0 ∧ 1 ≤ (H NewC).numParams)))))
    ∧ (∀ Other, Other ≠ FuncName → StdMap.find Map' Other = StdMap.find Map Other) := by
  have key : Map' = Map ∨ Map' = StdMap.set Map FuncName NewC := by
    cases hf : StdMap.find Map FuncName with
    | none =>
      rw [insert_absent ops H Map FuncName NewC hf] at h
      simp at h
      exact Or.inr h.2.symm
    | some OldC =>
      cases hO : (H OldC).hasBody <;> cases hN : (H NewC).hasBody
      · by_cases hp : (H OldC).numParams = 0 ∧ 1 ≤ (H NewC).numParams
        · rw [insert_replace ops H Map FuncName NewC OldC hf hO (Or.inr hp)] at h
          simp at h
          exact Or.inr h.2.symm
        · rw [insert_merge ops H Map FuncName NewC OldC hf hO hN hp] at h
          by_cases hm : (ops.mergeDeclaration (H OldC) (H NewC)).2 = ""
          · simp [hm] at h
            exact Or.inl h.2.symm
          · simp [hm] at h
      · rw [insert_replace ops H Map FuncName NewC OldC hf hO (Or.inl hN)] at h
        simp at h
        exact Or.inr h.2.symm
      · rw [insert_prototype ops H Map FuncName NewC OldC hf hO hN] at h
        simp at h
        exact Or.inl h.2.symm
      · rw [insert_duplicate ops H Map FuncName NewC OldC hf hO hN] at h
        simp at h
  refine ⟨?_, ?_, ?_⟩
  · intro hf
    rw [insert_absent ops H Map FuncName NewC hf] at h
    simp at h
    rw [← h.2]
    exact StdMap.find_set_self Map FuncName NewC
  · intro OldC hf
    have main : StdMap.find Map' FuncName
        = some (if (H OldC).hasBody = false ∧ ((H NewC).hasBody = true
                  ∨ ((H OldC).numParams = 0 ∧ 1 ≤ (H NewC).numParams))
                then NewC else OldC) := by
      cases hO : (H OldC).hasBody <;> cases hN : (H NewC).hasBody
      · by_cases hp : (H OldC).numParams = 0 ∧ 1 ≤ (H NewC).numParams
        · rw [insert_replace ops H Map FuncName NewC OldC hf hO (Or.inr hp)] at h
          simp at h
          rw [← h.2, StdMap.find_set_self]
          simp [hp]
        · rw [insert_merge ops H Map FuncName NewC OldC hf hO hN hp] at h
          by_cases hm : (ops.mergeDeclaration (H OldC) (H NewC)).2 = ""
          · simp [hm] at h
            rw [← h.2, hf]
            simp [hp]
          · simp [hm] at h
      · rw [insert_replace ops H Map FuncName NewC OldC hf hO (Or.inl hN)] at h
        simp at h
        rw [← h.2, StdMap.find_set_self]
        simp
      · rw [insert_prototype ops H Map FuncName NewC OldC hf hO hN] at h
        simp at h
        rw [← h.2, hf]
        simp
      · rw [insert_duplicate ops H Map FuncName NewC OldC hf hO hN] at h
        simp at h
    refine ⟨main, ?_⟩
    intro hne
    rw [main]
    by_cases hc : (H OldC).hasBody = false ∧ ((H NewC).hasBody = true
        ∨ ((H OldC).numParams = 0 ∧ 1 ≤ (H NewC).numParams))
    · simp [hc]
    · rw [if_neg hc]
      constructor
      · intro he
        exact absurd (Option.some.inj he).symm hne
      · intro hc'
        exact absurd hc' hc
  · intro Other hne
    rcases key with hk | hk
    · rw [hk]
    · rw [hk]
      exact StdMap.find_set_other Map FuncName Other NewC hne

/-- A definition is inserted over a registered prototype: the entry of `f`
becomes the definition and no entry of another name changes. -/
theorem insertIntoExternalFunctionMap_entry_witness :
    ∃ R, insertIntoExternalFunctionMap specOps sampleFVs [("f", 1)] "f" 0 = .ok R
      ∧ StdMap.find R.2 "f" = some 0
      ∧ StdMap.find R.2 "g" = StdMap.find [("f", 1)] "g" :=
  ⟨(Function.update sampleFVs 0 (specOps.brainTransplant (sampleFVs 0) (sampleFVs 1)),
      StdMap.set [("f", 1)] "f" 0), rfl,
    ((insertIntoExternalFunctionMap_entry specOps sampleFVs _ [("f", 1)] _ "f" 0 rfl).2.1 1
      rfl).1.trans (by decide),
    (insertIntoExternalFunctionMap_entry specOps sampleFVs _ [("f", 1)] _ "f" 0 rfl).2.2 "g"
      (by decide)⟩

/-! ## Brain transplant -/

theorem getCvars_brainTransplant (P From : PVConstraint) :
    (P.brainTransplant From).getCvars = From.getCvars := by
  cases P
  rfl

theorem pvAtoms_brainTransplant (P From : PVConstraint) :
    (P.brainTransplant From).atoms = From.atoms := by
  cases P
  cases From
  rfl

theorem length_transplantParams (ps qs : List (PVConstraint × PVConstraint)) :
    (transplantParams ps qs).length = ps.length := by
  induction ps generalizing qs with
  | nil => simp [transplantParams]
  | cons p ps ih =>
    cases qs with
    | nil => simp [transplantParams]
    | cons q qs => simp [transplantParams, ih]

theorem getD_transplantParams (ps qs : List (PVConstraint × PVConstraint)) (J : Nat)
    (h1 : J < ps.length) (h2 : J < qs.length) :
    (transplantParams ps qs).getD J default
      = ((ps.getD J default).1.brainTransplant (qs.getD J default).1,
          (ps.getD J default).2.brainTransplant (qs.getD J default).2) := by
  induction ps generalizing qs J with
  | nil => simp at h1
  | cons p ps ih =>
    cases qs with
    | nil => simp at h2
    | cons q qs =>
      cases J with
      | zero => simp [transplantParams]
      | succ J =>
        simp only [List.length_cons, Nat.add_lt_add_iff_right] at h1 h2
        simpa [transplantParams] using ih qs J h1 h2

theorem pairsAtoms_transplantParams (ps qs : List (PVConstraint × PVConstraint))
    (h : ps.length = qs.length) : pairsAtoms (transplantParams ps qs) = pairsAtoms qs := by
  induction ps generalizing qs with
  | nil =>
    cases qs with
    | nil => rfl
    | cons q qs => simp at h
  | cons p ps ih =>
    cases qs with
    | nil => simp at h
    | cons q qs =>
      simp only [List.length_cons, Nat.add_right_cancel_iff] at h
      simp [transplantParams, pairsAtoms, pvAtoms_brainTransplant, ih qs h]

theorem hasBody_brainTransplant (F From : FVConstraint) :
    (F.brainTransplant From).hasBody = F.hasBody := by
  obtain ⟨⟨e, i⟩, ps, b, v⟩ := F
  rfl

theorem numParams_brainTransplant (F From : FVConstraint) :
    (F.brainTransplant From).numParams = F.numParams := by
  obtain ⟨⟨e, i⟩, ps, b, v⟩ := F
  simp [FVConstraint.brainTransplant, FVConstraint.numParams, FVConstraint.ParamVars,
    length_transplantParams]

theorem externalReturn_brainTransplant (F From : FVConstraint) :
    (F.brainTransplant From).getExternalReturn
      = F.getExternalReturn.brainTransplant From.getExternalReturn := by
  obtain ⟨⟨e, i⟩, ps, b, v⟩ := F
  rfl

theorem internalReturn_brainTransplant (F From : FVConstraint) :
    (F.brainTransplant From).getInternalReturn
      = F.getInternalReturn.brainTransplant From.getInternalReturn := by
  obtain ⟨⟨e, i⟩, ps, b, v⟩ := F
  rfl

theorem externalParam_brainTransplant (F From : FVConstraint) (J : Nat)
    (h1 : J < F.numParams) (h2 : J < From.numParams) :
    (F.brainTransplant From).getExternalParam J
      = (F.getExternalParam J).brainTransplant (From.getExternalParam J) := by
  obtain ⟨⟨e, i⟩, ps, b, v⟩ := F
  obtain ⟨r', ps', b', v'⟩ := From
  simp only [FVConstraint.numParams, FVConstraint.ParamVars] at h1 h2
  show ((transplantParams ps ps').getD J default).1 = _
  rw [getD_transplantParams ps ps' J h1 h2]
  rfl

theorem internalParam_brainTransplant (F From : FVConstraint) (J : Nat)
    (h1 : J < F.numParams) (h2 : J < From.numParams) :
    (F.brainTransplant From).getInternalParam J
      = (F.getInternalParam J).brainTransplant (From.getInternalParam J) := by
  obtain ⟨⟨e, i⟩, ps, b, v⟩ := F
  obtain ⟨r', ps', b', v'⟩ := From
  simp only [FVConstraint.numParams, FVConstraint.ParamVars] at h1 h2
  show ((transplantParams ps ps').getD J default).2 = _
  rw [getD_transplantParams ps ps' J h1 h2]
  rfl

theorem fvAtoms_brainTransplant (F From : FVConstraint)
    (h : F.numParams = From.numParams) : (F.brainTransplant From).atoms = From.atoms := by
  obtain ⟨⟨e, i⟩, ps, b, v⟩ := F
  obtain ⟨⟨e', i'⟩, ps', b', v'⟩ := From
  simp only [FVConstraint.numParams, FVConstraint.ParamVars] at h
  simp [FVConstraint.brainTransplant, FVConstraint.atoms, FVConstraint.getExternalReturn,
    FVConstraint.getInternalReturn, FVConstraint.ParamVars,
    pvAtoms_brainTransplant, pairsAtoms_transplantParams ps ps' h]

/-- C3: when `name` maps to `OldC`, which has a body, and a prototype `NewC`
(no body) is inserted, `insertIntoExternalFunctionMap` returns after
`NewC.brainTransplant(OldC)`: the return atoms of `NewC` are those of `OldC`,
so are the atoms of each parameter that both have, and all atoms when the
parameter counts agree; `OldC`, every other object and the map are unchanged,
and `NewC` keeps its flags and its number of parameters. -/
theorem insertIntoExternalFunctionMap_prototype_after_definition (ops : CVOps) (H : FVHeap)
    (Map : ExternalFunctionMapType) (FuncName : String) (NewC OldC : Nat)
    (hbt : ops.brainTransplant = FVConstraint.brainTransplant)
    (hf : StdMap.find Map FuncName = some OldC)
    (hO : (H OldC).hasBody = true) (hN : (H NewC).hasBody = false) :
    ∃ H', insertIntoExternalFunctionMap ops H Map FuncName NewC = .ok (H', Map)
      ∧ H' NewC = (H NewC).brainTransplant (H OldC)
      ∧ (H' NewC).getExternalReturn.getCvars = (H OldC).getExternalReturn.getCvars
      ∧ (H' NewC).getExternalReturn.atoms = (H OldC).getExternalReturn.atoms
      ∧ (H' NewC).getInternalReturn.getCvars = (H OldC).getInternalReturn.getCvars
      ∧ (H' NewC).getInternalReturn.atoms = (H OldC).getInternalReturn.atoms
      ∧ (∀ J, J < (H NewC).numParams → J < (H OldC).numParams →
          ((H' NewC).getExternalParam J).getCvars = ((H OldC).getExternalParam J).getCvars
          ∧ ((H' NewC).getExternalParam J).atoms = ((H OldC).getExternalParam J).atoms
          ∧ ((H' NewC).getInternalParam J).getCvars = ((H OldC).getInternalParam J).getCvars
          ∧ ((H' NewC).getInternalParam J).atoms = ((H OldC).getInternalParam J).atoms)
      ∧ ((H NewC).numParams = (H OldC).numParams → (H' NewC).atoms = (H OldC).atoms)
      ∧ (H' NewC).hasBody = false
      ∧ (H' NewC).numParams = (H NewC).numParams
      ∧ H' OldC = H OldC
      ∧ (∀ A, A ≠ NewC → H' A = H A)
      ∧ StdMap.find Map FuncName = some OldC := by
  have hne : OldC ≠ NewC := by
    intro he
    rw [he, hN] at hO
    exact Bool.false_ne_true hO
  refine ⟨Function.update H NewC ((H NewC).brainTransplant (H OldC)), ?_, ?_⟩
  · rw [insert_prototype ops H Map FuncName NewC OldC hf hO hN, hbt]
  · rw [Function.update_same]
    refine ⟨rfl, ?_, ?_, ?_, ?_, ?_, ?_, ?_, ?_, ?_, ?_, hf⟩
    · rw [externalReturn_brainTransplant, getCvars_brainTransplant]
    · rw [externalReturn_brainTransplant, pvAtoms_brainTransplant]
    · rw [internalReturn_brainTransplant, getCvars_brainTransplant]
    · rw [internalReturn_brainTransplant, pvAtoms_brainTransplant]
    · intro J h1 h2
      rw [externalParam_brainTransplant _ _ J h1 h2,
        internalParam_brainTransplant _ _ J h1 h2]
      exact ⟨getCvars_brainTransplant _ _, pvAtoms_brainTransplant _ _,
        getCvars_brainTransplant _ _, pvAtoms_brainTransplant _ _⟩
    · intro h
      exact fvAtoms_brainTransplant _ _ h
    · rw [hasBody_brainTransplant, hN]
    · exact numParams_brainTransplant _ _
    · exact Function.update_noteq hne _ _
    · intro A hA
      exact Function.update_noteq hA _ _

/-- A prototype at address 1 is inserted after the definition at address 0: it
takes the atoms 1, 2, 3, 4 of the definition, and `f` stays bound to the
definition. -/
theorem insertIntoExternalFunctionMap_prototype_after_definition_witness :
    ∃ H', insertIntoExternalFunctionMap specOps sampleFVs [("f", 0)] "f" 1
          = .ok (H', [("f", 0)])
      ∧ (H' 1).atoms = [Atom.Var 1, Atom.Var 2, Atom.Var 3, Atom.Var 4]
      ∧ H' 0 = sampleFVs 0 := by
  obtain ⟨H', h1, _, _, _, _, _, _, h8, _, _, h11, _, _⟩ :=
    insertIntoExternalFunctionMap_prototype_after_definition specOps sampleFVs [("f", 0)] "f"
      1 0 rfl rfl rfl rfl
  exact ⟨H', h1, (h8 rfl).trans rfl, h11⟩

/-- C4: `insertIntoStaticFunctionMap(Map, name, file, C)` is the external
insertion policy on the sub-map of `file`, an absent file standing for an empty
sub-map: it is fatal exactly when that insertion is, the resulting `Map[file]`
is the sub-map that insertion returns, and `Map[file']` is unchanged for every
other file. -/
theorem insertIntoStaticFunctionMap_per_file (ops : CVOps) (H : FVHeap)
    (Map : StaticFunctionMapType) (FuncName FileName : String) (ToIns : Nat) :
    insertIntoStaticFunctionMap ops H Map FuncName FileName ToIns
        = insertPerFile ops H Map FuncName FileName ToIns
    ∧ (∀ e, insertIntoStaticFunctionMap ops H Map FuncName FileName ToIns = .error e ↔
        insertIntoExternalFunctionMap ops H ((StdMap.find Map FileName).getD []) FuncName ToIns
          = .error e)
    ∧ (∀ H' Map', insertIntoStaticFunctionMap ops H Map FuncName FileName ToIns
          = .ok (H', Map') →
        (∃ Sub, insertIntoExternalFunctionMap ops H ((StdMap.find Map FileName).getD [])
              FuncName ToIns = .ok (H', Sub)
            ∧ StdMap.find Map' FileName = some Sub)
        ∧ ∀ Other, Other ≠ FileName → StdMap.find Map' Other = StdMap.find Map Other) := by
  have heq : insertIntoStaticFunctionMap ops H Map FuncName FileName ToIns
      = insertPerFile ops H Map FuncName FileName ToIns := by
    unfold insertIntoStaticFunctionMap insertPerFile StdMap.contains StdMap.index
    cases hf : StdMap.find Map FileName with
    | none =>
      have hn : StdMap.find ([] : ExternalFunctionMapType) FuncName = none := rfl
      simp [insert_absent ops H [] FuncName ToIns hn]
    | some Sub => simp
  refine ⟨heq, ?_, ?_⟩
  · intro e
    rw [heq]
    unfold insertPerFile
    cases insertIntoExternalFunctionMap ops H ((StdMap.find Map FileName).getD []) FuncName
        ToIns with
    | error e' => simp
    | ok R => simp
  · intro H' Map' h
    rw [heq] at h
    unfold insertPerFile at h
    cases hi : insertIntoExternalFunctionMap ops H ((StdMap.find Map FileName).getD [])
        FuncName ToIns with
    | error e' => simp [hi] at h
    | ok R =>
      obtain ⟨H1, Sub⟩ := R
      simp [hi] at h
      obtain ⟨h1, h2⟩ := h
      subst h1 h2
      refine ⟨⟨Sub, rfl, StdMap.find_set_self Map FileName Sub⟩, ?_⟩
      intro Other hne
      exact StdMap.find_set_other Map FileName Other Sub hne

/-- C5, as stated, fails: a static `f` of `a.c` and then a global `f` are both
inserted without an error, and `f` is in both function maps afterwards. -/
theorem insertNewFVConstraint_name_in_both_maps :
    ∃ I1 I2, insertNewFVConstraint specOps sampleInfo sampleStaticDecl 1 = .ok I1
      ∧ insertNewFVConstraint specOps I1 sampleGlobalDecl 0 = .ok I2
      ∧ InBothMaps I2 "f" :=
  ⟨{ sampleInfo with StaticFunctionFVCons := [("a.c", [("f", 1)])] },
    { sampleInfo with
      StaticFunctionFVCons := [("a.c", [("f", 1)])]
      ExternalFunctionFVCons := [("f", 0)] },
    rfl, rfl, rfl, "a.c", [("f", 1)], rfl, rfl⟩

/-- C5, amended: `insertNewFVConstraint` looks at the map of the function's own
linkage only. A global function goes through `insertIntoExternalFunctionMap`
on `ExternalFunctionFVCons`, a static one through `insertIntoStaticFunctionMap`
on `StaticFunctionFVCons`; the call is fatal exactly when that insertion is,
whatever the other map holds, and it leaves the other map as it is. -/
theorem insertNewFVConstraint_own_linkage (ops : CVOps) (I : ProgramInfo) (FD : FunctionDecl)
    (FVCon : Nat) :
    (FD.Global = true →
      (∀ e, insertNewFVConstraint ops I FD FVCon = .error e ↔
        insertIntoExternalFunctionMap ops I.FVs I.ExternalFunctionFVCons FD.Name FVCon
          = .error e)
      ∧ ∀ I', insertNewFVConstraint ops I FD FVCon = .ok I' →
          insertIntoExternalFunctionMap ops I.FVs I.ExternalFunctionFVCons FD.Name FVCon
            = .ok (I'.FVs, I'.ExternalFunctionFVCons)
          ∧ I'.StaticFunctionFVCons = I.StaticFunctionFVCons)
    ∧ (FD.Global = false →
      (∀ e, insertNewFVConstraint ops I FD FVCon = .error e ↔
        insertIntoStaticFunctionMap ops I.FVs I.StaticFunctionFVCons FD.Name FD.PSL.FileName
          FVCon = .error e)
      ∧ ∀ I', insertNewFVConstraint ops I FD FVCon = .ok I' →
          insertIntoStaticFunctionMap ops I.FVs I.StaticFunctionFVCons FD.Name FD.PSL.FileName
            FVCon = .ok (I'.FVs, I'.StaticFunctionFVCons)
          ∧ I'.ExternalFunctionFVCons = I.ExternalFunctionFVCons) := by
  constructor
  · intro hg
    unfold insertNewFVConstraint
    simp only [hg, if_true]
    cases hi : insertIntoExternalFunctionMap ops I.FVs I.ExternalFunctionFVCons FD.Name FVCon with
    | error e' => simp
    | ok R =>
      obtain ⟨H', M'⟩ := R
      refine ⟨by simp, ?_⟩
      intro I' h
      simp only [Except.ok.injEq] at h
      subst h
      exact ⟨rfl, rfl⟩
  · intro hg
    unfold insertNewFVConstraint
    simp only [hg, Bool.false_eq_true, if_false]
    cases hi : insertIntoStaticFunctionMap ops I.FVs I.StaticFunctionFVCons FD.Name
        FD.PSL.FileName FVCon with
    | error e' => simp
    | ok R =>
      obtain ⟨H', M'⟩ := R
      refine ⟨by simp, ?_⟩
      intro I' h
      simp only [Except.ok.injEq] at h
      subst h
      exact ⟨rfl, rfl⟩

/-! ## The linker: global variables -/

theorem length_linkGlobalsLoop (C : List Nat) : (linkGlobalsLoop C).length = C.length - 1 := by
  induction C with
  | nil => rfl
  | cons a C ih =>
    cases C with
    | nil => rfl
    | cons b C =>
      simp only [linkGlobalsLoop, List.length_cons, ih]
      simp

theorem mem_linkGlobalsLoop (C : List Nat) (c : CVCall) :
    c ∈ linkGlobalsLoop C ↔
      ∃ J a b, C[J]? = some a ∧ C[J + 1]? = some b
        ∧ c = CVCall.constrainConsVarGeq (.obj a) (.obj b) .Same_to_Same true := by
  induction C with
  | nil => simp [linkGlobalsLoop]
  | cons a C ih =>
    cases C with
    | nil => simp [linkGlobalsLoop]
    | cons b C =>
      simp only [linkGlobalsLoop, List.mem_cons, ih]
      constructor
      · rintro (h | ⟨J, x, y, h1, h2, h3⟩)
        · exact ⟨0, a, b, rfl, by simp, h⟩
        · exact ⟨J + 1, x, y, by simpa using h1, by simpa using h2, h3⟩
      · rintro ⟨J, x, y, h1, h2, h3⟩
        cases J with
        | zero =>
          simp only [List.getElem?_cons_zero, Option.some.injEq, zero_add,
            List.getElem?_cons_succ] at h1 h2
          subst h1 h2
          exact Or.inl h3
        | succ J =>
          exact Or.inr ⟨J, x, y, by simpa using h1, by simpa using h2, h3⟩

theorem linkGlobalVariable_eq_loop (V : String × List Nat) :
    linkGlobalVariable V = linkGlobalsLoop V.2 := by
  unfold linkGlobalVariable
  obtain ⟨n, C⟩ := V
  cases C with
  | nil => simp [linkGlobalsLoop]
  | cons a C =>
    cases C with
    | nil => simp [linkGlobalsLoop]
    | cons b C => simp

theorem loop_head_chain (r : Nat → Nat → Prop) (C : List Nat) (a : Nat)
    (hr : ∀ x y, CVCall.constrainConsVarGeq (.obj x) (.obj y) .Same_to_Same true
      ∈ linkGlobalsLoop (a :: C) → r x y) :
    ∀ y ∈ a :: C, Relation.ReflTransGen r a y := by
  induction C generalizing a with
  | nil =>
    intro y hy
    simp only [List.mem_singleton] at hy
    subst hy
    exact Relation.ReflTransGen.refl
  | cons b C ih =>
    intro y hy
    rcases List.mem_cons.1 hy with h | h
    · subst h
      exact Relation.ReflTransGen.refl
    · have hab : r a b := hr a b (by simp [linkGlobalsLoop])
      have hsub : ∀ x z, CVCall.constrainConsVarGeq (.obj x) (.obj z) .Same_to_Same true
          ∈ linkGlobalsLoop (b :: C) → r x z := by
        intro x z hxz
        exact hr x z (by
          simp only [linkGlobalsLoop, List.mem_cons]
          exact Or.inr hxz)
      exact Relation.ReflTransGen.head hab (ih b hsub y h)

/-- C6: for a name of `GlobalVariableSymbols` with `n ≥ 2` PVCs the first sweep
of `link` makes `n - 1` `Same_to_Same` calls of `constrainConsVarGeq`, between
consecutive PVCs in set order, so that any two PVCs of the name are joined by a
call or by a chain of calls; for a name with fewer than 2 PVCs it makes none.
The calls of the whole sweep are exactly these. -/
theorem link_globals_chain (I : ProgramInfo) :
    (∀ c, c ∈ linkGlobalVariables I ↔
      ∃ V, V ∈ I.GlobalVariableSymbols ∧ 2 ≤ V.2.length ∧
        ∃ J a b, V.2[J]? = some a ∧ V.2[J + 1]? = some b
          ∧ c = CVCall.constrainConsVarGeq (.obj a) (.obj b) .Same_to_Same true)
    ∧ (∀ V, V ∈ I.GlobalVariableSymbols → 2 ≤ V.2.length →
        (linkGlobalVariable V).length = V.2.length - 1
        ∧ ∀ a ∈ V.2, ∀ b ∈ V.2, Relation.ReflTransGen (GlobalsJoined I) a b)
    ∧ (∀ V : String × List Nat, V.2.length < 2 → linkGlobalVariable V = [])
    ∧ (∀ c, c ∈ linkGlobalVariables I → c ∈ linkCalls I) := by
  refine ⟨?_, ?_, ?_, fun c hc => by simp [linkCalls, hc]⟩
  · intro c
    unfold linkGlobalVariables
    simp only [List.mem_flatMap, linkGlobalVariable_eq_loop, mem_linkGlobalsLoop]
    constructor
    · rintro ⟨V, hV, J, a, b, h1, h2, h3⟩
      refine ⟨V, hV, ?_, J, a, b, h1, h2, h3⟩
      have := (List.getElem?_eq_some_iff.1 h2).1
      omega
    · rintro ⟨V, hV, _, J, a, b, h1, h2, h3⟩
      exact ⟨V, hV, J, a, b, h1, h2, h3⟩
  · intro V hV hlen
    refine ⟨by rw [linkGlobalVariable_eq_loop, length_linkGlobalsLoop], ?_⟩
    have hr : ∀ x y, CVCall.constrainConsVarGeq (.obj x) (.obj y) .Same_to_Same true
        ∈ linkGlobalsLoop V.2 → GlobalsJoined I x y := by
      intro x y hxy
      left
      unfold linkGlobalVariables
      rw [List.mem_flatMap]
      exact ⟨V, hV, by rw [linkGlobalVariable_eq_loop]; exact hxy⟩
    have hsymm : Symmetric (GlobalsJoined I) := by
      intro x y hxy
      exact hxy.symm
    cases hC : V.2 with
    | nil => intro a ha; simp at ha
    | cons h C =>
      rw [hC] at hr
      intro a ha b hb
      have h1 := loop_head_chain (GlobalsJoined I) C h hr a ha
      have h2 := loop_head_chain (GlobalsJoined I) C h hr b hb
      exact Relation.ReflTransGen.trans (Relation.ReflTransGen.symmetric hsymm h1) h2
  · intro V hlen
    rw [linkGlobalVariable_eq_loop]
    obtain ⟨n, C⟩ := V
    cases C with
    | nil => rfl
    | cons a C =>
      cases C with
      | nil => rfl
      | cons b C =>
        simp at hlen
        omega

/-! ## The linker: externs without a definition -/

theorem externRsn_injective (a b : String) (h : externRsn a = externRsn b) : a = b := by
  unfold externRsn at h
  have h1 := congrArg String.data h
  simp only [String.data_append, List.append_assoc] at h1
  exact String.ext (List.append_cancel_right (List.append_cancel_left h1))

theorem linkExternGVars_fold (E : StdMap String Bool) (G : StdMap String (List Nat))
    (acc : List CVCall) :
    (E.foldl linkExternGVar (G, acc)).2
        = acc ++ E.flatMap (fun V =>
            if V.2 then []
            else (StdMap.index G V.1).map (fun Var =>
              CVCall.constrainToWild (.obj Var) (externRsn V.1)))
    ∧ (∀ k, StdMap.index (E.foldl linkExternGVar (G, acc)).1 k = StdMap.index G k)
    ∧ ((∀ k, StdMap.contains E k = true → StdMap.contains G k = true) →
        (E.foldl linkExternGVar (G, acc)).1 = G) := by
  induction E generalizing G acc with
  | nil => simp
  | cons V E ih =>
    obtain ⟨k, d⟩ := V
    cases d with
    | true =>
      obtain ⟨h1, h2, h3⟩ := ih G acc
      refine ⟨?_, ?_, ?_⟩
      · simpa [linkExternGVar] using h1
      · simpa [linkExternGVar] using h2
      · intro hk
        have : (E.foldl linkExternGVar (G, acc)).1 = G := by
          apply h3
          intro k0 hk0
          apply hk
          unfold StdMap.contains at hk0 ⊢
          by_cases he : k0 = k
          · simp [StdMap.find, he]
          · simpa [StdMap.find, he] using hk0
        simpa [linkExternGVar] using this
    | false =>
      obtain ⟨h1, h2, h3⟩ := ih (StdMap.touch G k)
        (acc ++ (StdMap.index G k).map (fun Var =>
          CVCall.constrainToWild (.obj Var) (externRsn k)))
      have hidx : ∀ k0, StdMap.index (StdMap.touch G k) k0 = StdMap.index G k0 :=
        fun k0 => StdMap.index_touch G k k0
      refine ⟨?_, ?_, ?_⟩
      · simp only [List.foldl_cons, linkExternGVar, Bool.not_false, if_true]
        rw [h1]
        simp [hidx]
      · intro k0
        simp only [List.foldl_cons, linkExternGVar, Bool.not_false, if_true]
        rw [h2 k0, hidx k0]
      · intro hk
        simp only [List.foldl_cons, linkExternGVar, Bool.not_false, if_true]
        have hG : StdMap.touch G k = G := by
          apply StdMap.touch_eq_of_contains
          apply hk
          simp [StdMap.contains, StdMap.find]
        rw [hG] at h3 ⊢
        apply h3
        intro k0 hk0
        apply hk
        unfold StdMap.contains at hk0 ⊢
        by_cases he : k0 = k
        · simp [StdMap.find, he]
        · simpa [StdMap.find, he] using hk0

/-- C7: the second sweep of `link` calls `constrainToWild`, with the reason
"External global variable " + name + " has no definition", on every PVC of
`GlobalVariableSymbols[name]` for every entry `name -> false` of `ExternGVars`,
and makes no other call; an entry `name -> true` adds no call, and no call with
the reason of a name is made unless the name has an entry `false`. -/
theorem link_extern_sweep (I : ProgramInfo) :
    (∀ c, c ∈ (linkExternGVars I).2 ↔
      ∃ VarName P, (VarName, false) ∈ I.ExternGVars
        ∧ P ∈ StdMap.index I.GlobalVariableSymbols VarName
        ∧ c = CVCall.constrainToWild (.obj P) (externRsn VarName))
    ∧ (∀ VarName P, CVCall.constrainToWild (.obj P) (externRsn VarName) ∈ (linkExternGVars I).2 ↔
        (VarName, false) ∈ I.ExternGVars ∧ P ∈ StdMap.index I.GlobalVariableSymbols VarName)
    ∧ (∀ St VarName, linkExternGVar St (VarName, true) = St)
    ∧ externRsn "g" = "External global variable g has no definition"
    ∧ (∀ c, c ∈ (linkExternGVars I).2 → c ∈ linkCalls I) := by
  have hchar : ∀ c, c ∈ (linkExternGVars I).2 ↔
      ∃ VarName P, (VarName, false) ∈ I.ExternGVars
        ∧ P ∈ StdMap.index I.GlobalVariableSymbols VarName
        ∧ c = CVCall.constrainToWild (.obj P) (externRsn VarName) := by
    intro c
    unfold linkExternGVars
    rw [(linkExternGVars_fold I.ExternGVars I.GlobalVariableSymbols []).1]
    simp only [List.nil_append, List.mem_flatMap]
    constructor
    · rintro ⟨⟨k, d⟩, hV, hc⟩
      cases d with
      | true => simp at hc
      | false =>
        simp only [Bool.false_eq_true, if_false, List.mem_map] at hc
        obtain ⟨P, hP, rfl⟩ := hc
        exact ⟨k, P, hV, hP, rfl⟩
    · rintro ⟨k, P, hV, hP, rfl⟩
      refine ⟨(k, false), hV, ?_⟩
      simp only [Bool.false_eq_true, if_false, List.mem_map]
      exact ⟨P, hP, rfl⟩
  refine ⟨hchar, ?_, ?_, by decide, fun c hc => by simp [linkCalls, hc]⟩
  · intro VarName P
    rw [hchar]
    constructor
    · rintro ⟨k, Q, hV, hQ, he⟩
      injection he with h1 h2
      injection h1 with h1
      have := externRsn_injective _ _ h2
      subst this h1
      exact ⟨hV, hQ⟩
    · rintro ⟨hV, hP⟩
      exact ⟨VarName, P, hV, hP, rfl⟩
  · intro St VarName
    simp [linkExternGVar]

/-! ## The linker: functions without a body -/

theorem mem_linkExternalFunction (H : FVHeap) (FuncName : String) (G : Nat) (c : CVCall) :
    c ∈ linkExternalFunction H (FuncName, G) ↔
      (H G).hasBody = false ∧
        (c = CVCall.constrainToWild (.internalReturn G) (externalFunctionRsn FuncName)
          ∨ (c = CVCall.constrainToWild (.externalReturn G) (externalFunctionRsn FuncName)
              ∧ (H G).getExternalReturn.getIsGeneric = false)
          ∨ ∃ J, J < (H G).numParams ∧
              (c = CVCall.constrainToWild (.internalParam G J) (externalFunctionRsn FuncName)
                ∨ (c = CVCall.constrainToWild (.externalParam G J)
                        (externalFunctionRsn FuncName)
                    ∧ ((H G).getExternalParam J).getIsGeneric = false))) := by
  cases hb : (H G).hasBody with
  | true => simp [linkExternalFunction, hb]
  | false =>
    simp only [linkExternalFunction, hb, Bool.not_false, if_true, List.mem_append,
      List.mem_singleton, List.mem_flatMap, List.mem_range, true_and]
    constructor
    · rintro ((h | h) | ⟨J, hJ, h | h⟩)
      · exact Or.inl h
      · cases hg : (H G).getExternalReturn.getIsGeneric with
        | true => simp [hg] at h
        | false =>
          simp only [hg, Bool.not_false, if_true, List.mem_singleton] at h
          exact Or.inr (Or.inl ⟨h, rfl⟩)
      · exact Or.inr (Or.inr ⟨J, hJ, Or.inl h⟩)
      · cases hg : ((H G).getExternalParam J).getIsGeneric with
        | true => simp [hg] at h
        | false =>
          simp only [hg, Bool.not_false, if_true, List.mem_singleton] at h
          exact Or.inr (Or.inr ⟨J, hJ, Or.inr ⟨h, hg⟩⟩)
    · rintro (h | ⟨h, hg⟩ | ⟨J, hJ, h | ⟨h, hg⟩⟩)
      · exact Or.inl (Or.inl h)
      · exact Or.inl (Or.inr (by simp [hg, h]))
      · exact Or.inr ⟨J, hJ, Or.inl h⟩
      · exact Or.inr ⟨J, hJ, Or.inr (by simp [hg, h])⟩

/-- C8: for every entry `G` of `ExternalFunctionFVCons` without a body the third
sweep of `link` calls `constrainToWild` on the internal return and on every
internal parameter of `G`, and on the external return and on each external
parameter if and only if that PVC is not generic; it makes no other call, so an
entry with a body receives none. -/
theorem link_external_functions_sweep (I : ProgramInfo) :
    (∀ c, c ∈ linkExternalFunctions I ↔
      ∃ FuncName G, (FuncName, G) ∈ I.ExternalFunctionFVCons ∧ (I.FVs G).hasBody = false ∧
        (c = CVCall.constrainToWild (.internalReturn G) (externalFunctionRsn FuncName)
          ∨ (c = CVCall.constrainToWild (.externalReturn G) (externalFunctionRsn FuncName)
              ∧ (I.FVs G).getExternalReturn.getIsGeneric = false)
          ∨ ∃ J, J < (I.FVs G).numParams ∧
              (c = CVCall.constrainToWild (.internalParam G J) (externalFunctionRsn FuncName)
                ∨ (c = CVCall.constrainToWild (.externalParam G J)
                        (externalFunctionRsn FuncName)
                    ∧ ((I.FVs G).getExternalParam J).getIsGeneric = false))))
    ∧ (∀ FuncName G, (I.FVs G).hasBody = true →
        linkExternalFunction I.FVs (FuncName, G) = [])
    ∧ (∀ FuncName G, (I.FVs G).hasBody = false →
        CVCall.constrainToWild (.internalReturn G) (externalFunctionRsn FuncName)
            ∈ linkExternalFunction I.FVs (FuncName, G)
        ∧ (CVCall.constrainToWild (.externalReturn G) (externalFunctionRsn FuncName)
              ∈ linkExternalFunction I.FVs (FuncName, G)
            ↔ (I.FVs G).getExternalReturn.getIsGeneric = false)
        ∧ ∀ J, J < (I.FVs G).numParams →
            CVCall.constrainToWild (.internalParam G J) (externalFunctionRsn FuncName)
                ∈ linkExternalFunction I.FVs (FuncName, G)
            ∧ (CVCall.constrainToWild (.externalParam G J) (externalFunctionRsn FuncName)
                  ∈ linkExternalFunction I.FVs (FuncName, G)
                ↔ ((I.FVs G).getExternalParam J).getIsGeneric = false))
    ∧ (∀ U, U ∈ I.ExternalFunctionFVCons →
        ∀ c, c ∈ linkExternalFunction I.FVs U → c ∈ linkExternalFunctions I)
    ∧ (∀ c, c ∈ linkExternalFunctions I → c ∈ linkCalls I) := by
  refine ⟨?_, ?_, ?_, ?_, fun c hc => by simp [linkCalls, hc]⟩
  · intro c
    unfold linkExternalFunctions
    rw [List.mem_flatMap]
    constructor
    · rintro ⟨⟨FuncName, G⟩, hU, hc⟩
      rw [mem_linkExternalFunction] at hc
      exact ⟨FuncName, G, hU, hc.1, hc.2⟩
    · rintro ⟨FuncName, G, hU, hb, hc⟩
      exact ⟨(FuncName, G), hU, (mem_linkExternalFunction _ _ _ _).2 ⟨hb, hc⟩⟩
  · intro FuncName G hb
    simp [linkExternalFunction, hb]
  · intro FuncName G hb
    refine ⟨?_, ?_, ?_⟩
    · rw [mem_linkExternalFunction]
      exact ⟨hb, Or.inl rfl⟩
    · rw [mem_linkExternalFunction]
      constructor
      · rintro ⟨_, h | ⟨_, hg⟩ | ⟨J, _, h | ⟨h, _⟩⟩⟩
        · simp at h
        · exact hg
        · simp at h
        · simp at h
      · intro hg
        exact ⟨hb, Or.inr (Or.inl ⟨rfl, hg⟩)⟩
    · intro J hJ
      refine ⟨?_, ?_⟩
      · rw [mem_linkExternalFunction]
        exact ⟨hb, Or.inr (Or.inr ⟨J, hJ, Or.inl rfl⟩)⟩
      · rw [mem_linkExternalFunction]
        constructor
        · rintro ⟨_, h | ⟨h, _⟩ | ⟨J', _, h | ⟨h, hg⟩⟩⟩
          · simp at h
          · simp at h
          · simp at h
          · injection h with h1 h2
            injection h1 with h3 h4
            subst h4
            exact hg
        · intro hg
          exact ⟨hb, Or.inr (Or.inr ⟨J, hJ, Or.inr ⟨rfl, hg⟩⟩)⟩
  · intro U hU c hc
    unfold linkExternalFunctions
    rw [List.mem_flatMap]
    exact ⟨U, hU, hc⟩

theorem linkStaticFunctions_external_only (I : ProgramInfo) (c : CVCall)
    (h : c ∈ linkStaticFunctions I) :
    ∃ G Rsn, c = CVCall.constrainToWild (.externalReturn G) Rsn
      ∨ ∃ J, c = CVCall.constrainToWild (.externalParam G J) Rsn := by
  unfold linkStaticFunctions at h
  simp only [List.mem_flatMap] at h
  obtain ⟨U, _, V, _, hc⟩ := h
  refine ⟨V.2, staticFunctionRsn V.1 U.1, ?_⟩
  cases hb : (I.FVs V.2).hasBody with
  | true => simp [linkStaticFunction, hb] at hc
  | false =>
    simp only [linkStaticFunction, hb, Bool.not_false, if_true, List.mem_append,
      List.mem_flatMap, List.mem_range] at hc
    rcases hc with hc | ⟨J, _, hc⟩
    · cases hg : (I.FVs V.2).getExternalReturn.getIsGeneric with
      | true => simp [hg] at hc
      | false =>
        simp only [hg, Bool.not_false, if_true, List.mem_singleton] at hc
        exact Or.inl hc
    · cases hg : ((I.FVs V.2).getExternalParam J).getIsGeneric with
      | true => simp [hg] at hc
      | false =>
        simp only [hg, Bool.not_false, if_true, List.mem_singleton] at hc
        exact Or.inr ⟨J, hc⟩

/-- C9, evaluated where it fails: for a static prototype without a body the
fourth sweep of `link` calls `constrainToWild` on the external return and the
external parameter only; the atoms 12 and 14 of the internal return and the
internal parameter get no constraint, while the same function variable in
`ExternalFunctionFVCons` has all four of its components constrained. -/
theorem link_static_skips_internal :
    linkCalls sampleStaticInfo
        = [CVCall.constrainToWild (.externalReturn 1)
              "Unchecked pointer in parameter or return of static function f in a.c",
            CVCall.constrainToWild (.externalParam 1 0)
              "Unchecked pointer in parameter or return of static function f in a.c"]
    ∧ (link specOps sampleStaticInfo).1.CS
        = [(Constraint.geq ⟨Atom.Wild, Atom.Var 11, true⟩,
              ["Unchecked pointer in parameter or return of static function f in a.c"]),
            (Constraint.geq ⟨Atom.Wild, Atom.Var 13, true⟩,
              ["Unchecked pointer in parameter or return of static function f in a.c"])]
    ∧ (sampleStaticInfo.FVs 1).hasBody = false
    ∧ (sampleStaticInfo.FVs 1).getInternalReturn.getCvars = [Atom.Var 12]
    ∧ (sampleStaticInfo.FVs 1).getInternalParam 0 = samplePV 14
    ∧ linkCalls sampleExternalInfo
        = [CVCall.constrainToWild (.internalReturn 1)
              "Unchecked pointer in parameter or return of external function f",
            CVCall.constrainToWild (.externalReturn 1)
              "Unchecked pointer in parameter or return of external function f",
            CVCall.constrainToWild (.internalParam 1 0)
              "Unchecked pointer in parameter or return of external function f",
            CVCall.constrainToWild (.externalParam 1 0)
              "Unchecked pointer in parameter or return of external function f"] := by
  refine ⟨by decide, by decide, rfl, rfl, rfl, by decide⟩

/-! ## The constraint store and linker idempotence -/

theorem addConstraint_of_covered (S : Constraints) (q : Request) (h : Covered S q) :
    addConstraint S q = S := by
  obtain ⟨c, r⟩ := q
  induction S with
  | nil => exact absurd h (by simp [Covered])
  | cons e S ih =>
    obtain ⟨c', rs⟩ := e
    by_cases hc : c = c'
    · simp only [Covered, hc, if_true] at h
      simp [addConstraint, hc, h]
    · simp only [Covered, hc, if_false] at h
      simp [addConstraint, hc, ih h]

theorem covered_addConstraint_self (S : Constraints) (q : Request) :
    Covered (addConstraint S q) q := by
  obtain ⟨c, r⟩ := q
  induction S with
  | nil => simp [addConstraint, Covered]
  | cons e S ih =>
    obtain ⟨c', rs⟩ := e
    by_cases hc : c = c'
    · by_cases hr : r ∈ rs
      · simp [addConstraint, Covered, hc, hr]
      · simp [addConstraint, Covered, hc, hr]
    · simp [addConstraint, Covered, hc, ih]

theorem covered_addConstraint_mono (S : Constraints) (q q' : Request) (h : Covered S q) :
    Covered (addConstraint S q') q := by
  obtain ⟨c, r⟩ := q
  obtain ⟨d, t⟩ := q'
  induction S with
  | nil => exact absurd h (by simp [Covered])
  | cons e S ih =>
    obtain ⟨c', rs⟩ := e
    by_cases hd : d = c'
    · by_cases hc : c = c'
      · simp only [Covered, hc, if_true] at h
        by_cases ht : t ∈ rs
        · simp [addConstraint, Covered, hd, hc, ht, h]
        · simp [addConstraint, Covered, hd, hc, ht, h]
      · simp only [Covered, hc, if_false] at h
        simp [addConstraint, Covered, hd, hc, h]
    · by_cases hc : c = c'
      · simp only [Covered, hc, if_true] at h
        simp [addConstraint, Covered, hd, hc, h]
      · simp only [Covered, hc, if_false] at h
        simp [addConstraint, Covered, hd, hc, ih h]

theorem covered_addConstraints_mono (S : Constraints) (rs : List Request) (q : Request)
    (h : Covered S q) : Covered (addConstraints S rs) q := by
  induction rs generalizing S with
  | nil => exact h
  | cons q' rs ih => exact ih _ (covered_addConstraint_mono S q q' h)

theorem covered_addConstraints (S : Constraints) (rs : List Request) :
    ∀ q ∈ rs, Covered (addConstraints S rs) q := by
  induction rs generalizing S with
  | nil => intro q hq; simp at hq
  | cons q' rs ih =>
    intro q hq
    rcases List.mem_cons.1 hq with h | h
    · subst h
      exact covered_addConstraints_mono _ rs q (covered_addConstraint_self S q)
    · exact ih (addConstraint S q') q h

theorem addConstraints_of_covered (S : Constraints) (rs : List Request)
    (h : ∀ q ∈ rs, Covered S q) : addConstraints S rs = S := by
  induction rs with
  | nil => rfl
  | cons q rs ih =>
    have hq : addConstraint S q = S := addConstraint_of_covered S q (h q (by simp))
    have hrs : ∀ q' ∈ rs, Covered S q' := fun q' hq' => h q' (List.mem_cons_of_mem _ hq')
    simp only [addConstraints, List.foldl_cons, hq]
    exact ih hrs

theorem addConstraints_twice (S : Constraints) (rs : List Request) :
    addConstraints (addConstraints S rs) rs = addConstraints S rs :=
  addConstraints_of_covered _ rs (covered_addConstraints S rs)

theorem flatMap_set_absent {β : Type} (G : StdMap String (List Nat)) (k : String)
    (f : String × List Nat → List β) (hf : f (k, []) = [])
    (hk : StdMap.find G k = none) : (StdMap.set G k []).flatMap f = G.flatMap f := by
  induction G with
  | nil => simp [StdMap.set, hf]
  | cons e G ih =>
    obtain ⟨k', v'⟩ := e
    by_cases he : k = k'
    · simp [StdMap.find, he] at hk
    · simp only [StdMap.find, he, if_false] at hk
      by_cases hl : KeyOrder.lt k k' = true
      · simp [StdMap.set, he, hl, hf]
      · simp [StdMap.set, he, hl, ih hk]

theorem flatMap_touch {β : Type} (G : StdMap String (List Nat)) (k : String)
    (f : String × List Nat → List β) (hf : ∀ n, f (n, []) = []) :
    (StdMap.touch G k).flatMap f = G.flatMap f := by
  unfold StdMap.touch
  cases hk : StdMap.find G k with
  | none => exact flatMap_set_absent G k f (hf k) hk
  | some v => rfl

theorem contains_touch_self (G : StdMap String (List Nat)) (k : String) :
    StdMap.contains (StdMap.touch G k) k = true := by
  unfold StdMap.touch StdMap.contains
  cases hk : StdMap.find G k with
  | none => simp [StdMap.find_set_self]
  | some v => simp [hk]

theorem linkExternGVars_fold_table (E : StdMap String Bool) (G : StdMap String (List Nat))
    (acc : List CVCall) :
    (∀ {β : Type} (f : String × List Nat → List β), (∀ n, f (n, []) = []) →
        (E.foldl linkExternGVar (G, acc)).1.flatMap f = G.flatMap f)
    ∧ (∀ k, StdMap.contains G k = true →
        StdMap.contains (E.foldl linkExternGVar (G, acc)).1 k = true)
    ∧ (∀ k, (k, false) ∈ E → StdMap.contains (E.foldl linkExternGVar (G, acc)).1 k = true)
    ∧ ((∀ k, (k, false) ∈ E → StdMap.contains G k = true) →
        (E.foldl linkExternGVar (G, acc)).1 = G) := by
  induction E generalizing G acc with
  | nil => simp
  | cons V E ih =>
    obtain ⟨k, d⟩ := V
    cases d with
    | true =>
      obtain ⟨h1, h2, h3, h4⟩ := ih G acc
      have hstep : linkExternGVar (G, acc) (k, true) = (G, acc) := by simp [linkExternGVar]
      simp only [List.foldl_cons, hstep]
      refine ⟨h1, h2, ?_, ?_⟩
      · intro k0 hk0
        rcases List.mem_cons.1 hk0 with h | h
        · simp at h
        · exact h3 k0 h
      · intro hk
        exact h4 (fun k0 hk0 => hk k0 (List.mem_cons_of_mem _ hk0))
    | false =>
      obtain ⟨h1, h2, h3, h4⟩ := ih (StdMap.touch G k)
        (acc ++ (StdMap.index G k).map (fun Var =>
          CVCall.constrainToWild (.obj Var) (externRsn k)))
      have hstep : linkExternGVar (G, acc) (k, false)
          = (StdMap.touch G k, acc ++ (StdMap.index G k).map (fun Var =>
              CVCall.constrainToWild (.obj Var) (externRsn k))) := by
        simp [linkExternGVar]
      simp only [List.foldl_cons, hstep]
      refine ⟨?_, ?_, ?_, ?_⟩
      · intro β f hf
        rw [h1 f hf, flatMap_touch G k f hf]
      · intro k0 hk0
        exact h2 k0 (StdMap.contains_touch G k k0 hk0)
      · intro k0 hk0
        rcases List.mem_cons.1 hk0 with h | h
        · have : k0 = k := congrArg Prod.fst h
          subst this
          exact h2 k0 (contains_touch_self G k0)
        · exact h3 k0 h
      · intro hk
        have hG : StdMap.touch G k = G :=
          StdMap.touch_eq_of_contains G k (hk k (by simp))
        rw [hG] at h4 ⊢
        exact h4 (fun k0 hk0 => hk k0 (List.mem_cons_of_mem _ hk0))

theorem externKeysInGlobals_new : ExternKeysInGlobals ProgramInfo.new := by
  intro k hk
  simp [ProgramInfo.new, StdMap.contains, StdMap.find] at hk

theorem contains_set (G : StdMap String (List Nat)) (k k0 : String) (v : List Nat)
    (h : k0 = k ∨ StdMap.contains G k0 = true) : StdMap.contains (StdMap.set G k v) k0 = true := by
  unfold StdMap.contains
  by_cases he : k0 = k
  · subst he
    simp [StdMap.find_set_self]
  · rw [StdMap.find_set_other G k k0 v he]
    rcases h with h | h
    · exact absurd h he
    · exact h

theorem externKeysInGlobals_recordGlobalVar (I : ProgramInfo) (VarName : String)
    (HasDefinition : Bool) (P : Nat) (h : ExternKeysInGlobals I) :
    ExternKeysInGlobals (recordGlobalVar I VarName HasDefinition P) := by
  intro k hk
  by_cases he : k = VarName
  · exact contains_set _ _ _ _ (Or.inl he)
  · apply contains_set _ _ _ _ (Or.inr _)
    apply h
    have hfind : ∀ E : StdMap String Bool,
        StdMap.find (StdMap.set E VarName true) k = StdMap.find E k
        ∧ StdMap.find (StdMap.set (StdMap.touch E VarName) VarName false) k = StdMap.find E k
        ∧ StdMap.find (StdMap.touch E VarName) k = StdMap.find E k := by
      intro E
      refine ⟨StdMap.find_set_other E VarName k true he, ?_,
        StdMap.find_touch_other E VarName k he⟩
      rw [StdMap.find_set_other _ VarName k false he, StdMap.find_touch_other E VarName k he]
    obtain ⟨f1, f2, f3⟩ := hfind I.ExternGVars
    unfold recordGlobalVar StdMap.contains at hk
    unfold StdMap.contains
    cases HasDefinition with
    | true => simpa [f1] using hk
    | false =>
      by_cases hv : StdMap.index I.ExternGVars VarName = true
      · simpa [hv, f3] using hk
      · simpa [hv, f2] using hk

theorem externKeysInGlobals_link (ops : CVOps) (I : ProgramInfo)
    (h : ExternKeysInGlobals I) : ExternKeysInGlobals (link ops I).1 := by
  intro k hk
  have hG := (linkExternGVars_fold_table I.ExternGVars I.GlobalVariableSymbols []).2.1
  exact hG k (h k hk)

/-- C10: a second run of `link` with no `addVariable` in between produces no
new constraint. The second run makes the same calls and hands the store the
same requests as the first; the store already holds each of them, so it is the
same store, of the same size, after the second run; the second run changes no
table at all. The first run changes neither `Variables`, the function maps nor
`ExternGVars`, every `GlobalVariableSymbols[name]` is the same set after it, and
`GlobalVariableSymbols` is the same map when every name of `ExternGVars` is one
of its names. -/
theorem link_idempotent (ops : CVOps) (I : ProgramInfo) :
    linkCalls (link ops I).1 = linkCalls I
    ∧ linkRequests ops (link ops I).1 = linkRequests ops I
    ∧ (∀ q ∈ linkRequests ops (link ops I).1, q ∈ linkRequests ops I)
    ∧ (∀ q ∈ linkRequests ops (link ops I).1, Covered (link ops I).1.CS q)
    ∧ (link ops (link ops I).1).1.CS = (link ops I).1.CS
    ∧ (link ops (link ops I).1).1.CS.length = (link ops I).1.CS.length
    ∧ (link ops (link ops I).1).1.GlobalVariableSymbols
        = (link ops I).1.GlobalVariableSymbols
    ∧ (link ops I).1.Variables = I.Variables
    ∧ (link ops I).1.ExternalFunctionFVCons = I.ExternalFunctionFVCons
    ∧ (link ops I).1.StaticFunctionFVCons = I.StaticFunctionFVCons
    ∧ (link ops I).1.ExternGVars = I.ExternGVars
    ∧ (∀ VarName, StdMap.index (link ops I).1.GlobalVariableSymbols VarName
        = StdMap.index I.GlobalVariableSymbols VarName)
    ∧ (ExternKeysInGlobals I →
        (link ops I).1.GlobalVariableSymbols = I.GlobalVariableSymbols)
    ∧ (link ops I).2 = true := by
  have hG := linkExternGVars_fold_table I.ExternGVars I.GlobalVariableSymbols []
  have hF := linkExternGVars_fold I.ExternGVars I.GlobalVariableSymbols []
  have hcalls : linkCalls (link ops I).1 = linkCalls I := by
    have h1 : linkGlobalVariables (link ops I).1 = linkGlobalVariables I := by
      show (linkExternGVars I).1.flatMap linkGlobalVariable
        = I.GlobalVariableSymbols.flatMap linkGlobalVariable
      exact hG.1 linkGlobalVariable (fun n => by simp [linkGlobalVariable])
    have h2 : (linkExternGVars (link ops I).1).2 = (linkExternGVars I).2 := by
      show (I.ExternGVars.foldl linkExternGVar ((linkExternGVars I).1, [])).2
        = (I.ExternGVars.foldl linkExternGVar (I.GlobalVariableSymbols, [])).2
      rw [(linkExternGVars_fold I.ExternGVars (linkExternGVars I).1 []).1, hF.1]
      have hidx : ∀ k, StdMap.index (linkExternGVars I).1 k
          = StdMap.index I.GlobalVariableSymbols k := hF.2.1
      simp only [hidx]
    have h3 : linkExternalFunctions (link ops I).1 = linkExternalFunctions I := rfl
    have h4 : linkStaticFunctions (link ops I).1 = linkStaticFunctions I := rfl
    unfold linkCalls
    rw [h1, h2, h3, h4]
  have hreq : linkRequests ops (link ops I).1 = linkRequests ops I := by
    unfold linkRequests
    rw [hcalls]
    have : callRequests ops (link ops I).1 = callRequests ops I := by
      funext c
      cases c <;> rfl
    rw [this]
  have hcs : (link ops (link ops I).1).1.CS = (link ops I).1.CS := by
    show addConstraints (addConstraints I.CS (linkRequests ops I))
        (linkRequests ops (link ops I).1)
      = addConstraints I.CS (linkRequests ops I)
    rw [hreq]
    exact addConstraints_twice _ _
  refine ⟨hcalls, hreq, ?_, ?_, hcs, by rw [hcs], ?_, rfl, rfl, rfl, rfl, hF.2.1, ?_, rfl⟩
  · intro q hq
    rw [hreq] at hq
    exact hq
  · intro q hq
    rw [hreq] at hq
    exact covered_addConstraints I.CS (linkRequests ops I) q hq
  · show (I.ExternGVars.foldl linkExternGVar ((linkExternGVars I).1, [])).1
      = (linkExternGVars I).1
    exact (linkExternGVars_fold_table I.ExternGVars (linkExternGVars I).1 []).2.2.2 hG.2.2.1
  · intro hinv
    show (linkExternGVars I).1 = I.GlobalVariableSymbols
    apply hG.2.2.2
    intro k hk
    exact hinv k (StdMap.contains_of_mem I.ExternGVars k false hk)

/-! ## The driver -/

/-- C20: `main` returns 0 if and only if interface creation,
`buildInitialConstraints`, `solveConstraints` and
`writeAllConvertedFilesToDisk` all succeed, and 1 otherwise; the phases are
called in that order and none is called after one that failed. -/
theorem main_exit_code {σ : Type} (X : Interface σ) :
    ((main X).1 = 0 ↔
      ∃ S0, X.create = some S0
        ∧ (X.buildInitialConstraints S0).1 = true
        ∧ (X.solveConstraints (X.buildInitialConstraints S0).2).1 = true
        ∧ (X.writeAllConvertedFilesToDisk
            (X.solveConstraints (X.buildInitialConstraints S0).2).2).1 = true)
    ∧ ((main X).1 = 0 ∨ (main X).1 = 1)
    ∧ (X.create = none → (main X).2 = [.create])
    ∧ (∀ S0, X.create = some S0 → (X.buildInitialConstraints S0).1 = false →
        (main X).2 = [.create, .buildInitialConstraints])
    ∧ (∀ S0, X.create = some S0 → (X.buildInitialConstraints S0).1 = true →
        (X.solveConstraints (X.buildInitialConstraints S0).2).1 = false →
        (main X).2 = [.create, .buildInitialConstraints, .solveConstraints])
    ∧ (∀ S0, X.create = some S0 → (X.buildInitialConstraints S0).1 = true →
        (X.solveConstraints (X.buildInitialConstraints S0).2).1 = true →
        (main X).2 = [.create, .buildInitialConstraints, .solveConstraints,
          .writeAllConvertedFilesToDisk]) := by
  unfold main
  cases hc : X.create with
  | none => simp
  | some S0 =>
    cases h1 : (X.buildInitialConstraints S0).1 with
    | false => simp [h1]
    | true =>
      cases h2 : (X.solveConstraints (X.buildInitialConstraints S0).2).1 with
      | false => simp [h1, h2]
      | true =>
        cases h3 : (X.writeAllConvertedFilesToDisk
            (X.solveConstraints (X.buildInitialConstraints S0).2).2).1 with
        | false => simp [h1, h2, h3]
        | true => simp [h1, h2, h3]

/-! ## Type parameter bindings -/

theorem StdMap.find_set_iff {K V : Type} [DecidableEq K] [KeyOrder K] (m : StdMap K V)
    (k k0 : K) (v : V) :
    StdMap.find (StdMap.set m k v) k0 = if k0 = k then some v else StdMap.find m k0 := by
  by_cases h : k0 = k
  · subst h
    simp [StdMap.find_set_self]
  · simp [h, StdMap.find_set_other m k k0 v h]

theorem StdMap.find_touch_iff {K V : Type} [DecidableEq K] [KeyOrder K] [Inhabited V]
    (m : StdMap K V) (k k0 : K) :
    StdMap.find (StdMap.touch m k) k0
      = if k0 = k then some (StdMap.index m k) else StdMap.find m k0 := by
  by_cases h : k0 = k
  · subst h
    unfold StdMap.touch StdMap.index
    cases hf : StdMap.find m k0 with
    | none => simp [StdMap.find_set_self]
    | some v => simp [hf]
  · simp [h, StdMap.find_touch_other m k k0 h]

theorem StdMap.index_set_iff {K V : Type} [DecidableEq K] [KeyOrder K] [Inhabited V]
    (m : StdMap K V) (k k0 : K) (v : V) :
    StdMap.index (StdMap.set m k v) k0 = if k0 = k then v else StdMap.index m k0 := by
  unfold StdMap.index
  rw [StdMap.find_set_iff]
  by_cases h : k0 = k <;> simp [h]

theorem typeParamBinding_set (I I' : ProgramInfo) (CE : CallExpr) (TypeVarIdx : Nat)
    (CV : CVRef) (h : setTypeParamBinding I CE TypeVarIdx CV = .ok I') :
    typeParamBinding I CE.PSL TypeVarIdx = none
    ∧ (∀ PSL J, typeParamBinding I' PSL J
        = if PSL = CE.PSL ∧ J = TypeVarIdx then some CV else typeParamBinding I PSL J)
    ∧ (∀ PSL, StdMap.contains I'.TypeParamBindings PSL
        = (decide (PSL = CE.PSL) || StdMap.contains I.TypeParamBindings PSL)) := by
  unfold setTypeParamBinding at h
  by_cases hc : StdMap.contains (StdMap.index I.TypeParamBindings CE.PSL) TypeVarIdx = true
  · simp [hc] at h
  · simp only [hc, Bool.false_eq_true, if_false, Except.ok.injEq] at h
    subst h
    refine ⟨?_, ?_, ?_⟩
    · unfold typeParamBinding
      unfold StdMap.contains at hc
      cases hf : StdMap.find (StdMap.index I.TypeParamBindings CE.PSL) TypeVarIdx with
      | none => rfl
      | some v => simp [hf] at hc
    · intro PSL J
      unfold typeParamBinding
      simp only [StdMap.index_set_iff, StdMap.index_touch]
      by_cases hp : PSL = CE.PSL
      · subst hp
        simp only [if_true, true_and, StdMap.find_set_iff]
      · simp [hp]
    · intro PSL
      unfold StdMap.contains
      simp only [StdMap.find_set_iff, StdMap.find_touch_iff]
      by_cases hp : PSL = CE.PSL
      · simp [hp]
      · simp [hp]

/-- C18: `setTypeParamBinding(CE, i, CV)` trips its assertion if and only if a
binding for `(PSL(CE), i)` already exists; when it returns, `(PSL(CE), i)` is
bound to `CV` and the binding of every other pair of a call site and an index
is what it was, so that no existing binding is overwritten. -/
theorem setTypeParamBinding_once (I : ProgramInfo) (CE : CallExpr) (TypeVarIdx : Nat)
    (CV : CVRef) :
    (setTypeParamBinding I CE TypeVarIdx CV
        = .error (.assertion "Attempting to overwrite type param binding in ProgramInfo.")
      ↔ ∃ Old, typeParamBinding I CE.PSL TypeVarIdx = some Old)
    ∧ ((∃ I', setTypeParamBinding I CE TypeVarIdx CV = .ok I')
      ↔ typeParamBinding I CE.PSL TypeVarIdx = none)
    ∧ (∀ I', setTypeParamBinding I CE TypeVarIdx CV = .ok I' →
        typeParamBinding I' CE.PSL TypeVarIdx = some CV
        ∧ (∀ PSL J, ¬ (PSL = CE.PSL ∧ J = TypeVarIdx) →
            typeParamBinding I' PSL J = typeParamBinding I PSL J)
        ∧ (∀ PSL J Old, typeParamBinding I PSL J = some Old →
            typeParamBinding I' PSL J = some Old)) := by
  have hcases : (∃ Old, typeParamBinding I CE.PSL TypeVarIdx = some Old
        ∧ setTypeParamBinding I CE TypeVarIdx CV
          = .error (.assertion "Attempting to overwrite type param binding in ProgramInfo."))
      ∨ (typeParamBinding I CE.PSL TypeVarIdx = none
        ∧ ∃ I', setTypeParamBinding I CE TypeVarIdx CV = .ok I') := by
    unfold setTypeParamBinding typeParamBinding StdMap.contains
    cases hf : StdMap.find (StdMap.index I.TypeParamBindings CE.PSL) TypeVarIdx with
    | none => right; simp [hf]
    | some Old => left; simp [hf]
  refine ⟨?_, ?_, ?_⟩
  · rcases hcases with ⟨Old, h1, h2⟩ | ⟨h1, I', h2⟩
    · simp [h1, h2]
    · simp [h1, h2]
  · rcases hcases with ⟨Old, h1, h2⟩ | ⟨h1, I', h2⟩
    · simp [h1, h2]
    · simp [h1, h2]
  · intro I' h
    obtain ⟨h0, hb, _⟩ := typeParamBinding_set I I' CE TypeVarIdx CV h
    refine ⟨by simp [hb], ?_, ?_⟩
    · intro PSL J hne
      rw [hb, if_neg hne]
    · intro PSL J Old hOld
      rw [hb]
      by_cases hpj : PSL = CE.PSL ∧ J = TypeVarIdx
      · obtain ⟨rfl, rfl⟩ := hpj
        rw [h0] at hOld
        simp at hOld
      · rw [if_neg hpj]
        exact hOld

theorem typeParamBindings_run (I0 I : ProgramInfo) (Bs : List (CallExpr × Nat × CVRef))
    (h : setTypeParamBindings I0 Bs = .ok I) :
    (∀ PSL, StdMap.contains I.TypeParamBindings PSL = true ↔
      (StdMap.contains I0.TypeParamBindings PSL = true ∨ ∃ J CV, (⟨PSL⟩, J, CV) ∈ Bs))
    ∧ (∀ PSL J CV, typeParamBinding I PSL J = some CV ↔
      (typeParamBinding I0 PSL J = some CV ∨ ((⟨PSL⟩ : CallExpr), J, CV) ∈ Bs)) := by
  induction Bs generalizing I0 with
  | nil =>
    simp only [setTypeParamBindings, Except.ok.injEq] at h
    subst h
    simp
  | cons B Bs ih =>
    obtain ⟨CE, K, CV0⟩ := B
    simp only [setTypeParamBindings] at h
    cases h1 : setTypeParamBinding I0 CE K CV0 with
    | error e => simp [h1] at h
    | ok I1 =>
      simp only [h1] at h
      obtain ⟨ihc, ihb⟩ := ih I1 h
      obtain ⟨hnone, hb, hc⟩ := typeParamBinding_set I0 I1 CE K CV0 h1
      refine ⟨?_, ?_⟩
      · intro PSL
        rw [ihc, hc]
        simp only [Bool.or_eq_true, decide_eq_true_eq, List.mem_cons, Prod.mk.injEq]
        constructor
        · rintro ((rfl | h2) | ⟨J, CV, h2⟩)
          · exact Or.inr ⟨K, CV0, Or.inl ⟨rfl, rfl, rfl⟩⟩
          · exact Or.inl h2
          · exact Or.inr ⟨J, CV, Or.inr h2⟩
        · rintro (h2 | ⟨J, CV, (⟨h3, _, _⟩ | h2)⟩)
          · exact Or.inl (Or.inr h2)
          · left; left
            rw [← h3]
          · exact Or.inr ⟨J, CV, h2⟩
      · intro PSL J CV
        rw [ihb, hb]
        simp only [List.mem_cons, Prod.mk.injEq]
        by_cases hpj : PSL = CE.PSL ∧ J = K
        · obtain ⟨hp, hj⟩ := hpj
          subst hp hj
          rw [if_pos ⟨rfl, rfl⟩, hnone]
          constructor
          · rintro (h2 | h2)
            · right; left
              exact ⟨rfl, rfl, (Option.some.inj h2).symm⟩
            · exact Or.inr (Or.inr h2)
          · rintro (h2 | ⟨_, _, h2⟩ | h2)
            · simp at h2
            · left
              rw [h2]
            · exact Or.inr h2
        · rw [if_neg hpj]
          constructor
          · rintro (h2 | h2)
            · exact Or.inl h2
            · exact Or.inr (Or.inr h2)
          · rintro (h2 | ⟨h3, h4, _⟩ | h2)
            · exact Or.inl h2
            · exact absurd ⟨by rw [← h3], h4⟩ hpj
            · exact Or.inr h2

/-- C19: after a run of `setTypeParamBinding` calls on a `ProgramInfo` without
bindings, `hasTypeParamBindings(CE)` is true if and only if one of the calls
was for the call site of `CE`, and `getTypeParamBindings(CE)` then returns
exactly the index-to-CV pairs written for that call site; a call site for
which nothing was written has no bindings. -/
theorem typeParamBindings_written (I0 I : ProgramInfo) (Bs : List (CallExpr × Nat × CVRef))
    (h0 : I0.TypeParamBindings = []) (h : setTypeParamBindings I0 Bs = .ok I) :
    (∀ CE, hasTypeParamBindings I CE = true ↔ ∃ J CV, (CE, J, CV) ∈ Bs)
    ∧ (∀ CE, hasTypeParamBindings I CE = true →
        ∃ M, getTypeParamBindings I CE = .ok M
          ∧ ∀ J CV, StdMap.find M J = some CV ↔ (CE, J, CV) ∈ Bs)
    ∧ (∀ CE, (∀ J CV, (CE, J, CV) ∉ Bs) →
        hasTypeParamBindings I CE = false
        ∧ getTypeParamBindings I CE
            = .error (.assertion "Type parameter bindings could not be found.")) := by
  obtain ⟨hc, hb⟩ := typeParamBindings_run I0 I Bs h
  have hc0 : ∀ PSL, StdMap.contains I0.TypeParamBindings PSL = false := by
    intro PSL
    rw [h0]
    rfl
  have hb0 : ∀ PSL J, typeParamBinding I0 PSL J = none := by
    intro PSL J
    unfold typeParamBinding
    rw [h0]
    rfl
  have hhas : ∀ CE : CallExpr, hasTypeParamBindings I CE = true ↔ ∃ J CV, (CE, J, CV) ∈ Bs := by
    intro CE
    unfold hasTypeParamBindings
    rw [hc]
    simp [hc0]
  refine ⟨hhas, ?_, ?_⟩
  · intro CE hCE
    unfold hasTypeParamBindings at hCE
    unfold getTypeParamBindings StdMap.at
    simp only [hCE, Bool.not_true, Bool.false_eq_true, if_false]
    unfold StdMap.contains at hCE
    cases hf : StdMap.find I.TypeParamBindings CE.PSL with
    | none => simp [hf] at hCE
    | some M =>
      refine ⟨M, rfl, ?_⟩
      intro J CV
      have := hb CE.PSL J CV
      rw [hb0] at this
      simp only [false_or, reduceCtorEq] at this
      unfold typeParamBinding StdMap.index at this
      simp only [hf, Option.getD_some] at this
      exact this
  · intro CE hno
    have hfalse : hasTypeParamBindings I CE = false := by
      cases hh : hasTypeParamBindings I CE with
      | false => rfl
      | true =>
        obtain ⟨J, CV, hm⟩ := (hhas CE).1 hh
        exact absurd hm (hno J CV)
    refine ⟨hfalse, ?_⟩
    unfold hasTypeParamBindings at hfalse
    unfold getTypeParamBindings
    simp [hfalse]

/-- The binding of `t0` is written and that of `t1` is not: `test_single(a, b)`
has the binding of index 0 and `test_single(a, &c)` has none. -/
theorem typeParamBindings_written_witness :
    hasTypeParamBindings sampleBoundInfo sampleCallT0 = true
    ∧ hasTypeParamBindings sampleBoundInfo sampleCallT1 = false := by
  have h := typeParamBindings_written ProgramInfo.new sampleBoundInfo
    [(sampleCallT0, 0, CVRef.PV (.obj 5))] rfl rfl
  refine ⟨(h.1 sampleCallT0).2 ⟨0, CVRef.PV (.obj 5), by simp⟩, (h.2.2 sampleCallT1 ?_).1⟩
  intro J CV hm
  simp only [List.mem_singleton, Prod.mk.injEq] at hm
  exact absurd hm.1 (by decide)

/-! ## The expression caches -/

theorem mem_refInsert {α : Type} [DecidableEq α] (S : List α) (x y : α) :
    y ∈ refInsert S x ↔ y ∈ S ∨ y = x := by
  unfold refInsert
  by_cases h : x ∈ S
  · simp only [h, if_true]
    constructor
    · exact Or.inl
    · rintro (h1 | h1)
      · exact h1
      · rw [h1]; exact h
  · simp [h]

theorem mem_foldl_refInsert {α : Type} [DecidableEq α] (Vars S : List α) (y : α) :
    y ∈ Vars.foldl refInsert S ↔ y ∈ S ∨ y ∈ Vars := by
  induction Vars generalizing S with
  | nil => simp
  | cons x Vars ih =>
    simp only [List.foldl_cons, ih, mem_refInsert, List.mem_cons]
    constructor
    · rintro ((h | h) | h)
      · exact Or.inl h
      · exact Or.inr (Or.inl h)
      · exact Or.inr (Or.inr h)
    · rintro (h | h | h)
      · exact Or.inl (Or.inl h)
      · exact Or.inl (Or.inr h)
      · exact Or.inr h

theorem cacheOfKind_store (X : Externals) (I : ProgramInfo) (E : Expr) (Vars : List CVRef)
    (hv : X.valid E.PSL = true) (hr : E.Rewritable = true) :
    cacheOfKind (storePersistentConstraints X I E Vars) E.ImplicitCast
        = StdMap.set (StdMap.touch (cacheOfKind I E.ImplicitCast) E.PSL) E.PSL
            (Vars.foldl refInsert (StdMap.index (cacheOfKind I E.ImplicitCast) E.PSL))
    ∧ cacheOfKind (storePersistentConstraints X I E Vars) (!E.ImplicitCast)
        = cacheOfKind I (!E.ImplicitCast) := by
  unfold storePersistentConstraints cacheOfKind
  cases hi : E.ImplicitCast <;> simp [hv, hr]

theorem hasPersistentConstraints_iff (X : Externals) (I : ProgramInfo) (E : Expr) :
    hasPersistentConstraints X I E = true ↔
      X.valid E.PSL = true
        ∧ ∃ S, StdMap.find (cacheOfKind I E.ImplicitCast) E.PSL = some S ∧ S ≠ [] := by
  unfold hasPersistentConstraints cacheOfKind StdMap.contains StdMap.index
  cases hi : E.ImplicitCast
  · cases hf : StdMap.find I.ExprConstraintVars E.PSL with
    | none => simp [hf]
    | some S => cases S <;> simp [hf]
  · cases hf : StdMap.find I.ImplicitCastConstraintVars E.PSL with
    | none => simp [hf]
    | some S => cases S <;> simp [hf]

/-- C17: for an expression `E` with a valid location and a rewritable begin
location and a non-empty set `S`, after `storePersistentConstraints(E, S)`
`hasPersistentConstraints(E)` is true and `getPersistentConstraints(E)` is the
set that the cache of the kind of `E` held for the location of `E`, united
with `S`; the cache of the other kind and the entries of other locations are
unchanged. For an expression in a macro or with an invalid location
`storePersistentConstraints` changes nothing. -/
theorem storePersistentConstraints_roundtrip (X : Externals) (I : ProgramInfo) (E : Expr)
    (S : List CVRef) :
    (X.valid E.PSL = true → E.Rewritable = true → S ≠ [] →
      hasPersistentConstraints X (storePersistentConstraints X I E S) E = true
      ∧ (∃ R, getPersistentConstraints X (storePersistentConstraints X I E S) E = .ok R
          ∧ ∀ CV, CV ∈ R ↔
              (CV ∈ StdMap.index (cacheOfKind I E.ImplicitCast) E.PSL ∨ CV ∈ S))
      ∧ cacheOfKind (storePersistentConstraints X I E S) (!E.ImplicitCast)
          = cacheOfKind I (!E.ImplicitCast)
      ∧ ∀ PSL, PSL ≠ E.PSL →
          StdMap.find (cacheOfKind (storePersistentConstraints X I E S) E.ImplicitCast) PSL
            = StdMap.find (cacheOfKind I E.ImplicitCast) PSL)
    ∧ ((X.valid E.PSL = false ∨ E.Rewritable = false) →
        storePersistentConstraints X I E S = I) := by
  constructor
  · intro hv hr hS
    obtain ⟨hk, ho⟩ := cacheOfKind_store X I E S hv hr
    have hfind : StdMap.find (cacheOfKind (storePersistentConstraints X I E S) E.ImplicitCast)
        E.PSL = some (S.foldl refInsert (StdMap.index (cacheOfKind I E.ImplicitCast) E.PSL)) := by
      rw [hk, StdMap.find_set_self]
    have hne : S.foldl refInsert (StdMap.index (cacheOfKind I E.ImplicitCast) E.PSL) ≠ [] := by
      cases hS' : S with
      | nil => exact absurd hS' hS
      | cons x S' =>
        intro hnil
        have hx : x ∈ (x :: S').foldl refInsert
            (StdMap.index (cacheOfKind I E.ImplicitCast) E.PSL) :=
          (mem_foldl_refInsert _ _ x).2 (Or.inr (by simp))
        rw [hnil] at hx
        simp at hx
    have hhas : hasPersistentConstraints X (storePersistentConstraints X I E S) E = true :=
      (hasPersistentConstraints_iff X _ E).2 ⟨hv, _, hfind, hne⟩
    refine ⟨hhas, ?_, ho, ?_⟩
    · refine ⟨S.foldl refInsert (StdMap.index (cacheOfKind I E.ImplicitCast) E.PSL), ?_, ?_⟩
      · unfold getPersistentConstraints
        simp only [hhas, Bool.not_true, Bool.false_eq_true, if_false]
        unfold cacheOfKind at hfind
        unfold StdMap.at
        cases hi : E.ImplicitCast
        · simp only [hi, Bool.false_eq_true, if_false] at hfind ⊢
          rw [hfind]
          rfl
        · simp only [hi, if_true] at hfind ⊢
          rw [hfind]
          rfl
      · intro CV
        exact mem_foldl_refInsert _ _ CV
    · intro PSL hP
      rw [hk, StdMap.find_set_other _ _ _ _ hP, StdMap.find_touch_other _ _ _ hP]
  · intro h
    unfold storePersistentConstraints
    rcases h with h | h <;> simp [h]

/-! ## Frames of the steps of `addVariable` -/

theorem frame_refl (I : ProgramInfo) : Frame I I := ⟨rfl, rfl, rfl⟩

theorem frame_trans {I J K : ProgramInfo} (h1 : Frame I J) (h2 : Frame J K) : Frame I K :=
  ⟨h2.1.trans h1.1, h2.2.1.trans h1.2.1, h2.2.2.trans h1.2.2⟩

theorem invoke_step (X : Externals) (St : ProgramInfo × List LayerCall) (c : LayerCall) :
    Frame St.1 (invoke X St c).1 ∧ (invoke X St c).1.Variables = St.1.Variables
      ∧ (invoke X St c).2 = St.2 ++ [c] :=
  ⟨⟨rfl, rfl, rfl⟩, rfl, rfl⟩

theorem constrainWildIfMacro_step (X : Externals) (St : ProgramInfo × List LayerCall)
    (CV : CVRef) (Rewritable : Bool) (PSL : Option PersistentSourceLoc) :
    Frame St.1 (constrainWildIfMacro X St CV Rewritable PSL).1
    ∧ (constrainWildIfMacro X St CV Rewritable PSL).1.Variables = St.1.Variables
    ∧ (constrainWildIfMacro X St CV Rewritable PSL).2
        = St.2 ++ (if Rewritable then []
            else [LayerCall.constrainToWild CV "Pointer in Macro declaration." PSL]) := by
  unfold constrainWildIfMacro
  cases Rewritable
  · exact ⟨⟨rfl, rfl, rfl⟩, rfl, rfl⟩
  · exact ⟨⟨rfl, rfl, rfl⟩, rfl, by simp⟩

theorem foldl_invoke_step (X : Externals) (f : PVRef → LayerCall) (Bs : List PVRef)
    (St : ProgramInfo × List LayerCall) :
    Frame St.1 (Bs.foldl (fun S B => invoke X S (f B)) St).1
    ∧ (Bs.foldl (fun S B => invoke X S (f B)) St).1.Variables = St.1.Variables
    ∧ (Bs.foldl (fun S B => invoke X S (f B)) St).1.TypedefVars = St.1.TypedefVars
    ∧ (Bs.foldl (fun S B => invoke X S (f B)) St).2 = St.2 ++ Bs.map f := by
  induction Bs generalizing St with
  | nil => exact ⟨frame_refl _, rfl, rfl, by simp⟩
  | cons B Bs ih =>
    obtain ⟨h1, h2, h3, h4⟩ := ih (invoke X St (f B))
    refine ⟨frame_trans (invoke_step X St (f B)).1 h1, h2, h3, ?_⟩
    rw [List.foldl_cons, h4]
    simp [invoke]

theorem unifyIfTypedef_step (X : Externals) (St : ProgramInfo × List LayerCall)
    (Ty : Option TypedefDecl) (P : PVRef) :
    Frame St.1 (unifyIfTypedef X St Ty P).1
    ∧ (unifyIfTypedef X St Ty P).1.Variables = St.1.Variables
    ∧ ∃ t, (unifyIfTypedef X St Ty P).2 = St.2 ++ t
        ∧ ∀ c ∈ t, ∃ L R PSL, c = LayerCall.constrainConsVarGeq L R .Same_to_Same true PSL := by
  unfold unifyIfTypedef
  cases Ty with
  | none => exact ⟨frame_refl _, rfl, [], by simp, by simp⟩
  | some TDT =>
    dsimp only
    split
    · obtain ⟨h1, h2, _, h4⟩ := foldl_invoke_step X
        (fun B => LayerCall.constrainConsVarGeq P B .Same_to_Same true (some TDT.PSL))
        (StdMap.index St.1.TypedefVars TDT.PSL).1
        ({ St.1 with TypedefVars := StdMap.touch St.1.TypedefVars TDT.PSL }, St.2)
      refine ⟨⟨h1.1, h1.2.1, h1.2.2⟩, h2, _, h4, ?_⟩
      intro c hc
      obtain ⟨B, _, rfl⟩ := List.mem_map.1 hc
      exact ⟨P, B, some TDT.PSL, rfl⟩
    · exact ⟨⟨rfl, rfl, rfl⟩, rfl, [], by simp, by simp⟩

theorem installNewCV_step (X : Externals) (St : ProgramInfo × List LayerCall)
    (D : DeclaratorDecl) (NewCV : CVRef) :
    Frame St.1 (installNewCV X St D NewCV).1
    ∧ (installNewCV X St D NewCV).1.Variables = StdMap.set St.1.Variables D.PSL NewCV
    ∧ (installNewCV X St D NewCV).2
        = St.2
          ++ (if X.canWrite D.PSL.FileName then []
              else [LayerCall.constrainToWild NewCV "Declaration in non-writable file"
                (some D.PSL)])
          ++ (if D.Rewritable then []
              else [LayerCall.constrainToWild NewCV "Pointer in Macro declaration." none]) := by
  unfold installNewCV
  dsimp only
  cases hw : X.canWrite D.PSL.FileName
  · simp only [Bool.not_false, if_true, Bool.false_eq_true, if_false]
    obtain ⟨h1, h2, h3⟩ := constrainWildIfMacro_step X
      (invoke X St (.constrainToWild NewCV "Declaration in non-writable file" (some D.PSL)))
      NewCV D.Rewritable none
    refine ⟨⟨h1.1, h1.2.1, h1.2.2⟩, ?_, ?_⟩
    · rw [h2]
      rfl
    · rw [h3]
      rfl
  · simp only [Bool.not_true, Bool.false_eq_true, if_false, if_true, List.append_nil]
    obtain ⟨h1, h2, h3⟩ := constrainWildIfMacro_step X St NewCV D.Rewritable none
    refine ⟨⟨h1.1, h1.2.1, h1.2.2⟩, ?_, ?_⟩
    · rw [h2]
    · rw [h3]

theorem insertNewFVConstraint_frame (ops : CVOps) (I I2 : ProgramInfo) (FD : FunctionDecl)
    (FVCon : Nat) (h : insertNewFVConstraint ops I FD FVCon = .ok I2) :
    Frame I I2 ∧ I2.Variables = I.Variables := by
  unfold insertNewFVConstraint at h
  cases hg : FD.Global
  · simp only [hg, Bool.false_eq_true, if_false] at h
    cases hi : insertIntoStaticFunctionMap ops I.FVs I.StaticFunctionFVCons FD.Name
        FD.PSL.FileName FVCon with
    | error e => simp [hi] at h
    | ok R =>
      simp only [hi, Except.ok.injEq] at h
      subst h
      exact ⟨⟨rfl, rfl, rfl⟩, rfl⟩
  · simp only [hg, if_true] at h
    cases hi : insertIntoExternalFunctionMap ops I.FVs I.ExternalFunctionFVCons FD.Name FVCon with
    | error e => simp [hi] at h
    | ok R =>
      simp only [hi, Except.ok.injEq] at h
      subst h
      exact ⟨⟨rfl, rfl, rfl⟩, rfl⟩

theorem getFuncFVConstraint_frame (I : ProgramInfo) (FD : FunctionDecl) (Built : FVConstraint)
    (A : Nat) :
    (∀ e, getFuncFVConstraint I FD Built A = .error e → e ≠ Failure.persisted)
    ∧ (∀ R, getFuncFVConstraint I FD Built A = .ok R →
        Frame I R.1 ∧ R.1.Variables = I.Variables) := by
  unfold getFuncFVConstraint
  cases hg : FD.Global
  · simp only [Bool.false_eq_true, if_false]
    refine ⟨by intro e h; simp at h, ?_⟩
    intro R h
    simp only [Except.ok.injEq] at h
    subst h
    exact ⟨frame_refl _, rfl⟩
  · simp only [if_true]
    cases hf : getExtFuncDefnConstraint I FD.Name with
    | some FunFVar =>
      refine ⟨by intro e h; simp at h, ?_⟩
      intro R h
      simp only [Except.ok.injEq] at h
      subst h
      exact ⟨frame_refl _, rfl⟩
    | none =>
      cases hb : Built.hasBody
      · simp only [Bool.false_eq_true, if_false]
        refine ⟨by intro e h; simp at h, ?_⟩
        intro R h
        simp only [Except.ok.injEq] at h
        subst h
        exact ⟨⟨rfl, rfl, rfl⟩, rfl⟩
      · simp only [if_true]
        refine ⟨?_, by intro R h; simp at h⟩
        intro e h
        simp only [Except.error.injEq] at h
        subst h
        simp

theorem getVariable_frame (I : ProgramInfo) (D : Decl) (A : Nat) (hl : I.Persisted = false) :
    (∀ e, getVariable I D A = .error e → e ≠ Failure.persisted)
    ∧ (∀ R, getVariable I D A = .ok R → Frame I R.1 ∧ R.1.Variables = I.Variables) := by
  unfold getVariable
  simp only [hl, Bool.false_eq_true, if_false]
  cases D with
  | Parm Parent PIdx =>
    cases Parent with
    | none =>
      refine ⟨by intro e h; simp at h, ?_⟩
      intro R h
      simp only [Except.ok.injEq] at h
      subst h
      exact ⟨frame_refl _, rfl⟩
    | some PB =>
      obtain ⟨FD, Built⟩ := PB
      obtain ⟨he, ho⟩ := getFuncFVConstraint_frame I FD Built A
      cases hr : getFuncFVConstraint I FD Built A with
      | error e =>
        simp only [hr]
        refine ⟨?_, by intro R h; simp at h⟩
        intro e' h
        simp only [Except.error.injEq] at h
        subst h
        exact he e hr
      | ok R0 =>
        obtain ⟨I', r⟩ := R0
        cases r with
        | none =>
          simp only [hr]
          refine ⟨?_, by intro R h; simp at h⟩
          intro e' h
          simp only [Except.error.injEq] at h
          subst h
          simp
        | some F =>
          simp only [hr]
          refine ⟨by intro e h; simp at h, ?_⟩
          intro R h
          simp only [Except.ok.injEq] at h
          subst h
          exact ho _ hr
  | Function FD Built =>
    obtain ⟨he, ho⟩ := getFuncFVConstraint_frame I FD Built A
    cases hr : getFuncFVConstraint I FD Built A with
    | error e =>
      simp only [hr]
      refine ⟨?_, by intro R h; simp at h⟩
      intro e' h
      simp only [Except.error.injEq] at h
      subst h
      exact he e hr
    | ok R0 =>
      obtain ⟨I', r⟩ := R0
      cases r with
      | none =>
        simp only [hr]
        refine ⟨?_, by intro R h; simp at h⟩
        intro e' h
        simp only [Except.error.injEq] at h
        subst h
        simp
      | some F =>
        simp only [hr]
        refine ⟨by intro e h; simp at h, ?_⟩
        intro R h
        simp only [Except.ok.injEq] at h
        subst h
        exact ho _ hr
  | Other PSL =>
    cases hf : StdMap.find I.Variables PSL with
    | none =>
      simp only [hf]
      refine ⟨by intro e h; simp at h, ?_⟩
      intro R h
      simp only [Except.ok.injEq] at h
      subst h
      exact ⟨frame_refl _, rfl⟩
    | some CV =>
      simp only [hf]
      refine ⟨by intro e h; simp at h, ?_⟩
      intro R h
      simp only [Except.ok.injEq] at h
      subst h
      exact ⟨frame_refl _, rfl⟩

theorem getVariable_persisted (I : ProgramInfo) (D : Decl) (A : Nat)
    (hp : I.Persisted = true) : getVariable I D A = .error .persisted := by
  simp [getVariable, hp]

theorem specialCaseVarIntros_fresh (X : Externals) (St : ProgramInfo × List LayerCall)
    (PSL PL : PersistentSourceLoc) (a b c : Bool) (A : Nat) (hl : St.1.Persisted = false)
    (hf : StdMap.find St.1.Variables PSL = none) :
    specialCaseVarIntros X St ⟨.Other PSL, PL, a, b, c⟩ A = .ok St := by
  unfold specialCaseVarIntros getVariable
  simp [hl, hf, Decl.isParm]

theorem specialCaseVarIntros_step (X : Externals) (St : ProgramInfo × List LayerCall)
    (D : ValueDecl) (A : Nat) (hl : St.1.Persisted = false) :
    (∀ e, specialCaseVarIntros X St D A = .error e → e ≠ Failure.persisted)
    ∧ (∀ St', specialCaseVarIntros X St D A = .ok St' →
        Frame St.1 St'.1 ∧ St'.1.Variables = St.1.Variables
        ∧ ∃ t, St'.2 = St.2 ++ t
          ∧ ∀ c ∈ t, ∃ P Rsn, c = LayerCall.constrainToWild (.PV P) Rsn (some D.PSL)
              ∧ (Rsn = "Variable type is va_list." ∨ Rsn = "Variable type void.")) := by
  obtain ⟨he, ho⟩ := getVariable_frame St.1 D.D A hl
  unfold specialCaseVarIntros
  cases hr : getVariable St.1 D.D A with
  | error e =>
    simp only [hr]
    refine ⟨?_, by intro R h; simp at h⟩
    intro e' h
    simp only [Except.error.injEq] at h
    subst h
    exact he e hr
  | ok R0 =>
    obtain ⟨I1, CVOpt⟩ := R0
    obtain ⟨hfr, hvar⟩ := ho _ hr
    simp only [hr]
    have key : ∀ (cond : Bool) (PVC : Option PVRef) (Rsn : String),
        (Rsn = "Variable type is va_list." ∨ Rsn = "Variable type void.") →
        (∀ e : Failure, (if cond = true then
                (match PVC with
                  | some P =>
                    (.ok (invoke X (I1, St.2) (.constrainToWild (.PV P) Rsn (some D.PSL))) :
                      Except Failure (ProgramInfo × List LayerCall))
                  | none => .ok (I1, St.2))
              else .ok (I1, St.2)) = .error e → e ≠ Failure.persisted)
        ∧ (∀ St' : ProgramInfo × List LayerCall, (if cond = true then
                (match PVC with
                  | some P =>
                    (.ok (invoke X (I1, St.2) (.constrainToWild (.PV P) Rsn (some D.PSL))) :
                      Except Failure (ProgramInfo × List LayerCall))
                  | none => .ok (I1, St.2))
              else .ok (I1, St.2)) = .ok St' →
            Frame St.1 St'.1 ∧ St'.1.Variables = St.1.Variables
            ∧ ∃ t, St'.2 = St.2 ++ t
              ∧ ∀ c ∈ t, ∃ P Rsn, c = LayerCall.constrainToWild (.PV P) Rsn (some D.PSL)
                  ∧ (Rsn = "Variable type is va_list." ∨ Rsn = "Variable type void.")) := by
      intro cond PVC Rsn hRsn
      cases cond
      · refine ⟨by intro e h; simp at h, ?_⟩
        intro St' h
        simp only [Bool.false_eq_true, if_false, Except.ok.injEq] at h
        subst h
        exact ⟨hfr, hvar, [], by simp, by simp⟩
      · cases PVC with
        | none =>
          refine ⟨by intro e h; simp at h, ?_⟩
          intro St' h
          simp only [if_true, Except.ok.injEq] at h
          subst h
          exact ⟨hfr, hvar, [], by simp, by simp⟩
        | some P =>
          refine ⟨by intro e h; simp at h, ?_⟩
          intro St' h
          simp only [if_true, Except.ok.injEq] at h
          subst h
          refine ⟨hfr, hvar, _, rfl, ?_⟩
          intro c hc
          simp only [List.mem_singleton] at hc
          exact ⟨P, Rsn, hc, hRsn⟩
    apply key
    cases D.IsVoidType <;> simp

theorem addParams_step (X : Externals) (F : Nat) (FD : FunctionDecl) (Built : FVConstraint)
    (New : Nat → Nat) (Ps : List ParmVarDecl) (St : ProgramInfo × List LayerCall) (J : Nat)
    (hl : St.1.Persisted = false) :
    (∀ e, addParams X F FD Built New St Ps J = .error e → e ≠ Failure.persisted)
    ∧ (∀ St', addParams X F FD Built New St Ps J = .ok St' →
        Frame St.1 St'.1
        ∧ (∃ t, St'.2 = St.2 ++ t)
        ∧ ∀ K PVD, Ps[K]? = some PVD → PVD.Rewritable = false →
            LayerCall.constrainToWild (.PV (.externalParam F (J + K)))
              "Pointer in Macro declaration." none ∈ St'.2) := by
  induction Ps generalizing St J with
  | nil =>
    refine ⟨by intro e h; simp [addParams] at h, ?_⟩
    intro St' h
    simp only [addParams, Except.ok.injEq] at h
    subst h
    exact ⟨frame_refl _, ⟨[], by simp⟩, by intro K PVD hK; simp at hK⟩
  | cons PVD Ps ih =>
    obtain ⟨f1, _, t1, ht1, _⟩ := unifyIfTypedef_step X St PVD.Typedef (.internalParam F J)
    obtain ⟨f2, _, t2, ht2, _⟩ := unifyIfTypedef_step X
      (unifyIfTypedef X St PVD.Typedef (.internalParam F J)) PVD.Typedef (.externalParam F J)
    generalize hS2 : unifyIfTypedef X (unifyIfTypedef X St PVD.Typedef (.internalParam F J))
      PVD.Typedef (.externalParam F J) = St2 at f2 ht2
    have f12 : Frame St.1 St2.1 := frame_trans f1 f2
    let St3 : ProgramInfo × List LayerCall :=
      ({ St2.1 with
          FVs := Function.update St2.1.FVs F ((St2.1.FVs F).setInternalParamValid J) },
        St2.2)
    have f3 : Frame St.1 St3.1 := ⟨f12.1, f12.2.1, f12.2.2⟩
    obtain ⟨f4, _, ht4⟩ := constrainWildIfMacro_step X St3 (.PV (.externalParam F J))
      PVD.Rewritable none
    generalize hS4 : constrainWildIfMacro X St3 (.PV (.externalParam F J)) PVD.Rewritable none
      = St4 at f4 ht4
    have f14 : Frame St.1 St4.1 := frame_trans f3 f4
    have hl4 : St4.1.Persisted = false := by rw [f14.1, hl]
    obtain ⟨he5, ho5⟩ := specialCaseVarIntros_step X St4
      ⟨.Parm (if PVD.Parented then some (FD, Built) else none) J, PVD.PSL, PVD.VarArgType,
        PVD.VoidType, PVD.IsVoidType⟩ (New (J + 1)) hl4
    have hunf : addParams X F FD Built New St (PVD :: Ps) J
        = match specialCaseVarIntros X St4
            ⟨.Parm (if PVD.Parented then some (FD, Built) else none) J, PVD.PSL,
              PVD.VarArgType, PVD.VoidType, PVD.IsVoidType⟩ (New (J + 1)) with
          | .error e => .error e
          | .ok St5 =>
            addParams X F FD Built New
              (if StdMap.contains St5.1.Variables PVD.PSL then St5
                else
                  ({ St5.1 with
                      Variables :=
                        StdMap.set St5.1.Variables PVD.PSL (.PV (.internalParam F J)) },
                    St5.2))
              Ps (J + 1) := by
      subst hS4
      subst hS2
      rfl
    rw [hunf]
    cases h5 : specialCaseVarIntros X St4
        ⟨.Parm (if PVD.Parented then some (FD, Built) else none) J, PVD.PSL, PVD.VarArgType,
          PVD.VoidType, PVD.IsVoidType⟩ (New (J + 1)) with
    | error e =>
      refine ⟨?_, by intro St' h; simp at h⟩
      intro e' h
      simp only [Except.error.injEq] at h
      subst h
      exact he5 e h5
    | ok St5 =>
      dsimp only
      obtain ⟨f5, _, t5, ht5, _⟩ := ho5 St5 h5
      have f15 : Frame St.1 St5.1 := frame_trans f14 f5
      generalize hS6 : (if StdMap.contains St5.1.Variables PVD.PSL then St5
          else
            ({ St5.1 with
                Variables := StdMap.set St5.1.Variables PVD.PSL (.PV (.internalParam F J)) },
              St5.2)) = St6
      have h6 : Frame St.1 St6.1 ∧ St6.2 = St5.2 := by
        rw [← hS6]
        split
        · exact ⟨f15, rfl⟩
        · exact ⟨⟨f15.1, f15.2.1, f15.2.2⟩, rfl⟩
      have hl6 : St6.1.Persisted = false := by rw [h6.1.1, hl]
      obtain ⟨ihe, iho⟩ := ih St6 (J + 1) hl6
      refine ⟨ihe, ?_⟩
      intro St' h
      obtain ⟨f7, ⟨t7, ht7⟩, hmem⟩ := iho St' h
      have htr : St'.2 = St.2 ++ (t1 ++ t2
          ++ (if PVD.Rewritable then []
              else [LayerCall.constrainToWild (.PV (.externalParam F J))
                "Pointer in Macro declaration." none])
          ++ t5 ++ t7) := by
        rw [ht7, h6.2, ht5, ht4]
        show (St2.2 ++ _) ++ t5 ++ t7 = _
        rw [ht2, ht1]
        simp only [List.append_assoc]
      refine ⟨frame_trans h6.1 f7, ⟨_, htr⟩, ?_⟩
      intro K PVD' hK hrw
      cases K with
      | zero =>
        simp only [List.getElem?_cons_zero, Option.some.injEq] at hK
        subst hK
        rw [htr]
        simp [hrw]
      | succ K =>
        simp only [List.getElem?_cons_succ] at hK
        have := hmem K PVD' hK hrw
        have harith : J + 1 + K = J + (K + 1) := by omega
        rw [harith] at this
        exact this

/-! ## The branches of `addVariable` -/

theorem addVariable_persisted (X : Externals) (I : ProgramInfo) (D : DeclaratorDecl)
    (New : Nat → Nat) (hp : I.Persisted = true) :
    addVariable X I D New = .error .persisted := by
  simp [addVariable, hp]

theorem addVariable_live (X : Externals) (I : ProgramInfo) (D : DeclaratorDecl)
    (New : Nat → Nat) (hl : I.Persisted = false) (hv : X.valid D.PSL = true) :
    addVariable X I D New = addVariableChecked X I D New := by
  simp [addVariable, hl, hv]

theorem checked_collision (X : Externals) (I : ProgramInfo) (D : DeclaratorDecl)
    (New : Nat → Nat) (CV : CVRef)
    (hf : StdMap.find I.Variables D.PSL = some CV) (hk : D.Kind.isFunction = false) :
    addVariableChecked X I D New
      = .ok (if D.Rewritable then (I, [])
          else invoke X (I, [])
            (.constrainToWild CV "Duplicate source location. Possibly part of a macro."
              (some D.PSL))) := by
  unfold addVariableChecked
  simp only [hf]
  cases hK : D.Kind with
  | Function n g r ps b => simp [hK, DeclaratorKind.isFunction] at hk
  | Var n p a g d b => cases D.Rewritable <;> simp
  | Field a b => cases D.Rewritable <;> simp
  | Other => cases D.Rewritable <;> simp

theorem checked_var (X : Externals) (I : ProgramInfo) (D : DeclaratorDecl)
    (New : Nat → Nat) (VarName : String) (GlobalStorage HasDefinition : Bool)
    (Built : PVConstraint) (hl : I.Persisted = false)
    (hf : StdMap.find I.Variables D.PSL = none)
    (hk : D.Kind = .Var VarName false true GlobalStorage HasDefinition Built) :
    addVariableChecked X I D New
      = .ok (installNewCV X
          (if GlobalStorage then
            (recordGlobalVar
                (unifyIfTypedef X
                  ({ I with PVs := Function.update I.PVs (New 0) Built.setValidDecl }, [])
                  D.Typedef (.obj (New 0))).1
                VarName HasDefinition (New 0),
              (unifyIfTypedef X
                ({ I with PVs := Function.update I.PVs (New 0) Built.setValidDecl }, [])
                D.Typedef (.obj (New 0))).2)
          else
            unifyIfTypedef X
              ({ I with PVs := Function.update I.PVs (New 0) Built.setValidDecl }, [])
              D.Typedef (.obj (New 0)))
          D (.PV (.obj (New 0)))) := by
  obtain ⟨f1, hvar, _⟩ := unifyIfTypedef_step X
    ({ I with PVs := Function.update I.PVs (New 0) Built.setValidDecl }, [])
    D.Typedef (.obj (New 0))
  unfold addVariableChecked
  simp only [hf, hk, Bool.false_eq_true, if_false, if_true]
  rw [specialCaseVarIntros_fresh]
  · cases GlobalStorage
    · exact f1.1.trans hl
    · exact f1.1.trans hl
  · cases GlobalStorage
    · exact (congrArg (fun V => StdMap.find V D.PSL) hvar).trans hf
    · exact (congrArg (fun V => StdMap.find V D.PSL) hvar).trans hf

theorem checked_field (X : Externals) (I : ProgramInfo) (D : DeclaratorDecl)
    (New : Nat → Nat) (Built : PVConstraint) (hl : I.Persisted = false)
    (hf : StdMap.find I.Variables D.PSL = none)
    (hk : D.Kind = .Field true Built) :
    addVariableChecked X I D New
      = .ok (installNewCV X
          ({ (unifyIfTypedef X ({ I with PVs := Function.update I.PVs (New 0) Built }, [])
                D.Typedef (.obj (New 0))).1 with
              PVs := Function.update
                (unifyIfTypedef X ({ I with PVs := Function.update I.PVs (New 0) Built }, [])
                  D.Typedef (.obj (New 0))).1.PVs (New 0)
                ((unifyIfTypedef X ({ I with PVs := Function.update I.PVs (New 0) Built }, [])
                  D.Typedef (.obj (New 0))).1.PVs (New 0)).setValidDecl },
            (unifyIfTypedef X ({ I with PVs := Function.update I.PVs (New 0) Built }, [])
              D.Typedef (.obj (New 0))).2)
          D (.PV (.obj (New 0)))) := by
  obtain ⟨f1, hvar, _⟩ := unifyIfTypedef_step X
    ({ I with PVs := Function.update I.PVs (New 0) Built }, []) D.Typedef (.obj (New 0))
  unfold addVariableChecked
  simp only [hf, hk, Bool.false_eq_true, if_false, if_true]
  rw [specialCaseVarIntros_fresh]
  · exact f1.1.trans hl
  · exact (congrArg (fun V => StdMap.find V D.PSL) hvar).trans hf

theorem recordGlobalVar_externGVars (I J : ProgramInfo) (VarName : String)
    (HasDefinition : Bool) (P : Nat) (h : J.ExternGVars = I.ExternGVars) :
    (recordGlobalVar J VarName HasDefinition P).ExternGVars
      = (recordGlobalVar I VarName HasDefinition P).ExternGVars := by
  unfold recordGlobalVar
  simp only [h]

theorem checked_function_frame (X : Externals) (I : ProgramInfo) (D : DeclaratorDecl)
    (New : Nat → Nat) (Name : String) (Global : Bool) (ReturnTypedef : Option TypedefDecl)
    (Params : List ParmVarDecl) (Built : FVConstraint) (hl : I.Persisted = false)
    (hk : D.Kind = .Function Name Global ReturnTypedef Params Built) :
    (∀ e, addVariableChecked X I D New = .error e → e ≠ Failure.persisted)
    ∧ (∀ St, addVariableChecked X I D New = .ok St → Frame I St.1) := by
  have hI1 : Frame I { I with FVs := Function.update I.FVs (New 0) Built.setValidDecl } :=
    ⟨rfl, rfl, rfl⟩
  unfold addVariableChecked
  simp only [hk]
  cases hfound : (StdMap.find I.Variables D.PSL).isSome
  · -- no entry at the location
    simp only [Bool.false_eq_true, if_false]
    cases hi : insertNewFVConstraint X.toCVOps
        { I with FVs := Function.update I.FVs (New 0) Built.setValidDecl }
        ⟨Name, Global, D.PSL⟩ (New 0) with
    | error e =>
      refine ⟨?_, by intro St h; simp at h⟩
      intro e' h
      simp only [Except.error.injEq] at h
      subst h
      simp
    | ok I2 =>
      obtain ⟨fi, _⟩ := insertNewFVConstraint_frame _ _ _ _ _ hi
      obtain ⟨f1, _, _⟩ := unifyIfTypedef_step X (I2, []) ReturnTypedef (.externalReturn (New 0))
      obtain ⟨f2, _, _⟩ := unifyIfTypedef_step X
        (unifyIfTypedef X (I2, []) ReturnTypedef (.externalReturn (New 0))) ReturnTypedef
        (.internalReturn (New 0))
      have f02 : Frame I (unifyIfTypedef X
          (unifyIfTypedef X (I2, []) ReturnTypedef (.externalReturn (New 0))) ReturnTypedef
          (.internalReturn (New 0))).1 :=
        frame_trans hI1 (frame_trans fi (frame_trans f1 f2))
      obtain ⟨he, ho⟩ := addParams_step X (New 0) ⟨Name, Global, D.PSL⟩ Built New Params
        (unifyIfTypedef X
          (unifyIfTypedef X (I2, []) ReturnTypedef (.externalReturn (New 0))) ReturnTypedef
          (.internalReturn (New 0))) 0 (f02.1.trans hl)
      dsimp only
      cases hp : addParams X (New 0) ⟨Name, Global, D.PSL⟩ Built New
          (unifyIfTypedef X
            (unifyIfTypedef X (I2, []) ReturnTypedef (.externalReturn (New 0))) ReturnTypedef
            (.internalReturn (New 0))) Params 0 with
      | error e =>
        refine ⟨?_, by intro St h; simp at h⟩
        intro e' h
        simp only [Except.error.injEq] at h
        subst h
        exact he e hp
      | ok St3 =>
        refine ⟨by intro e h; simp at h, ?_⟩
        intro St h
        simp only [Except.ok.injEq] at h
        subst h
        exact frame_trans f02 (frame_trans (ho St3 hp).1 (installNewCV_step X St3 D _).1)
  · -- an entry at the location
    simp only [if_true]
    cases hg : getFuncConstraint
        { I with FVs := Function.update I.FVs (New 0) Built.setValidDecl }
        ⟨Name, Global, D.PSL⟩ with
    | some G =>
      refine ⟨by intro e h; simp at h, ?_⟩
      intro St h
      simp only [Except.ok.injEq] at h
      subst h
      exact hI1
    | none =>
      dsimp only
      cases hi : insertNewFVConstraint X.toCVOps
          { I with FVs := Function.update I.FVs (New 0) Built.setValidDecl }
          ⟨Name, Global, D.PSL⟩ (New 0) with
      | error e =>
        refine ⟨?_, by intro St h; simp at h⟩
        intro e' h
        simp only [Except.error.injEq] at h
        subst h
        simp
      | ok I2 =>
        obtain ⟨fi, _⟩ := insertNewFVConstraint_frame _ _ _ _ _ hi
        refine ⟨by intro e h; simp at h, ?_⟩
        intro St h
        simp only [Except.ok.injEq] at h
        subst h
        exact frame_trans hI1 (frame_trans fi
          (constrainWildIfMacro_step X (I2, []) (.FV (New 0)) D.Rewritable none).1)

theorem recordGlobalVar_index (I : ProgramInfo) (VarName : String) (HasDefinition : Bool)
    (P : Nat) (n : String) :
    StdMap.index (recordGlobalVar I VarName HasDefinition P).ExternGVars n
      = if n = VarName then (HasDefinition || StdMap.index I.ExternGVars VarName)
        else StdMap.index I.ExternGVars n := by
  unfold recordGlobalVar
  dsimp only
  cases HasDefinition
  · simp only [Bool.false_eq_true, if_false, Bool.false_or]
    cases hi : StdMap.index I.ExternGVars VarName
    · simp only [Bool.not_false, if_true]
      rw [StdMap.index_set_iff, StdMap.index_touch]
    · simp only [Bool.not_true, Bool.false_eq_true, if_false]
      rw [StdMap.index_touch]
      by_cases h : n = VarName
      · simp [h, hi]
      · simp [h]
  · simp only [if_true, Bool.true_or]
    rw [StdMap.index_set_iff]

theorem sighting_of_found (I : ProgramInfo) (D : DeclaratorDecl) (CV : CVRef)
    (hf : StdMap.find I.Variables D.PSL = some CV) : sighting I D = none := by
  unfold sighting
  rw [hf]

theorem addVariableChecked_step (X : Externals) (I : ProgramInfo) (D : DeclaratorDecl)
    (New : Nat → Nat) (hl : I.Persisted = false) :
    (∀ e, addVariableChecked X I D New = .error e → e ≠ Failure.persisted)
    ∧ (∀ St, addVariableChecked X I D New = .ok St →
        St.1.Persisted = false
        ∧ St.1.ExternGVars
            = match sighting I D with
              | some s => (recordGlobalVar I s.1 s.2 (New 0)).ExternGVars
              | none => I.ExternGVars) := by
  cases hK : D.Kind with
  | Function Name Global ReturnTypedef Params Built =>
    obtain ⟨he, ho⟩ := checked_function_frame X I D New Name Global ReturnTypedef Params Built
      hl hK
    refine ⟨he, ?_⟩
    intro St h
    have hs : sighting I D = none := by
      unfold sighting
      rw [hK]
      cases StdMap.find I.Variables D.PSL <;> rfl
    rw [hs]
    exact ⟨(ho St h).1.trans hl, (ho St h).2.1⟩
  | Var VarName IsParm PointerOrArray GlobalStorage HasDefinition Built =>
    cases hf : StdMap.find I.Variables D.PSL with
    | some CV =>
      rw [checked_collision X I D New CV hf (by rw [hK]; rfl), sighting_of_found I D CV hf]
      refine ⟨by intro e h; simp at h, ?_⟩
      intro St h
      simp only [Except.ok.injEq] at h
      subst h
      cases D.Rewritable
      · exact ⟨hl, rfl⟩
      · exact ⟨hl, rfl⟩
    | none =>
      cases IsParm
      · cases PointerOrArray
        · have hs : sighting I D = none := by
            unfold sighting
            rw [hK, hf]
          rw [hs]
          unfold addVariableChecked
          simp only [hf, hK, Bool.false_eq_true, if_false]
          refine ⟨?_, by intro St h; simp at h⟩
          intro e h
          simp only [Except.error.injEq] at h
          subst h
          simp
        · rw [checked_var X I D New VarName GlobalStorage HasDefinition Built hl hf hK]
          refine ⟨by intro e h; simp at h, ?_⟩
          intro St h
          simp only [Except.ok.injEq] at h
          subst h
          obtain ⟨fu, _, _⟩ := unifyIfTypedef_step X
            ({ I with PVs := Function.update I.PVs (New 0) Built.setValidDecl }, [])
            D.Typedef (.obj (New 0))
          cases GlobalStorage
          · have hs : sighting I D = none := by
              unfold sighting
              rw [hK, hf]
            rw [hs]
            simp only [Bool.false_eq_true, if_false]
            obtain ⟨fi, _, _⟩ := installNewCV_step X
              (unifyIfTypedef X
                ({ I with PVs := Function.update I.PVs (New 0) Built.setValidDecl }, [])
                D.Typedef (.obj (New 0))) D (.PV (.obj (New 0)))
            exact ⟨(fi.1.trans fu.1).trans hl, fi.2.1.trans fu.2.1⟩
          · have hs : sighting I D = some (VarName, HasDefinition) := by
              unfold sighting
              rw [hK, hf]
            rw [hs]
            simp only [if_true]
            obtain ⟨fi, _, _⟩ := installNewCV_step X
              (recordGlobalVar
                (unifyIfTypedef X
                  ({ I with PVs := Function.update I.PVs (New 0) Built.setValidDecl }, [])
                  D.Typedef (.obj (New 0))).1 VarName HasDefinition (New 0),
                (unifyIfTypedef X
                  ({ I with PVs := Function.update I.PVs (New 0) Built.setValidDecl }, [])
                  D.Typedef (.obj (New 0))).2) D (.PV (.obj (New 0)))
            refine ⟨fi.1.trans (fu.1.trans hl), fi.2.1.trans ?_⟩
            exact recordGlobalVar_externGVars I _ VarName HasDefinition (New 0) fu.2.1
      · have hs : sighting I D = none := by
          unfold sighting
          rw [hK, hf]
        rw [hs]
        unfold addVariableChecked
        simp only [hf, hK, if_true]
        refine ⟨?_, by intro St h; simp at h⟩
        intro e h
        simp only [Except.error.injEq] at h
        subst h
        simp
  | Field PointerOrArray Built =>
    have hs : sighting I D = none := by
      unfold sighting
      rw [hK]
      cases StdMap.find I.Variables D.PSL <;> rfl
    rw [hs]
    cases hf : StdMap.find I.Variables D.PSL with
    | some CV =>
      rw [checked_collision X I D New CV hf (by rw [hK]; rfl)]
      refine ⟨by intro e h; simp at h, ?_⟩
      intro St h
      simp only [Except.ok.injEq] at h
      subst h
      cases D.Rewritable
      · exact ⟨hl, rfl⟩
      · exact ⟨hl, rfl⟩
    | none =>
      cases PointerOrArray
      · unfold addVariableChecked
        simp only [hf, hK, Bool.false_eq_true, if_false]
        refine ⟨?_, by intro St h; simp at h⟩
        intro e h
        simp only [Except.error.injEq] at h
        subst h
        simp
      · rw [checked_field X I D New Built hl hf hK]
        refine ⟨by intro e h; simp at h, ?_⟩
        intro St h
        simp only [Except.ok.injEq] at h
        subst h
        obtain ⟨fu, _, _⟩ := unifyIfTypedef_step X
          ({ I with PVs := Function.update I.PVs (New 0) Built }, []) D.Typedef (.obj (New 0))
        obtain ⟨fi, _, _⟩ := installNewCV_step X
          ({ (unifyIfTypedef X ({ I with PVs := Function.update I.PVs (New 0) Built }, [])
                D.Typedef (.obj (New 0))).1 with
              PVs := Function.update
                (unifyIfTypedef X ({ I with PVs := Function.update I.PVs (New 0) Built }, [])
                  D.Typedef (.obj (New 0))).1.PVs (New 0)
                ((unifyIfTypedef X ({ I with PVs := Function.update I.PVs (New 0) Built }, [])
                  D.Typedef (.obj (New 0))).1.PVs (New 0)).setValidDecl },
            (unifyIfTypedef X ({ I with PVs := Function.update I.PVs (New 0) Built }, [])
              D.Typedef (.obj (New 0))).2) D (.PV (.obj (New 0)))
        exact ⟨(fi.1.trans fu.1).trans hl, fi.2.1.trans fu.2.1⟩
  | Other =>
    have hs : sighting I D = none := by
      unfold sighting
      rw [hK]
      cases StdMap.find I.Variables D.PSL <;> rfl
    rw [hs]
    cases hf : StdMap.find I.Variables D.PSL with
    | some CV =>
      rw [checked_collision X I D New CV hf (by rw [hK]; rfl)]
      refine ⟨by intro e h; simp at h, ?_⟩
      intro St h
      simp only [Except.ok.injEq] at h
      subst h
      cases D.Rewritable
      · exact ⟨hl, rfl⟩
      · exact ⟨hl, rfl⟩
    | none =>
      unfold addVariableChecked
      simp only [hf, hK]
      refine ⟨?_, by intro St h; simp at h⟩
      intro e h
      simp only [Except.error.injEq] at h
      subst h
      simp

theorem addVariable_collision (X : Externals) (I : ProgramInfo) (D : DeclaratorDecl)
    (New : Nat → Nat) (CV : CVRef) (hl : I.Persisted = false) (hv : X.valid D.PSL = true)
    (hf : StdMap.find I.Variables D.PSL = some CV) (hk : D.Kind.isFunction = false) :
    addVariable X I D New
      = .ok (if D.Rewritable then (I, [])
          else invoke X (I, [])
            (.constrainToWild CV "Duplicate source location. Possibly part of a macro."
              (some D.PSL))) := by
  rw [addVariable_live X I D New hl hv, checked_collision X I D New CV hf hk]

theorem addVariable_fresh_pv (X : Externals) (I : ProgramInfo) (D : DeclaratorDecl)
    (New : Nat → Nat) (hl : I.Persisted = false) (hv : X.valid D.PSL = true)
    (hf : StdMap.find I.Variables D.PSL = none)
    (hk : (∃ n g d b, D.Kind = .Var n false true g d b) ∨ (∃ b, D.Kind = .Field true b)) :
    ∃ St t, addVariable X I D New = .ok St
      ∧ StdMap.find St.1.Variables D.PSL = some (.PV (.obj (New 0)))
      ∧ St.2 = t
          ++ (if X.canWrite D.PSL.FileName then []
              else [LayerCall.constrainToWild (.PV (.obj (New 0)))
                "Declaration in non-writable file" (some D.PSL)])
          ++ (if D.Rewritable then []
              else [LayerCall.constrainToWild (.PV (.obj (New 0)))
                "Pointer in Macro declaration." none])
      ∧ ∀ c ∈ t, ∃ L R PSL, c = LayerCall.constrainConsVarGeq L R .Same_to_Same true PSL := by
  rw [addVariable_live X I D New hl hv]
  rcases hk with ⟨n, g, d, b, hk⟩ | ⟨b, hk⟩
  · rw [checked_var X I D New n g d b hl hf hk]
    obtain ⟨_, _, t, ht, hc⟩ := unifyIfTypedef_step X
      ({ I with PVs := Function.update I.PVs (New 0) b.setValidDecl }, [])
      D.Typedef (.obj (New 0))
    refine ⟨_, t, rfl, ?_, ?_, hc⟩
    · rw [(installNewCV_step X _ D _).2.1, StdMap.find_set_self]
    · rw [(installNewCV_step X _ D _).2.2]
      cases g
      · simp only [Bool.false_eq_true, if_false]
        rw [ht, List.nil_append]
      · simp only [if_true]
        rw [ht, List.nil_append]
  · rw [checked_field X I D New b hl hf hk]
    obtain ⟨_, _, t, ht, hc⟩ := unifyIfTypedef_step X
      ({ I with PVs := Function.update I.PVs (New 0) b }, []) D.Typedef (.obj (New 0))
    refine ⟨_, t, rfl, ?_, ?_, hc⟩
    · rw [(installNewCV_step X _ D _).2.1, StdMap.find_set_self]
    · rw [(installNewCV_step X _ D _).2.2]
      dsimp only
      rw [ht, List.nil_append]

/-! ## Collisions on a source location -/

/-- C12, where it fails: the declaration `extern int *g;` of a header is seen
from a second translation unit. Its location `g.h:1:6` has the entry that the
first sighting wrote, the declaration is not a function and its location is
rewritable; `addVariable` returns with no call into the constraint-variable
layer and with the state, the constraint store included, as it was:
`constrainToWild` is not invoked on `Variables[PSL]`. -/
theorem addVariable_collision_resighting :
    addVariable specExternals sampleLiveInfo sampleHeaderDecl sampleNew
      = .ok sampleHeaderSighting
    ∧ StdMap.find sampleHeaderSighting.1.Variables sampleHeaderDecl.PSL
        = some (.PV (.obj 100))
    ∧ sampleHeaderDecl.Kind.isFunction = false
    ∧ sampleHeaderDecl.Rewritable = true
    ∧ sampleHeaderSighting.1.Persisted = false
    ∧ addVariable specExternals sampleHeaderSighting.1 sampleHeaderDecl (fun K => 200 + K)
        = .ok (sampleHeaderSighting.1, []) :=
  ⟨rfl, by decide, rfl, rfl, rfl, rfl⟩

/-- C12, as it holds: when a non-function declaration collides on its location
with an entry `CV` of `Variables`, `addVariable` returns, and the existing
entry is constrained to wild if and only if the location of the colliding
declaration is not rewritable (it is inside a macro expansion). In that case
the only call into the constraint-variable layer is `constrainToWild` on
`Variables[PSL]` with the reason "Duplicate source location. Possibly part
of a macro." and the location, and the state differs from the old one in the
store, which takes the constraints of that call. At a rewritable location no
call is made and the state is as it was. -/
theorem addVariable_collision_wild_iff_macro (X : Externals) (I : ProgramInfo)
    (D : DeclaratorDecl) (New : Nat → Nat) (CV : CVRef) (hl : I.Persisted = false)
    (hv : X.valid D.PSL = true) (hf : StdMap.find I.Variables D.PSL = some CV)
    (hk : D.Kind.isFunction = false) :
    ∃ St, addVariable X I D New = .ok St
      ∧ St.2 = (if D.Rewritable then []
          else [LayerCall.constrainToWild CV
            "Duplicate source location. Possibly part of a macro." (some D.PSL)])
      ∧ ((∃ Rsn PSL, LayerCall.constrainToWild CV Rsn PSL ∈ St.2) ↔ D.Rewritable = false)
      ∧ (D.Rewritable = true → St.1 = I)
      ∧ (D.Rewritable = false →
          St.1 = { I with
            CS := addConstraints I.CS
              (layerRequests X I
                (.constrainToWild CV "Duplicate source location. Possibly part of a macro."
                  (some D.PSL))) }) := by
  rw [addVariable_collision X I D New CV hl hv hf hk]
  cases hR : D.Rewritable
  · refine ⟨_, rfl, rfl, ?_, ?_, ?_⟩
    · exact Iff.intro (fun _ => rfl) (fun _ => ⟨_, _, List.mem_singleton.2 rfl⟩)
    · intro h
      cases h
    · intro _
      rfl
  · refine ⟨_, rfl, rfl, ?_, ?_, ?_⟩
    · refine Iff.intro ?_ (fun h => by cases h)
      rintro ⟨Rsn, PSL, h⟩
      cases h
    · intro _
      rfl
    · intro h
      cases h

theorem addVariable_collision_wild_iff_macro_witness :
    sampleMacroCollidingDecl.Rewritable = false
    ∧ StdMap.find sampleCollisionInfo.Variables sampleMacroCollidingDecl.PSL
        = some (.PV (.obj 7))
    ∧ ∃ St,
      addVariable specExternals sampleCollisionInfo sampleMacroCollidingDecl sampleNew
        = .ok St
      ∧ St.2 = (if sampleMacroCollidingDecl.Rewritable then []
          else [LayerCall.constrainToWild (.PV (.obj 7))
            "Duplicate source location. Possibly part of a macro."
            (some sampleMacroCollidingDecl.PSL)])
      ∧ ((∃ Rsn PSL, LayerCall.constrainToWild (.PV (.obj 7)) Rsn PSL ∈ St.2)
          ↔ sampleMacroCollidingDecl.Rewritable = false)
      ∧ (sampleMacroCollidingDecl.Rewritable = true → St.1 = sampleCollisionInfo)
      ∧ (sampleMacroCollidingDecl.Rewritable = false →
          St.1 = { sampleCollisionInfo with
            CS := addConstraints sampleCollisionInfo.CS
              (layerRequests specExternals sampleCollisionInfo
                (.constrainToWild (.PV (.obj 7))
                  "Duplicate source location. Possibly part of a macro."
                  (some sampleMacroCollidingDecl.PSL))) }) :=
  ⟨rfl, by decide,
    addVariable_collision_wild_iff_macro specExternals sampleCollisionInfo
      sampleMacroCollidingDecl sampleNew (.PV (.obj 7)) rfl (by decide) (by decide) rfl⟩

/-- C13: when a non-function declaration collides on its location with an entry
of `Variables`, `addVariable` returns and drops the declaration: `Variables`
is the same table, so the location still holds the same variable and no key
is added, and `GlobalVariableSymbols`, `ExternGVars`, both function maps and
the two heaps of variables are unchanged. -/
theorem addVariable_collision_drops (X : Externals) (I : ProgramInfo) (D : DeclaratorDecl)
    (New : Nat → Nat) (CV : CVRef) (hl : I.Persisted = false) (hv : X.valid D.PSL = true)
    (hf : StdMap.find I.Variables D.PSL = some CV) (hk : D.Kind.isFunction = false) :
    ∃ St, addVariable X I D New = .ok St
      ∧ St.1.Variables = I.Variables
      ∧ StdMap.find St.1.Variables D.PSL = some CV
      ∧ St.1.GlobalVariableSymbols = I.GlobalVariableSymbols
      ∧ St.1.ExternGVars = I.ExternGVars
      ∧ St.1.ExternalFunctionFVCons = I.ExternalFunctionFVCons
      ∧ St.1.StaticFunctionFVCons = I.StaticFunctionFVCons
      ∧ St.1.FVs = I.FVs ∧ St.1.PVs = I.PVs := by
  rw [addVariable_collision X I D New CV hl hv hf hk]
  cases D.Rewritable
  · exact ⟨_, rfl, rfl, hf, rfl, rfl, rfl, rfl, rfl, rfl⟩
  · exact ⟨_, rfl, rfl, hf, rfl, rfl, rfl, rfl, rfl, rfl⟩

theorem addVariable_collision_drops_witness :
    ∃ St,
      addVariable specExternals sampleCollisionInfo sampleMacroCollidingDecl sampleNew
        = .ok St
      ∧ St.1.Variables = sampleCollisionInfo.Variables
      ∧ StdMap.find St.1.Variables sampleCollidingDecl.PSL = some (.PV (.obj 7))
      ∧ St.1.GlobalVariableSymbols = sampleCollisionInfo.GlobalVariableSymbols
      ∧ St.1.ExternGVars = sampleCollisionInfo.ExternGVars
      ∧ St.1.ExternalFunctionFVCons = sampleCollisionInfo.ExternalFunctionFVCons
      ∧ St.1.StaticFunctionFVCons = sampleCollisionInfo.StaticFunctionFVCons
      ∧ St.1.FVs = sampleCollisionInfo.FVs ∧ St.1.PVs = sampleCollisionInfo.PVs :=
  addVariable_collision_drops specExternals sampleCollisionInfo sampleMacroCollidingDecl
    sampleNew (.PV (.obj 7)) rfl
    (by decide) (by decide) rfl

/-! ## Special-case introductions -/

/-- C14, where it fails: when `addVariable` installs a `VarDecl` or `FieldDecl`
of pointer or array type at a fresh location, `specialCaseVarIntros` runs
before `Variables[PLoc]` is written, finds no variable for the declaration
and constrains nothing, whatever `isVarArgType` and `hasVoidType` say: the
call returns with the new variable installed, and every `constrainToWild`
it made has the reason of a non-writable file or of a macro, never
"Variable type void." or "Variable type is va_list.". -/
theorem addVariable_special_case_skipped (X : Externals) (I : ProgramInfo)
    (D : DeclaratorDecl) (New : Nat → Nat) (hl : I.Persisted = false)
    (hv : X.valid D.PSL = true) (hf : StdMap.find I.Variables D.PSL = none)
    (hk : (∃ n g d b, D.Kind = .Var n false true g d b) ∨ (∃ b, D.Kind = .Field true b)) :
    ∃ St, addVariable X I D New = .ok St
      ∧ StdMap.find St.1.Variables D.PSL = some (.PV (.obj (New 0)))
      ∧ (∀ CV Rsn PSL, LayerCall.constrainToWild CV Rsn PSL ∈ St.2 →
          Rsn = "Declaration in non-writable file" ∨ Rsn = "Pointer in Macro declaration.")
      ∧ (X.canWrite D.PSL.FileName = true → D.Rewritable = true →
          ∀ CV Rsn PSL, LayerCall.constrainToWild CV Rsn PSL ∉ St.2) := by
  obtain ⟨St, t, hok, hvar, htr, hc⟩ := addVariable_fresh_pv X I D New hl hv hf hk
  refine ⟨St, hok, hvar, ?_, ?_⟩
  · intro CV Rsn PSL hmem
    rw [htr] at hmem
    rcases List.mem_append.1 hmem with h | h
    · rcases List.mem_append.1 h with h | h
      · obtain ⟨L, R, P, hLR⟩ := hc _ h
        cases hLR
      · split at h
        · cases h
        · simp only [List.mem_singleton, LayerCall.constrainToWild.injEq] at h
          exact Or.inl h.2.1
    · split at h
      · cases h
      · simp only [List.mem_singleton, LayerCall.constrainToWild.injEq] at h
        exact Or.inr h.2.1
  · intro hw hr CV Rsn PSL hmem
    rw [htr, hw, hr] at hmem
    simp only [if_true, List.append_nil] at hmem
    obtain ⟨L, R, P, hLR⟩ := hc _ hmem
    cases hLR

theorem addVariable_special_case_skipped_witness :
    (sampleVoidPtrDecl.VoidType = true ∧ sampleVoidPtrDecl.Rewritable = true
      ∧ specExternals.canWrite sampleVoidPtrDecl.PSL.FileName = true)
    ∧ ∃ St, addVariable specExternals sampleLiveInfo sampleVoidPtrDecl sampleNew = .ok St
      ∧ StdMap.find St.1.Variables sampleVoidPtrDecl.PSL = some (.PV (.obj (sampleNew 0)))
      ∧ (∀ CV Rsn PSL, LayerCall.constrainToWild CV Rsn PSL ∈ St.2 →
          Rsn = "Declaration in non-writable file" ∨ Rsn = "Pointer in Macro declaration.")
      ∧ (specExternals.canWrite sampleVoidPtrDecl.PSL.FileName = true →
          sampleVoidPtrDecl.Rewritable = true →
          ∀ CV Rsn PSL, LayerCall.constrainToWild CV Rsn PSL ∉ St.2) :=
  ⟨⟨rfl, rfl, rfl⟩,
    addVariable_special_case_skipped specExternals sampleLiveInfo sampleVoidPtrDecl sampleNew
      rfl (by decide) rfl (Or.inl ⟨"p", false, true, samplePV 40, rfl⟩)⟩

/-! ## Declarations inside a macro expansion -/

theorem addVariable_ok_live (X : Externals) (I : ProgramInfo) (D : DeclaratorDecl)
    (New : Nat → Nat) (St : ProgramInfo × List LayerCall)
    (h : addVariable X I D New = .ok St) :
    I.Persisted = false ∧ X.valid D.PSL = true := by
  unfold addVariable at h
  cases hp : I.Persisted
  · cases hv : X.valid D.PSL
    · simp [hp, hv] at h
    · exact ⟨rfl, rfl⟩
  · simp [hp] at h

theorem checked_fresh_shape (X : Externals) (I : ProgramInfo) (D : DeclaratorDecl)
    (New : Nat → Nat) (St : ProgramInfo × List LayerCall)
    (hf : StdMap.find I.Variables D.PSL = none)
    (h : addVariableChecked X I D New = .ok St) :
    (∃ Name Global ReturnTypedef Params Built,
        D.Kind = .Function Name Global ReturnTypedef Params Built)
    ∨ (∃ n g d b, D.Kind = .Var n false true g d b) ∨ (∃ b, D.Kind = .Field true b) := by
  cases hK : D.Kind with
  | Function Name Global ReturnTypedef Params Built =>
    exact Or.inl ⟨Name, Global, ReturnTypedef, Params, Built, rfl⟩
  | Var n p a g d b =>
    cases p
    · cases a
      · unfold addVariableChecked at h
        simp [hf, hK] at h
      · exact Or.inr (Or.inl ⟨n, g, d, b, rfl⟩)
    · unfold addVariableChecked at h
      simp [hf, hK] at h
  | Field a b =>
    cases a
    · unfold addVariableChecked at h
      simp [hf, hK] at h
    · exact Or.inr (Or.inr ⟨b, rfl⟩)
  | Other =>
    unfold addVariableChecked at h
    simp [hf, hK] at h

theorem checked_function_fresh (X : Externals) (I : ProgramInfo) (D : DeclaratorDecl)
    (New : Nat → Nat) (Name : String) (Global : Bool) (ReturnTypedef : Option TypedefDecl)
    (Params : List ParmVarDecl) (Built : FVConstraint)
    (St : ProgramInfo × List LayerCall) (hl : I.Persisted = false)
    (hf : StdMap.find I.Variables D.PSL = none)
    (hk : D.Kind = .Function Name Global ReturnTypedef Params Built)
    (h : addVariableChecked X I D New = .ok St) :
    ∃ St3, St = installNewCV X St3 D (.FV (New 0))
      ∧ ∀ K PVD, Params[K]? = some PVD → PVD.Rewritable = false →
          LayerCall.constrainToWild (.PV (.externalParam (New 0) K))
            "Pointer in Macro declaration." none ∈ St3.2 := by
  unfold addVariableChecked at h
  simp only [hk, hf, Option.isSome_none, Bool.false_eq_true, if_false] at h
  cases hi : insertNewFVConstraint X.toCVOps
      { I with FVs := Function.update I.FVs (New 0) Built.setValidDecl }
      ⟨Name, Global, D.PSL⟩ (New 0) with
  | error e => simp [hi] at h
  | ok I2 =>
    simp only [hi] at h
    obtain ⟨fi, _⟩ := insertNewFVConstraint_frame _ _ _ _ _ hi
    obtain ⟨f1, _, _⟩ := unifyIfTypedef_step X (I2, []) ReturnTypedef (.externalReturn (New 0))
    obtain ⟨f2, _, _⟩ := unifyIfTypedef_step X
      (unifyIfTypedef X (I2, []) ReturnTypedef (.externalReturn (New 0))) ReturnTypedef
      (.internalReturn (New 0))
    obtain ⟨_, ho⟩ := addParams_step X (New 0) ⟨Name, Global, D.PSL⟩ Built New Params
      (unifyIfTypedef X
        (unifyIfTypedef X (I2, []) ReturnTypedef (.externalReturn (New 0))) ReturnTypedef
        (.internalReturn (New 0))) 0 ((f2.1.trans (f1.1.trans fi.1)).trans hl)
    cases hp : addParams X (New 0) ⟨Name, Global, D.PSL⟩ Built New
        (unifyIfTypedef X
          (unifyIfTypedef X (I2, []) ReturnTypedef (.externalReturn (New 0))) ReturnTypedef
          (.internalReturn (New 0))) Params 0 with
    | error e => simp [hp] at h
    | ok St3 =>
      simp only [hp, Except.ok.injEq] at h
      refine ⟨St3, h.symm, ?_⟩
      intro K PVD hK hm
      have := (ho St3 hp).2.2 K PVD hK hm
      rwa [Nat.zero_add] at this

/-- C15: of a call of `addVariable` that returns, (1) when the location of the
declaration has no entry in `Variables`, the call installs a variable there,
whatever the kind of the declaration (the `FVConstraint` of a function, the
`PVConstraint` of a variable or a field), and if the declaration is inside a
macro expansion `constrainToWild` is invoked on that variable with the reason
"Pointer in Macro declaration."; (2) a function inside a macro whose location
has an entry but whose name is in no function map has its new `FVConstraint`
constrained likewise; (3) each parameter inside a macro of a function at a
fresh location has its external `PVConstraint` constrained likewise; (4) for a
rewritable location `constrainWildIfMacro` makes no call and leaves the
constraint store as it is. -/
theorem addVariable_macro_wild (X : Externals) (I : ProgramInfo) (D : DeclaratorDecl)
    (New : Nat → Nat) (St : ProgramInfo × List LayerCall)
    (h : addVariable X I D New = .ok St) :
    (StdMap.find I.Variables D.PSL = none →
      ∃ CV, StdMap.find St.1.Variables D.PSL = some CV
        ∧ (D.Rewritable = false →
            LayerCall.constrainToWild CV "Pointer in Macro declaration." none ∈ St.2))
    ∧ (D.Rewritable = false →
        ∀ Name Global ReturnTypedef Params Built,
          D.Kind = .Function Name Global ReturnTypedef Params Built →
          (StdMap.find I.Variables D.PSL).isSome = true →
          getFuncConstraint I ⟨Name, Global, D.PSL⟩ = none →
          LayerCall.constrainToWild (.FV (New 0)) "Pointer in Macro declaration." none
            ∈ St.2)
    ∧ (∀ Name Global ReturnTypedef Params Built K PVD,
        D.Kind = .Function Name Global ReturnTypedef Params Built →
        StdMap.find I.Variables D.PSL = none →
        Params[K]? = some PVD → PVD.Rewritable = false →
        LayerCall.constrainToWild (.PV (.externalParam (New 0) K))
          "Pointer in Macro declaration." none ∈ St.2)
    ∧ (∀ (St0 : ProgramInfo × List LayerCall) (CV : CVRef)
        (PSL : Option PersistentSourceLoc), constrainWildIfMacro X St0 CV true PSL = St0) := by
  obtain ⟨hl, hv⟩ := addVariable_ok_live X I D New St h
  have hc : addVariableChecked X I D New = .ok St := by
    rw [← addVariable_live X I D New hl hv]
    exact h
  refine ⟨?_, ?_, ?_, ?_⟩
  · intro hf
    rcases checked_fresh_shape X I D New St hf hc with
      ⟨Name, Global, ReturnTypedef, Params, Built, hk⟩ | hk
    · obtain ⟨St3, hSt, _⟩ := checked_function_fresh X I D New Name Global ReturnTypedef
        Params Built St hl hf hk hc
      subst hSt
      refine ⟨.FV (New 0), ?_, ?_⟩
      · rw [(installNewCV_step X St3 D _).2.1, StdMap.find_set_self]
      · intro hm
        rw [(installNewCV_step X St3 D _).2.2, hm]
        simp
    · obtain ⟨St', t, hok, hvar, htr, _⟩ := addVariable_fresh_pv X I D New hl hv hf hk
      rw [h] at hok
      simp only [Except.ok.injEq] at hok
      subst hok
      refine ⟨.PV (.obj (New 0)), hvar, ?_⟩
      intro hm
      rw [htr, hm]
      simp
  · intro hm Name Global ReturnTypedef Params Built hk hs hg
    have hg' : getFuncConstraint
        { I with FVs := Function.update I.FVs (New 0) Built.setValidDecl }
        ⟨Name, Global, D.PSL⟩ = none := hg
    unfold addVariableChecked at hc
    simp only [hk, hs, if_true, hg'] at hc
    cases hi : insertNewFVConstraint X.toCVOps
        { I with FVs := Function.update I.FVs (New 0) Built.setValidDecl }
        ⟨Name, Global, D.PSL⟩ (New 0) with
    | error e => simp [hi] at hc
    | ok I2 =>
      simp only [hi, Except.ok.injEq] at hc
      rw [← hc, (constrainWildIfMacro_step X (I2, []) (.FV (New 0)) D.Rewritable none).2.2, hm]
      simp
  · intro Name Global ReturnTypedef Params Built K PVD hk hf hK hm
    obtain ⟨St3, hSt, hps⟩ := checked_function_fresh X I D New Name Global ReturnTypedef
      Params Built St hl hf hk hc
    subst hSt
    rw [(installNewCV_step X St3 D _).2.2]
    exact List.mem_append_left _ (List.mem_append_left _ (hps K PVD hK hm))
  · intro St0 CV PSL
    rfl

theorem addVariable_macro_wild_witness :
    (sampleMacroFunction.Rewritable = false
      ∧ sampleMacroResult.2
          = [LayerCall.constrainToWild (.PV (.externalParam 100 0))
                "Pointer in Macro declaration." none,
              LayerCall.constrainToWild (.FV 100) "Pointer in Macro declaration." none])
    ∧ (StdMap.find sampleLiveInfo.Variables sampleMacroFunction.PSL = none →
      ∃ CV, StdMap.find sampleMacroResult.1.Variables sampleMacroFunction.PSL = some CV
        ∧ (sampleMacroFunction.Rewritable = false →
            LayerCall.constrainToWild CV "Pointer in Macro declaration." none
              ∈ sampleMacroResult.2))
    ∧ (sampleMacroFunction.Rewritable = false →
        ∀ Name Global ReturnTypedef Params Built,
          sampleMacroFunction.Kind = .Function Name Global ReturnTypedef Params Built →
          (StdMap.find sampleLiveInfo.Variables sampleMacroFunction.PSL).isSome = true →
          getFuncConstraint sampleLiveInfo ⟨Name, Global, sampleMacroFunction.PSL⟩ = none →
          LayerCall.constrainToWild (.FV (sampleNew 0)) "Pointer in Macro declaration." none
            ∈ sampleMacroResult.2)
    ∧ (∀ Name Global ReturnTypedef Params Built K PVD,
        sampleMacroFunction.Kind = .Function Name Global ReturnTypedef Params Built →
        StdMap.find sampleLiveInfo.Variables sampleMacroFunction.PSL = none →
        Params[K]? = some PVD → PVD.Rewritable = false →
        LayerCall.constrainToWild (.PV (.externalParam (sampleNew 0) K))
          "Pointer in Macro declaration." none ∈ sampleMacroResult.2)
    ∧ (∀ (St0 : ProgramInfo × List LayerCall) (CV : CVRef)
        (PSL : Option PersistentSourceLoc),
        constrainWildIfMacro specExternals St0 CV true PSL = St0) :=
  ⟨⟨rfl, rfl⟩,
    addVariable_macro_wild specExternals sampleLiveInfo sampleMacroFunction sampleNew
      sampleMacroResult rfl⟩

/-! ## Sightings of a global variable -/

theorem addVariable_externGVars (X : Externals) (I : ProgramInfo) (D : DeclaratorDecl)
    (New : Nat → Nat) (St : ProgramInfo × List LayerCall)
    (h : addVariable X I D New = .ok St) (n : String) :
    StdMap.index St.1.ExternGVars n
      = (StdMap.index I.ExternGVars n || decide ((n, true) ∈ (sighting I D).toList)) := by
  obtain ⟨hl, hv⟩ := addVariable_ok_live X I D New St h
  rw [addVariable_live X I D New hl hv] at h
  rw [((addVariableChecked_step X I D New hl).2 St h).2]
  cases hs : sighting I D with
  | none => simp
  | some s =>
    obtain ⟨m, d⟩ := s
    dsimp only
    rw [recordGlobalVar_index]
    by_cases hn : n = m
    · subst hn
      cases d <;> simp
    · simp [hn]

theorem addVariables_index (X : Externals) (Ds : List (DeclaratorDecl × (Nat → Nat)))
    (I : ProgramInfo) (R : ProgramInfo × List (String × Bool))
    (h : addVariables X I Ds = .ok R) (n : String) :
    StdMap.index R.1.ExternGVars n
      = (StdMap.index I.ExternGVars n || decide ((n, true) ∈ R.2)) := by
  induction Ds generalizing I R with
  | nil =>
    simp only [addVariables, Except.ok.injEq] at h
    subst h
    simp
  | cons DN Ds ih =>
    obtain ⟨D, New⟩ := DN
    unfold addVariables at h
    cases hA : addVariable X I D New with
    | error e => simp [hA] at h
    | ok St =>
      simp only [hA] at h
      cases hR : addVariables X St.1 Ds with
      | error e => simp [hR] at h
      | ok R' =>
        simp only [hR, Except.ok.injEq] at h
        subst h
        dsimp only
        rw [ih St.1 R' hR, addVariable_externGVars X I D New St hA n]
        simp only [List.mem_append, Bool.decide_or, Bool.or_assoc]

/-- C11: after a run of `addVariable` calls that all return, from a state in
which `ExternGVars[name]` is not true, `ExternGVars[name]` is true if and only
if one of the sightings of `name` that the calls installed (a `VarDecl` of
pointer or array type with global storage at a fresh location) carried a
definition. From any state, a true `ExternGVars[name]` stays true, whatever
the later sightings are, and two runs from the same state whose sightings
are the same up to their order end with the same `ExternGVars[name]`. -/
theorem addVariables_externGVars (X : Externals) (I : ProgramInfo)
    (Ds : List (DeclaratorDecl × (Nat → Nat))) (R : ProgramInfo × List (String × Bool))
    (h : addVariables X I Ds = .ok R) (VarName : String) :
    (StdMap.index I.ExternGVars VarName = false →
      (StdMap.index R.1.ExternGVars VarName = true ↔ (VarName, true) ∈ R.2))
    ∧ (StdMap.index I.ExternGVars VarName = true →
        StdMap.index R.1.ExternGVars VarName = true)
    ∧ (∀ Ds2 R2, addVariables X I Ds2 = .ok R2 → R2.2.Perm R.2 →
        StdMap.index R2.1.ExternGVars VarName = StdMap.index R.1.ExternGVars VarName) := by
  have hR := addVariables_index X Ds I R h VarName
  refine ⟨?_, ?_, ?_⟩
  · intro h0
    rw [hR, h0]
    simp
  · intro h1
    rw [hR, h1]
    rfl
  · intro Ds2 R2 h2 hperm
    rw [hR, addVariables_index X Ds2 I R2 h2 VarName]
    congr 1
    exact decide_eq_decide.2 hperm.mem_iff

theorem addVariables_externGVars_witness :
    (sampleGlobalsRun.2 = [("g", false), ("g", true), ("g", false)]
      ∧ StdMap.index sampleGlobalsRun.1.ExternGVars "g" = true)
    ∧ (StdMap.index sampleLiveInfo.ExternGVars "g" = false →
      (StdMap.index sampleGlobalsRun.1.ExternGVars "g" = true
        ↔ ("g", true) ∈ sampleGlobalsRun.2))
    ∧ (StdMap.index sampleLiveInfo.ExternGVars "g" = true →
        StdMap.index sampleGlobalsRun.1.ExternGVars "g" = true)
    ∧ (∀ Ds2 R2, addVariables specExternals sampleLiveInfo Ds2 = .ok R2 →
        R2.2.Perm sampleGlobalsRun.2 →
        StdMap.index R2.1.ExternGVars "g" = StdMap.index sampleGlobalsRun.1.ExternGVars "g") :=
  ⟨⟨rfl, rfl⟩,
    addVariables_externGVars specExternals sampleLiveInfo sampleGlobalDecls sampleGlobalsRun
      rfl "g"⟩

/-! ## The two states of the store -/

theorem disciplined_nil (d : Nat) : Disciplined d [] := by
  intro k c hk
  simp at hk

theorem disciplined_cons (d : Nat) (c : Call) (cs : List Call) :
    Disciplined d (c :: cs)
      ↔ d = (if c.isEnter then 0 else 1)
        ∧ Disciplined (if c.isEnter then 1 else if c.isExit then 0 else 1) cs := by
  constructor
  · intro h
    have h0 := h 0 c (by simp)
    simp only [List.take_zero, List.countP_nil, Nat.add_zero, Nat.zero_add] at h0
    refine ⟨h0, ?_⟩
    intro k c' hk
    have hk1 := h (k + 1) c' (by simpa using hk)
    rw [List.take_succ_cons, List.countP_cons, List.countP_cons] at hk1
    cases c <;> simp only [Call.isEnter, Call.isExit, if_true, if_false, Bool.false_eq_true]
      at h0 hk1 ⊢ <;> omega
  · rintro ⟨h0, ht⟩ k c' hk
    cases k with
    | zero =>
      simp only [List.getElem?_cons_zero, Option.some.injEq] at hk
      subst hk
      simp only [List.take_zero, List.countP_nil, Nat.add_zero, Nat.zero_add]
      exact h0
    | succ k =>
      have hk1 := ht k c' (by simpa using hk)
      rw [List.take_succ_cons, List.countP_cons, List.countP_cons]
      cases c <;> simp only [Call.isEnter, Call.isExit, if_true, if_false, Bool.false_eq_true]
        at h0 hk1 ⊢ <;> omega

theorem addVariable_live_step (X : Externals) (I : ProgramInfo) (D : DeclaratorDecl)
    (New : Nat → Nat) (hl : I.Persisted = false) :
    (∀ e, addVariable X I D New = .error e → e ≠ Failure.persisted)
    ∧ (∀ St, addVariable X I D New = .ok St → St.1.Persisted = false) := by
  cases hv : X.valid D.PSL
  · refine ⟨?_, ?_⟩
    · intro e h
      simp [addVariable, hl, hv] at h
      subst h
      simp
    · intro St h
      simp [addVariable, hl, hv] at h
  · rw [addVariable_live X I D New hl hv]
    exact ⟨(addVariableChecked_step X I D New hl).1,
      fun St h => ((addVariableChecked_step X I D New hl).2 St h).1⟩

theorem call_run_refused (X : Externals) (I : ProgramInfo) (c : Call)
    (h : I.Persisted ≠ c.isEnter) : c.run X I = .error .persisted := by
  cases c with
  | enterCompilationUnit =>
    have hp : I.Persisted = false := by simpa [Call.isEnter] using h
    simp [Call.run, enterCompilationUnit, hp]
  | exitCompilationUnit =>
    have hp : I.Persisted = true := by simpa [Call.isEnter] using h
    simp [Call.run, exitCompilationUnit, hp]
  | addVariable D New =>
    have hp : I.Persisted = true := by simpa [Call.isEnter] using h
    simp [Call.run, addVariable_persisted X I D New hp]
  | getVariable D A =>
    have hp : I.Persisted = true := by simpa [Call.isEnter] using h
    simp [Call.run, getVariable_persisted I D A hp]

theorem call_run_admitted (X : Externals) (I : ProgramInfo) (c : Call)
    (h : I.Persisted = c.isEnter) :
    (∀ e, c.run X I = .error e → e ≠ Failure.persisted)
    ∧ (∀ I', c.run X I = .ok I' → I'.Persisted = (!c.isEnter && c.isExit)) := by
  cases c with
  | enterCompilationUnit =>
    have hp : I.Persisted = true := h
    refine ⟨?_, ?_⟩
    · intro e he
      simp [Call.run, enterCompilationUnit, hp] at he
    · intro I' hI
      simp only [Call.run, enterCompilationUnit, hp, if_true, Except.ok.injEq] at hI
      subst hI
      rfl
  | exitCompilationUnit =>
    have hp : I.Persisted = false := h
    refine ⟨?_, ?_⟩
    · intro e he
      simp [Call.run, exitCompilationUnit, hp] at he
    · intro I' hI
      simp only [Call.run, exitCompilationUnit, hp, Bool.not_false, if_true,
        Except.ok.injEq] at hI
      subst hI
      rfl
  | addVariable D New =>
    have hp : I.Persisted = false := h
    obtain ⟨he, ho⟩ := addVariable_live_step X I D New hp
    cases hA : ThreeC.addVariable X I D New with
    | error e =>
      refine ⟨?_, ?_⟩
      · intro e' he'
        simp only [Call.run, hA, Except.error.injEq] at he'
        subst he'
        exact he e hA
      · intro I' hI
        simp [Call.run, hA] at hI
    | ok St =>
      refine ⟨?_, ?_⟩
      · intro e' he'
        simp [Call.run, hA] at he'
      · intro I' hI
        simp only [Call.run, hA, Except.ok.injEq] at hI
        subst hI
        exact ho St hA
  | getVariable D A =>
    have hp : I.Persisted = false := h
    obtain ⟨he, ho⟩ := getVariable_frame I D A hp
    cases hA : ThreeC.getVariable I D A with
    | error e =>
      refine ⟨?_, ?_⟩
      · intro e' he'
        simp only [Call.run, hA, Except.error.injEq] at he'
        subst he'
        exact he e hA
      · intro I' hI
        simp [Call.run, hA] at hI
    | ok R =>
      refine ⟨?_, ?_⟩
      · intro e' he'
        simp [Call.run, hA] at he'
      · intro I' hI
        simp only [Call.run, hA, Except.ok.injEq] at hI
        subst hI
        exact (ho R hA).1.1.trans hp

theorem runCalls_disciplined (X : Externals) (cs : List Call) (I : ProgramInfo) :
    (∀ I', runCalls X I cs = .ok I' → Disciplined (if I.Persisted then 0 else 1) cs)
    ∧ (Disciplined (if I.Persisted then 0 else 1) cs →
        runCalls X I cs ≠ .error Failure.persisted) := by
  induction cs generalizing I with
  | nil => exact ⟨fun _ _ => disciplined_nil _, fun _ h => by simp [runCalls] at h⟩
  | cons c cs ih =>
    by_cases hr : I.Persisted = c.isEnter
    · obtain ⟨he, ho⟩ := call_run_admitted X I c hr
      have hd : Disciplined (if I.Persisted then 0 else 1) (c :: cs)
          ↔ Disciplined (if (!c.isEnter && c.isExit) then 0 else 1) cs := by
        rw [disciplined_cons, hr]
        cases c <;> simp [Call.isEnter, Call.isExit]
      cases hc : c.run X I with
      | error e =>
        refine ⟨?_, ?_⟩
        · intro I' h
          simp [runCalls, hc] at h
        · intro _ h
          simp only [runCalls, hc, Except.error.injEq] at h
          exact he e hc h
      | ok I1 =>
        have hp := ho I1 hc
        obtain ⟨ih1, ih2⟩ := ih I1
        rw [hp] at ih1 ih2
        refine ⟨?_, ?_⟩
        · intro I' h
          simp only [runCalls, hc] at h
          exact hd.2 (ih1 I' h)
        · intro h
          simp only [runCalls, hc]
          exact ih2 (hd.1 h)
    · refine ⟨?_, ?_⟩
      · intro I' h
        simp [runCalls, call_run_refused X I c hr] at h
      · intro h
        exfalso
        apply hr
        have h0 := ((disciplined_cons _ c cs).1 h).1
        cases hP : I.Persisted <;> cases hE : c.isEnter <;> simp [hP, hE] at h0 ⊢

/-- C16: the store is constructed persisted; `enterCompilationUnit` returns
exactly on a persisted store and makes it live, `exitCompilationUnit` returns
exactly on a live store and makes it persisted, and neither changes a table,
the constraint store or a heap; `addVariable` and `getVariable` fail their
assertion on a persisted store. For every sequence of calls on a new store:
if the calls keep the discipline (enters and exits alternate, starting with
an enter, and every `addVariable` and `getVariable` comes inside a unit) no
assertion on the state fails; if all calls return, the calls keep the
discipline; and when no call fails for another reason, all calls return if
and only if the calls keep the discipline. -/
theorem persisted_two_states (X : Externals) :
    ProgramInfo.new.Persisted = true
    ∧ (∀ I : ProgramInfo,
        (I.Persisted = true →
          ∃ I', enterCompilationUnit I = .ok I' ∧ I'.Persisted = false ∧ SameTables I I')
        ∧ (I.Persisted = false → enterCompilationUnit I = .error .persisted))
    ∧ (∀ I : ProgramInfo,
        (I.Persisted = false →
          ∃ I', exitCompilationUnit I = .ok I' ∧ I'.Persisted = true ∧ SameTables I I')
        ∧ (I.Persisted = true → exitCompilationUnit I = .error .persisted))
    ∧ (∀ (I : ProgramInfo) (D : DeclaratorDecl) (New : Nat → Nat), I.Persisted = true →
        addVariable X I D New = .error .persisted)
    ∧ (∀ (I : ProgramInfo) (D : Decl) (A : Nat), I.Persisted = true →
        getVariable I D A = .error .persisted)
    ∧ (∀ cs : List Call,
        (Disciplined 0 cs → runCalls X ProgramInfo.new cs ≠ .error Failure.persisted)
        ∧ (∀ I', runCalls X ProgramInfo.new cs = .ok I' → Disciplined 0 cs)
        ∧ ((∀ e, runCalls X ProgramInfo.new cs = .error e → e = Failure.persisted) →
            ((∃ I', runCalls X ProgramInfo.new cs = .ok I') ↔ Disciplined 0 cs))) := by
  refine ⟨rfl, ?_, ?_, ?_, ?_, ?_⟩
  · intro I
    refine ⟨?_, ?_⟩
    · intro hp
      exact ⟨{ I with Persisted := false }, by simp [enterCompilationUnit, hp], rfl,
        rfl, rfl, rfl, rfl, rfl, rfl, rfl, rfl⟩
    · intro hp
      simp [enterCompilationUnit, hp]
  · intro I
    refine ⟨?_, ?_⟩
    · intro hp
      exact ⟨{ I with Persisted := true }, by simp [exitCompilationUnit, hp], rfl,
        rfl, rfl, rfl, rfl, rfl, rfl, rfl, rfl⟩
    · intro hp
      simp [exitCompilationUnit, hp]
  · intro I D New hp
    exact addVariable_persisted X I D New hp
  · intro I D A hp
    exact getVariable_persisted I D A hp
  · intro cs
    obtain ⟨h1, h2⟩ := runCalls_disciplined X cs ProgramInfo.new
    have h1' : ∀ I', runCalls X ProgramInfo.new cs = .ok I' → Disciplined 0 cs := h1
    have h2' : Disciplined 0 cs → runCalls X ProgramInfo.new cs ≠ .error Failure.persisted :=
      h2
    refine ⟨h2', h1', ?_⟩
    intro hother
    constructor
    · rintro ⟨I', hI⟩
      exact h1' I' hI
    · intro hd
      cases hrun : runCalls X ProgramInfo.new cs with
      | ok I' => exact ⟨I', rfl⟩
      | error e =>
        exfalso
        apply h2' hd
        rw [hrun, hother e hrun]

theorem persisted_two_states_witness :
    (∃ I', runCalls specExternals ProgramInfo.new sampleCalls = .ok I')
    ∧ Disciplined 0 sampleCalls
    ∧ runCalls specExternals ProgramInfo.new
        [.enterCompilationUnit, .enterCompilationUnit] = .error .persisted
    ∧ runCalls specExternals ProgramInfo.new
        [.addVariable (sampleGlobalVar "a.c" false 50) sampleNew] = .error .persisted :=
  ⟨⟨_, rfl⟩,
    ((persisted_two_states specExternals).2.2.2.2.2 sampleCalls).2.1 _ rfl, rfl, rfl⟩

/-! ## Typedef registration -/

theorem contains_touch_same {K V : Type} [DecidableEq K] [KeyOrder K] [Inhabited V]
    (m : StdMap K V) (k : K) : StdMap.contains (StdMap.touch m k) k = true := by
  unfold StdMap.contains
  rw [StdMap.find_touch_iff]
  simp

theorem contains_set_same {K V : Type} [DecidableEq K] [KeyOrder K]
    (m : StdMap K V) (k : K) (v : V) : StdMap.contains (StdMap.set m k v) k = true := by
  unfold StdMap.contains
  rw [StdMap.find_set_self]
  rfl

/-- C30, where it fails: `lookupTypedef(PSL)` reads `TypedefVars[PSL]` and
`unifyIfTypedef` takes a reference to `TypedefVars[PSL]`, so either call
registers the location: `seenTypedef(PSL)` is true afterwards in every state,
also in the new state, where it was false and `addTypedef` has never been
called. -/
theorem lookupTypedef_registers :
    seenTypedef ProgramInfo.new ⟨"t.h", 1, 13⟩ = false
    ∧ seenTypedef (lookupTypedef ProgramInfo.new ⟨"t.h", 1, 13⟩).1 ⟨"t.h", 1, 13⟩ = true
    ∧ (∀ (I : ProgramInfo) (PSL : PersistentSourceLoc),
        seenTypedef (lookupTypedef I PSL).1 PSL = true)
    ∧ (∀ (X : Externals) (St : ProgramInfo × List LayerCall) (TDT : TypedefDecl) (P : PVRef),
        seenTypedef (unifyIfTypedef X St (some TDT) P).1 TDT.PSL = true) := by
  refine ⟨rfl, rfl, ?_, ?_⟩
  · intro I PSL
    exact contains_touch_same I.TypedefVars PSL
  · intro X St TDT P
    unfold unifyIfTypedef seenTypedef
    dsimp only
    split
    · exact contains_set_same _ _ _
    · exact contains_touch_same St.1.TypedefVars TDT.PSL

/-! ## The allocator list of the driver -/

theorem findDelimiter_none (s : List Char) : findDelimiter s = none ↔ ',' ∉ s := by
  induction s with
  | nil => simp [findDelimiter]
  | cons c s ih =>
    by_cases hc : c = ','
    · simp [findDelimiter, hc]
    · have hc' : ¬ ',' = c := fun h => hc h.symm
      simp [findDelimiter, hc, hc', ih]

theorem findDelimiter_some (s : List Char) (Pos : Nat) (h : findDelimiter s = some Pos) :
    ',' ∉ s.take Pos ∧ s = s.take Pos ++ ',' :: s.drop (Pos + 1)
      ∧ s.count ',' = (s.drop (Pos + 1)).count ',' + 1
      ∧ (s.drop (Pos + 1)).length < s.length := by
  induction s generalizing Pos with
  | nil => simp [findDelimiter] at h
  | cons c s ih =>
    by_cases hc : c = ','
    · simp only [findDelimiter, hc, if_true, Option.some.injEq] at h
      subst h
      subst hc
      simp
    · have hc' : ¬ ',' = c := fun h => hc h.symm
      simp only [findDelimiter, hc, if_false, Option.map_eq_some'] at h
      obtain ⟨Q, hQ, rfl⟩ := h
      obtain ⟨h1, h2, h3, h4⟩ := ih Q hQ
      refine ⟨?_, ?_, ?_, ?_⟩
      · simp only [List.take_succ_cons, List.mem_cons, not_or]
        exact ⟨hc', h1⟩
      · simp only [List.take_succ_cons, List.drop_succ_cons, List.cons_append]
        rw [← h2]
      · simp only [List.drop_succ_cons]
        rw [List.count_cons_of_ne hc', h3]
      · simp only [List.drop_succ_cons, List.length_cons]
        omega

theorem joinTokens_cons (t : List Char) (ts : List (List Char)) (rest : List Char) :
    joinTokens (t :: (ts ++ [rest])) = t ++ ',' :: joinTokens (ts ++ [rest]) := by
  cases ts <;> rfl

theorem splitLoop_spec (Fuel : Nat) (s : List Char) (Fns : List (List Char))
    (hF : s.length < Fuel) :
    ∃ toks rest, splitLoop Fuel s Fns = some (rest, Fns ++ toks)
      ∧ ',' ∉ rest ∧ (∀ t ∈ toks, ',' ∉ t) ∧ toks.length = s.count ','
      ∧ joinTokens (toks ++ [rest]) = s := by
  induction Fuel generalizing s Fns with
  | zero => omega
  | succ Fuel ih =>
    cases hd : findDelimiter s with
    | none =>
      have hno := (findDelimiter_none s).1 hd
      refine ⟨[], s, ?_, hno, ?_, ?_, rfl⟩
      · simp [splitLoop, hd]
      · simp
      · simp [List.count_eq_zero_of_not_mem hno]
    | some Pos =>
      obtain ⟨h1, h2, h3, h4⟩ := findDelimiter_some s Pos hd
      obtain ⟨toks, rest, hrun, hrest, htoks, hlen, hjoin⟩ :=
        ih (s.drop (Pos + 1)) (Fns ++ [s.take Pos]) (by omega)
      refine ⟨s.take Pos :: toks, rest, ?_, hrest, ?_, ?_, ?_⟩
      · simp only [splitLoop, hd]
        rw [hrun]
        simp
      · intro t ht
        rcases List.mem_cons.1 ht with rfl | ht
        · exact h1
        · exact htoks t ht
      · rw [List.length_cons, hlen, h3]
      · rw [List.cons_append, joinTokens_cons, hjoin]
        exact h2.symm

/-- C28: with enough fuel (more than the length of the value) the loop of
`main` is left, and for a non-empty value `s` of `-use-malloc` the tokens
pushed onto `AllocatorFunctions` are one more than the commas of `s`, none
contains a comma, and joined with commas, in order, they give `s` back, so
empty tokens are kept; for the empty value `AllocatorFunctions` is empty. -/
theorem allocatorFunctions_split (Fuel : Nat) (s : List Char) (hF : s.length < Fuel) :
    (s = [] → allocatorFunctions Fuel s = some [])
    ∧ (s ≠ [] →
        ∃ toks, allocatorFunctions Fuel s = some toks
          ∧ toks.length = s.count ',' + 1
          ∧ (∀ t ∈ toks, ',' ∉ t)
          ∧ joinTokens toks = s) := by
  refine ⟨?_, ?_⟩
  · intro hs
    subst hs
    rfl
  · intro hs
    obtain ⟨toks, rest, hrun, hrest, htoks, hlen, hjoin⟩ := splitLoop_spec Fuel s [] hF
    refine ⟨toks ++ [rest], ?_, ?_, ?_, hjoin⟩
    · cases s with
      | nil => exact absurd rfl hs
      | cons c s =>
        simp only [allocatorFunctions, List.isEmpty_cons, Bool.not_false, if_true, hrun,
          List.nil_append]
    · rw [List.length_append, hlen]
      rfl
    · intro t ht
      rcases List.mem_append.1 ht with ht | ht
      · exact htoks t ht
      · rw [List.mem_singleton.1 ht]
        exact hrest

theorem allocatorFunctions_split_witness :
    allocatorFunctions 5 "a,,b".data = some ["a".data, [], "b".data]
    ∧ allocatorFunctions 3 "a,".data = some ["a".data, []]
    ∧ ("a,,b".data = [] → allocatorFunctions 5 "a,,b".data = some [])
    ∧ ("a,,b".data ≠ [] →
        ∃ toks, allocatorFunctions 5 "a,,b".data = some toks
          ∧ toks.length = "a,,b".data.count ',' + 1
          ∧ (∀ t ∈ toks, ',' ∉ t)
          ∧ joinTokens toks = "a,,b".data) :=
  ⟨by decide, by decide, allocatorFunctions_split 5 "a,,b".data (by decide)⟩

/-! ## A registered definition stays -/

theorem insert_keeps_body (ops : CVOps)
    (hbt : ∀ F G, (ops.brainTransplant F G).hasBody = F.hasBody) (H H' : FVHeap)
    (Map Map' : ExternalFunctionMapType) (m : String) (B A : Nat)
    (hA : (H A).hasBody = true)
    (hok : insertIntoExternalFunctionMap ops H Map m B = .ok (H', Map')) :
    (H' A).hasBody = true := by
  unfold insertIntoExternalFunctionMap at hok
  cases hfind : StdMap.find Map m with
  | none =>
    simp only [hfind, Except.ok.injEq, Prod.mk.injEq] at hok
    rw [← hok.1]
    exact hA
  | some OldC =>
    simp only [hfind] at hok
    have hupd : (Function.update H B (ops.brainTransplant (H B) (H OldC)) A).hasBody = true := by
      by_cases hAB : A = B
      · subst hAB
        rw [Function.update_same, hbt]
        exact hA
      · rw [Function.update_noteq hAB]
        exact hA
    split at hok
    · split at hok
      · simp only [Except.ok.injEq, Prod.mk.injEq] at hok
        rw [← hok.1]
        exact hupd
      · split at hok
        · cases hok
        · simp only [Except.ok.injEq, Prod.mk.injEq] at hok
          rw [← hok.1]
          have hne : A ≠ OldC := by
            intro h
            subst h
            simp_all
          rw [Function.update_noteq hne]
          exact hA
    · split at hok
      · cases hok
      · simp only [Except.ok.injEq, Prod.mk.injEq] at hok
        rw [← hok.1]
        exact hupd

theorem insert_keeps_entry (ops : CVOps) (H H' : FVHeap)
    (Map Map' : ExternalFunctionMapType) (n m : String) (B A : Nat)
    (hf : StdMap.find Map n = some A) (hA : (H A).hasBody = true)
    (hok : insertIntoExternalFunctionMap ops H Map m B = .ok (H', Map')) :
    StdMap.find Map' n = some A := by
  unfold insertIntoExternalFunctionMap at hok
  by_cases hmn : m = n
  · subst hmn
    simp only [hf, hA, Bool.not_true, Bool.false_eq_true, if_false] at hok
    split at hok
    · cases hok
    · simp only [Except.ok.injEq, Prod.mk.injEq] at hok
      rw [← hok.2]
      exact hf
  · have hnm : n ≠ m := fun h => hmn h.symm
    cases hfind : StdMap.find Map m with
    | none =>
      simp only [hfind, Except.ok.injEq, Prod.mk.injEq] at hok
      rw [← hok.2, StdMap.find_set_other Map m n B hnm]
      exact hf
    | some OldC =>
      simp only [hfind] at hok
      split at hok
      · split at hok
        · simp only [Except.ok.injEq, Prod.mk.injEq] at hok
          rw [← hok.2, StdMap.find_set_other Map m n B hnm]
          exact hf
        · split at hok
          · cases hok
          · simp only [Except.ok.injEq, Prod.mk.injEq] at hok
            rw [← hok.2]
            exact hf
      · split at hok
        · cases hok
        · simp only [Except.ok.injEq, Prod.mk.injEq] at hok
          rw [← hok.2]
          exact hf

theorem insert_body_fatal (ops : CVOps) (H : FVHeap) (Map : ExternalFunctionMapType)
    (n : String) (B A : Nat) (hf : StdMap.find Map n = some A)
    (hA : (H A).hasBody = true) (hB : (H B).hasBody = true) :
    insertIntoExternalFunctionMap ops H Map n B = .error 1 := by
  unfold insertIntoExternalFunctionMap
  simp [hf, hA, hB]

theorem insertAll_keeps (ops : CVOps)
    (hbt : ∀ F G, (ops.brainTransplant F G).hasBody = F.hasBody)
    (Calls : List (String × Nat)) (H : FVHeap) (Map : ExternalFunctionMapType)
    (n : String) (A : Nat) (hf : StdMap.find Map n = some A) (hA : (H A).hasBody = true)
    (R : FVHeap × ExternalFunctionMapType) (hrun : insertAll ops H Map Calls = .ok R) :
    StdMap.find R.2 n = some A ∧ (R.1 A).hasBody = true := by
  induction Calls generalizing H Map with
  | nil =>
    simp only [insertAll, Except.ok.injEq] at hrun
    subst hrun
    exact ⟨hf, hA⟩
  | cons c Calls ih =>
    obtain ⟨m, B⟩ := c
    unfold insertAll at hrun
    cases hstep : insertIntoExternalFunctionMap ops H Map m B with
    | error e => simp [hstep] at hrun
    | ok S =>
      obtain ⟨H1, M1⟩ := S
      simp only [hstep] at hrun
      exact ih H1 M1 (insert_keeps_entry ops H H1 Map M1 n m B A hf hA hstep)
        (insert_keeps_body ops hbt H H1 Map M1 m B A hA hstep) hrun

theorem static_keeps (ops : CVOps)
    (hbt : ∀ F G, (ops.brainTransplant F G).hasBody = F.hasBody) (H H' : FVHeap)
    (SMap SMap' : StaticFunctionMapType) (File n f m : String) (B A : Nat)
    (Sub : ExternalFunctionMapType) (hs : StdMap.find SMap File = some Sub)
    (hf : StdMap.find Sub n = some A) (hA : (H A).hasBody = true)
    (hok : insertIntoStaticFunctionMap ops H SMap m f B = .ok (H', SMap')) :
    (∃ Sub', StdMap.find SMap' File = some Sub' ∧ StdMap.find Sub' n = some A)
    ∧ (H' A).hasBody = true := by
  unfold insertIntoStaticFunctionMap at hok
  cases hc : StdMap.contains SMap f with
  | false =>
    simp only [hc, Bool.not_false, if_true, Except.ok.injEq, Prod.mk.injEq] at hok
    have hne : File ≠ f := by
      intro h
      subst h
      simp [StdMap.contains, hs] at hc
    refine ⟨⟨Sub, ?_, hf⟩, ?_⟩
    · rw [← hok.2, StdMap.find_set_other SMap f File _ hne]
      exact hs
    · rw [← hok.1]
      exact hA
  | true =>
    simp only [hc, Bool.not_true, Bool.false_eq_true, if_false] at hok
    cases hstep : insertIntoExternalFunctionMap ops H (StdMap.index SMap f) m B with
    | error e => simp [hstep] at hok
    | ok S =>
      obtain ⟨H1, Sub1⟩ := S
      simp only [hstep, Except.ok.injEq, Prod.mk.injEq] at hok
      refine ⟨?_, ?_⟩
      · by_cases hfe : f = File
        · subst hfe
          have hidx : StdMap.index SMap f = Sub := by simp [StdMap.index, hs]
          rw [hidx] at hstep
          refine ⟨Sub1, ?_, insert_keeps_entry ops H H1 Sub Sub1 n m B A hf hA hstep⟩
          rw [← hok.2, StdMap.find_set_self]
        · have hne : File ≠ f := fun h => hfe h.symm
          refine ⟨Sub, ?_, hf⟩
          rw [← hok.2, StdMap.find_set_other SMap f File _ hne]
          exact hs
      · rw [← hok.1]
        exact insert_keeps_body ops hbt H H1 _ Sub1 m B A hA hstep

theorem static_body_fatal (ops : CVOps) (H : FVHeap) (SMap : StaticFunctionMapType)
    (File n : String) (B A : Nat) (Sub : ExternalFunctionMapType)
    (hs : StdMap.find SMap File = some Sub) (hf : StdMap.find Sub n = some A)
    (hA : (H A).hasBody = true) (hB : (H B).hasBody = true) :
    insertIntoStaticFunctionMap ops H SMap n File B = .error 1 := by
  unfold insertIntoStaticFunctionMap
  have hc : StdMap.contains SMap File = true := by simp [StdMap.contains, hs]
  have hidx : StdMap.index SMap File = Sub := by simp [StdMap.index, hs]
  simp only [hc, Bool.not_true, Bool.false_eq_true, if_false, hidx]
  rw [insert_body_fatal ops H Sub n B A hf hA hB]

theorem insertAllStatic_keeps (ops : CVOps)
    (hbt : ∀ F G, (ops.brainTransplant F G).hasBody = F.hasBody)
    (Calls : List (String × String × Nat)) (H : FVHeap) (SMap : StaticFunctionMapType)
    (File n : String) (A : Nat) (Sub : ExternalFunctionMapType)
    (hs : StdMap.find SMap File = some Sub) (hf : StdMap.find Sub n = some A)
    (hA : (H A).hasBody = true) (R : FVHeap × StaticFunctionMapType)
    (hrun : insertAllStatic ops H SMap Calls = .ok R) :
    (∃ Sub', StdMap.find R.2 File = some Sub' ∧ StdMap.find Sub' n = some A)
    ∧ (R.1 A).hasBody = true := by
  induction Calls generalizing H SMap Sub with
  | nil =>
    simp only [insertAllStatic, Except.ok.injEq] at hrun
    subst hrun
    exact ⟨⟨Sub, hs, hf⟩, hA⟩
  | cons c Calls ih =>
    obtain ⟨m, f, B⟩ := c
    unfold insertAllStatic at hrun
    cases hstep : insertIntoStaticFunctionMap ops H SMap m f B with
    | error e => simp [hstep] at hrun
    | ok S =>
      obtain ⟨H1, M1⟩ := S
      simp only [hstep] at hrun
      obtain ⟨⟨Sub1, hs1, hf1⟩, hA1⟩ :=
        static_keeps ops hbt H H1 SMap M1 File n f m B A Sub hs hf hA hstep
      exact ih H1 M1 Sub1 hs1 hf1 hA1 hrun

/-- C26: let `brainTransplant` keep the receiver's `hasBody()`. In a run of
`insertIntoExternalFunctionMap` calls on one map in which no call is fatal,
once the entry of a name is a variable with a body, the entry of the name is
that same variable after every later call and it still has a body; inserting
a variable with a body under that name is then fatal, so that every call of
the run that inserts under the name brings a variable without a body. The
same holds per file for runs of `insertIntoStaticFunctionMap`. -/
theorem definition_never_displaced (ops : CVOps)
    (hbt : ∀ F G, (ops.brainTransplant F G).hasBody = F.hasBody) (A : Nat) (n : String) :
    (∀ (H : FVHeap) (Map : ExternalFunctionMapType) (Calls : List (String × Nat))
        (R : FVHeap × ExternalFunctionMapType),
        StdMap.find Map n = some A → (H A).hasBody = true →
        insertAll ops H Map Calls = .ok R →
        StdMap.find R.2 n = some A ∧ (R.1 A).hasBody = true
        ∧ (∀ B, (R.1 B).hasBody = true →
            insertIntoExternalFunctionMap ops R.1 R.2 n B = .error 1)
        ∧ (∀ Pre B Post Rp, Calls = Pre ++ (n, B) :: Post →
            insertAll ops H Map Pre = .ok Rp → (Rp.1 B).hasBody = false))
    ∧ (∀ (H : FVHeap) (SMap : StaticFunctionMapType) (File : String)
        (Sub : ExternalFunctionMapType) (Calls : List (String × String × Nat))
        (R : FVHeap × StaticFunctionMapType),
        StdMap.find SMap File = some Sub → StdMap.find Sub n = some A →
        (H A).hasBody = true → insertAllStatic ops H SMap Calls = .ok R →
        (∃ Sub', StdMap.find R.2 File = some Sub' ∧ StdMap.find Sub' n = some A)
        ∧ (R.1 A).hasBody = true
        ∧ (∀ B, (R.1 B).hasBody = true →
            insertIntoStaticFunctionMap ops R.1 R.2 n File B = .error 1)) := by
  refine ⟨?_, ?_⟩
  · intro H Map Calls R hf hA hrun
    obtain ⟨h1, h2⟩ := insertAll_keeps ops hbt Calls H Map n A hf hA R hrun
    refine ⟨h1, h2, ?_, ?_⟩
    · intro B hB
      exact insert_body_fatal ops R.1 R.2 n B A h1 h2 hB
    · intro Pre B Post Rp hsplit hpre
      obtain ⟨hp1, hp2⟩ := insertAll_keeps ops hbt Pre H Map n A hf hA Rp hpre
      cases hb : (Rp.1 B).hasBody with
      | false => rfl
      | true =>
        exfalso
        have hfatal := insert_body_fatal ops Rp.1 Rp.2 n B A hp1 hp2 hb
        have hcont : ∀ (L : List (String × Nat)) (H0 : FVHeap)
            (M0 : ExternalFunctionMapType), insertAll ops H0 M0 L = .ok Rp →
            insertAll ops H0 M0 (L ++ (n, B) :: Post) = .error 1 := by
          intro L
          induction L with
          | nil =>
            intro H0 M0 h0
            simp only [insertAll, Except.ok.injEq] at h0
            subst h0
            simp only [List.nil_append, insertAll, hfatal]
          | cons c L ihL =>
            intro H0 M0 h0
            obtain ⟨m, C⟩ := c
            simp only [List.cons_append, insertAll] at h0 ⊢
            cases hstep : insertIntoExternalFunctionMap ops H0 M0 m C with
            | error e => simp [hstep] at h0
            | ok S =>
              simp only [hstep] at h0 ⊢
              exact ihL S.1 S.2 h0
        rw [hsplit, hcont Pre H Map hpre] at hrun
        cases hrun
  · intro H SMap File Sub Calls R hs hf hA hrun
    obtain ⟨⟨Sub1, hs1, hf1⟩, hA1⟩ :=
      insertAllStatic_keeps ops hbt Calls H SMap File n A Sub hs hf hA R hrun
    exact ⟨⟨Sub1, hs1, hf1⟩, hA1,
      fun B hB => static_body_fatal ops R.1 R.2 File n B A Sub1 hs1 hf1 hA1 hB⟩

theorem definition_never_displaced_witness :
    (insertAll specOps sampleFVs [("f", 0)] sampleInsertCalls = .ok sampleInsertRun
      ∧ sampleInsertRun.2 = [("f", 0), ("g", 2)]
      ∧ insertAll specOps (Function.update sampleFVs 3 sampleDefinition) [("f", 0)]
          [("f", 1), ("f", 3)] = .error 1)
    ∧ (∀ (H : FVHeap) (Map : ExternalFunctionMapType) (Calls : List (String × Nat))
        (R : FVHeap × ExternalFunctionMapType),
        StdMap.find Map "f" = some 0 → (H 0).hasBody = true →
        insertAll specOps H Map Calls = .ok R →
        StdMap.find R.2 "f" = some 0 ∧ (R.1 0).hasBody = true
        ∧ (∀ B, (R.1 B).hasBody = true →
            insertIntoExternalFunctionMap specOps R.1 R.2 "f" B = .error 1)
        ∧ (∀ Pre B Post Rp, Calls = Pre ++ ("f", B) :: Post →
            insertAll specOps H Map Pre = .ok Rp → (Rp.1 B).hasBody = false)) :=
  ⟨⟨rfl, rfl, rfl⟩,
    (definition_never_displaced specOps hasBody_brainTransplant 0 "f").1⟩

/-! ## Statistics -/

theorem countKind_cons (Env : StatsEnv) (K N : Atom) (Ns : List Atom) :
    countKind Env K (N :: Ns)
      = countKind Env K Ns + (if Env.getAssignment N = K then 1 else 0) := by
  unfold countKind
  rw [List.countP_cons]
  simp

theorem countAssignments_ok (Env : StatsEnv) (Ns : List Atom) (S S' : FileStats)
    (h : countAssignments Env Ns S = .ok S') :
    S'.VarC = S.VarC ∧ S'.PC = S.PC + countKind Env .Ptr Ns
      ∧ S'.NtaC = S.NtaC + countKind Env .NTArr Ns
      ∧ S'.AC = S.AC + countKind Env .Arr Ns
      ∧ S'.WC = S.WC + countKind Env .Wild Ns
      ∧ Ns.length = countKind Env .Ptr Ns + countKind Env .NTArr Ns
          + countKind Env .Arr Ns + countKind Env .Wild Ns
      ∧ ∀ N ∈ Ns, IsLatticeConstant Env N := by
  induction Ns generalizing S with
  | nil =>
    simp only [countAssignments, Except.ok.injEq] at h
    subst h
    simp [countKind]
  | cons N Ns ih =>
    unfold countAssignments at h
    simp only [countKind_cons, List.length_cons]
    cases hN : Env.getAssignment N with
    | Var Loc => simp [hN] at h
    | Ptr =>
      simp only [hN] at h
      obtain ⟨h1, h2, h3, h4, h5, h6, h7⟩ := ih _ h
      refine ⟨h1, ?_, ?_, ?_, ?_, ?_, ?_⟩
      · simp only [reduceCtorEq, if_true, if_false] at *
        omega
      · simp only [reduceCtorEq, if_true, if_false] at *
        omega
      · simp only [reduceCtorEq, if_true, if_false] at *
        omega
      · simp only [reduceCtorEq, if_true, if_false] at *
        omega
      · simp only [reduceCtorEq, if_true, if_false] at *
        omega
      · intro M hM
        rcases List.mem_cons.1 hM with rfl | hM
        · intro Loc hL
          rw [hN] at hL
          cases hL
        · exact h7 M hM
    | NTArr =>
      simp only [hN] at h
      obtain ⟨h1, h2, h3, h4, h5, h6, h7⟩ := ih _ h
      refine ⟨h1, ?_, ?_, ?_, ?_, ?_, ?_⟩
      · simp only [reduceCtorEq, if_true, if_false] at *
        omega
      · simp only [reduceCtorEq, if_true, if_false] at *
        omega
      · simp only [reduceCtorEq, if_true, if_false] at *
        omega
      · simp only [reduceCtorEq, if_true, if_false] at *
        omega
      · simp only [reduceCtorEq, if_true, if_false] at *
        omega
      · intro M hM
        rcases List.mem_cons.1 hM with rfl | hM
        · intro Loc hL
          rw [hN] at hL
          cases hL
        · exact h7 M hM
    | Arr =>
      simp only [hN] at h
      obtain ⟨h1, h2, h3, h4, h5, h6, h7⟩ := ih _ h
      refine ⟨h1, ?_, ?_, ?_, ?_, ?_, ?_⟩
      · simp only [reduceCtorEq, if_true, if_false] at *
        omega
      · simp only [reduceCtorEq, if_true, if_false] at *
        omega
      · simp only [reduceCtorEq, if_true, if_false] at *
        omega
      · simp only [reduceCtorEq, if_true, if_false] at *
        omega
      · simp only [reduceCtorEq, if_true, if_false] at *
        omega
      · intro M hM
        rcases List.mem_cons.1 hM with rfl | hM
        · intro Loc hL
          rw [hN] at hL
          cases hL
        · exact h7 M hM
    | Wild =>
      simp only [hN] at h
      obtain ⟨h1, h2, h3, h4, h5, h6, h7⟩ := ih _ h
      refine ⟨h1, ?_, ?_, ?_, ?_, ?_, ?_⟩
      · simp only [reduceCtorEq, if_true, if_false] at *
        omega
      · simp only [reduceCtorEq, if_true, if_false] at *
        omega
      · simp only [reduceCtorEq, if_true, if_false] at *
        omega
      · simp only [reduceCtorEq, if_true, if_false] at *
        omega
      · simp only [reduceCtorEq, if_true, if_false] at *
        omega
      · intro M hM
        rcases List.mem_cons.1 hM with rfl | hM
        · intro Loc hL
          rw [hN] at hL
          cases hL
        · exact h7 M hM

theorem countAssignments_error (Env : StatsEnv) (Ns : List Atom) (S : FileStats)
    (e : Failure) (h : countAssignments Env Ns S = .error e) :
    e = .unreachable "bad constant in environment map"
      ∧ ∃ N ∈ Ns, ¬ IsLatticeConstant Env N := by
  induction Ns generalizing S with
  | nil => simp [countAssignments] at h
  | cons N Ns ih =>
    unfold countAssignments at h
    cases hN : Env.getAssignment N with
    | Var Loc =>
      simp only [hN, Except.error.injEq] at h
      refine ⟨h.symm, N, List.mem_cons_self _ _, ?_⟩
      intro hc
      exact hc Loc hN
    | Ptr =>
      simp only [hN] at h
      obtain ⟨h1, M, hM, h2⟩ := ih _ h
      exact ⟨h1, M, List.mem_cons_of_mem _ hM, h2⟩
    | NTArr =>
      simp only [hN] at h
      obtain ⟨h1, M, hM, h2⟩ := ih _ h
      exact ⟨h1, M, List.mem_cons_of_mem _ hM, h2⟩
    | Arr =>
      simp only [hN] at h
      obtain ⟨h1, M, hM, h2⟩ := ih _ h
      exact ⟨h1, M, List.mem_cons_of_mem _ hM, h2⟩
    | Wild =>
      simp only [hN] at h
      obtain ⟨h1, M, hM, h2⟩ := ih _ h
      exact ⟨h1, M, List.mem_cons_of_mem _ hM, h2⟩

theorem fileStats_add_zero (S : FileStats) : S.add ⟨0, 0, 0, 0, 0⟩ = S := by
  cases S
  rfl

theorem fileStats_zero_add (S : FileStats) : FileStats.add ⟨0, 0, 0, 0, 0⟩ S = S := by
  cases S
  simp [FileStats.add]

theorem fileStats_add_assoc (S T U : FileStats) : (S.add T).add U = S.add (T.add U) := by
  cases S
  cases T
  cases U
  simp [FileStats.add, Nat.add_assoc]

theorem rowOfAtoms_nil (Env : StatsEnv) : rowOfAtoms Env [] = ⟨0, 0, 0, 0, 0⟩ := rfl

theorem rowOfAtoms_append (Env : StatsEnv) (As Bs : List Atom) :
    rowOfAtoms Env (As ++ Bs) = (rowOfAtoms Env As).add (rowOfAtoms Env Bs) := by
  simp [rowOfAtoms, FileStats.add, countKind, List.countP_append]

theorem statsStep_value (Env : StatsEnv) (I : ProgramInfo) (F : List String)
    (Acc Acc' : StdMap String FileStats × List CVRef) (E : PersistentSourceLoc × CVRef)
    (h : statsStep Env I F Acc E = .ok Acc') (File : String) :
    (StdMap.find Acc'.1 File).getD default
        = ((StdMap.find Acc.1 File).getD default).add
            (rowOfAtoms Env (if File ∈ F then entryAtoms I E File else []))
    ∧ (StdMap.contains Acc'.1 File = true
        ↔ StdMap.contains Acc.1 File = true ∨ (File ∈ F ∧ E.1.FileName = File))
    ∧ (File ∈ F → ∀ N ∈ entryAtoms I E File, IsLatticeConstant Env N) := by
  unfold statsStep at h
  by_cases hF : E.1.FileName ∈ F
  · have hS0 : (match StdMap.find Acc.1 E.1.FileName with
        | some J => J
        | none => (⟨0, 0, 0, 0, 0⟩ : FileStats))
        = (StdMap.find Acc.1 E.1.FileName).getD default := by
      cases StdMap.find Acc.1 E.1.FileName <;> rfl
    simp only [hF, if_true, hS0] at h
    cases hv : E.2.isForValidDecl I with
    | false =>
      simp only [hv, Bool.false_eq_true, if_false, Except.ok.injEq] at h
      subst h
      have hnil : ∀ File, entryAtoms I E File = [] := by
        intro File
        simp [entryAtoms, hv]
      refine ⟨?_, ?_, ?_⟩
      · simp only [hnil, ite_self, rowOfAtoms_nil, fileStats_add_zero]
        rw [StdMap.find_set_iff]
        by_cases hfe : File = E.1.FileName
        · subst hfe
          simp
        · simp [hfe]
      · unfold StdMap.contains
        rw [StdMap.find_set_iff]
        by_cases hfe : File = E.1.FileName
        · subst hfe
          simp [hF]
        · have hfe' : ¬ E.1.FileName = File := fun hx => hfe hx.symm
          simp [hfe, hfe']
      · intro _ N hN
        rw [hnil] at hN
        cases hN
    | true =>
      simp only [hv, if_true] at h
      cases hc : countAssignments Env (getVarsFromConstraint I E.2 [])
          { (StdMap.find Acc.1 E.1.FileName).getD default with
            VarC := ((StdMap.find Acc.1 E.1.FileName).getD default).VarC
              + (getVarsFromConstraint I E.2 []).length } with
      | error e => simp [hc] at h
      | ok S1 =>
        simp only [hc, Except.ok.injEq] at h
        subst h
        obtain ⟨h1, h2, h3, h4, h5, _, h7⟩ := countAssignments_ok Env _ _ _ hc
        have hS1 : S1 = ((StdMap.find Acc.1 E.1.FileName).getD default).add
            (rowOfAtoms Env (getVarsFromConstraint I E.2 [])) := by
          cases S1
          simp only [FileStats.add, rowOfAtoms, FileStats.mk.injEq]
          exact ⟨h1, h2, h3, h4, h5⟩
        have hent : entryAtoms I E E.1.FileName = getVarsFromConstraint I E.2 [] := by
          simp [entryAtoms, hv]
        refine ⟨?_, ?_, ?_⟩
        · rw [StdMap.find_set_iff]
          by_cases hfe : File = E.1.FileName
          · subst hfe
            simp only [if_true, Option.getD_some, hF, hent]
            exact hS1
          · have hfe' : ¬ E.1.FileName = File := fun hx => hfe hx.symm
            have hnil : entryAtoms I E File = [] := by simp [entryAtoms, hfe']
            simp only [hfe, if_false, hnil, ite_self, rowOfAtoms_nil, fileStats_add_zero]
        · unfold StdMap.contains
          rw [StdMap.find_set_iff]
          by_cases hfe : File = E.1.FileName
          · subst hfe
            simp [hF]
          · have hfe' : ¬ E.1.FileName = File := fun hx => hfe hx.symm
            simp [hfe, hfe']
        · intro _ N hN
          by_cases hfe : E.1.FileName = File
          · subst hfe
            rw [hent] at hN
            exact h7 N hN
          · have hnil : entryAtoms I E File = [] := by simp [entryAtoms, hfe]
            rw [hnil] at hN
            cases hN
  · simp only [hF, if_false, Except.ok.injEq] at h
    subst h
    refine ⟨?_, ?_, ?_⟩
    · by_cases hFile : File ∈ F
      · have hfe : ¬ E.1.FileName = File := by
          intro hx
          rw [hx] at hF
          exact hF hFile
        have hnil : entryAtoms I E File = [] := by simp [entryAtoms, hfe]
        simp only [hnil, ite_self, rowOfAtoms_nil, fileStats_add_zero]
      · simp only [hFile, if_false, rowOfAtoms_nil, fileStats_add_zero]
    · constructor
      · intro hx
        exact Or.inl hx
      · rintro (hx | ⟨hx, hy⟩)
        · exact hx
        · rw [hy] at hF
          exact absurd hx hF
    · intro hFile N hN
      have hfe : ¬ E.1.FileName = File := by
        intro hx
        rw [hx] at hF
        exact hF hFile
      have hnil : entryAtoms I E File = [] := by simp [entryAtoms, hfe]
      rw [hnil] at hN
      cases hN

theorem mem_set_elim {K V : Type} [DecidableEq K] [KeyOrder K] (m : StdMap K V) (k : K)
    (v : V) (x : K × V) (h : x ∈ StdMap.set m k v) : x = (k, v) ∨ x ∈ m := by
  induction m with
  | nil =>
    simp only [StdMap.set, List.mem_singleton] at h
    exact Or.inl h
  | cons b m ih =>
    obtain ⟨k', v'⟩ := b
    unfold StdMap.set at h
    by_cases hk : k = k'
    · subst hk
      simp only [if_true, List.mem_cons] at h
      rcases h with h | h
      · exact Or.inl h
      · exact Or.inr (List.mem_cons_of_mem _ h)
    · simp only [hk, if_false] at h
      by_cases hl : KeyOrder.lt k k' = true
      · simp only [hl, if_true, List.mem_cons] at h
        rcases h with h | h | h
        · exact Or.inl h
        · exact Or.inr (List.mem_cons.2 (Or.inl h))
        · exact Or.inr (List.mem_cons_of_mem _ h)
      · simp only [hl, Bool.false_eq_true, if_false, List.mem_cons] at h
        rcases h with rfl | h
        · exact Or.inr (List.mem_cons_self _ _)
        · rcases ih h with h2 | h2
          · exact Or.inl h2
          · exact Or.inr (List.mem_cons_of_mem _ h2)

theorem statsStep_error (Env : StatsEnv) (I : ProgramInfo) (F : List String)
    (Acc : StdMap String FileStats × List CVRef) (E : PersistentSourceLoc × CVRef)
    (e : Failure) (h : statsStep Env I F Acc E = .error e) :
    e = .unreachable "bad constant in environment map"
      ∧ E.1.FileName ∈ F ∧ ∃ N ∈ entryAtoms I E E.1.FileName, ¬ IsLatticeConstant Env N := by
  unfold statsStep at h
  by_cases hF : E.1.FileName ∈ F
  · simp only [hF, if_true] at h
    cases hv : E.2.isForValidDecl I with
    | false => simp [hv] at h
    | true =>
      simp only [hv, if_true] at h
      split at h
      · rename_i e' hc
        simp only [Except.error.injEq] at h
        subst h
        obtain ⟨h1, N, hN, h2⟩ := countAssignments_error Env _ _ _ hc
        refine ⟨h1, hF, N, ?_, h2⟩
        simp only [entryAtoms, hv, and_self, if_true]
        exact hN
      · cases h
  · simp [hF] at h

theorem statsStep_rowOK (Env : StatsEnv) (I : ProgramInfo) (F : List String)
    (Acc Acc' : StdMap String FileStats × List CVRef) (E : PersistentSourceLoc × CVRef)
    (hinv : ∀ Row ∈ Acc.1, RowOK Row.2) (h : statsStep Env I F Acc E = .ok Acc') :
    ∀ Row ∈ Acc'.1, RowOK Row.2 := by
  obtain ⟨hval, hcon, hconst⟩ := statsStep_value Env I F Acc Acc' E h E.1.FileName
  have hold : RowOK ((StdMap.find Acc.1 E.1.FileName).getD default) := by
    cases hf : StdMap.find Acc.1 E.1.FileName with
    | none => simp [RowOK, default]
    | some S => exact hinv _ (StdMap.exists_mem_of_find Acc.1 E.1.FileName S hf)
  unfold statsStep at h
  by_cases hF : E.1.FileName ∈ F
  · have hS0 : (match StdMap.find Acc.1 E.1.FileName with
        | some J => J
        | none => (⟨0, 0, 0, 0, 0⟩ : FileStats))
        = (StdMap.find Acc.1 E.1.FileName).getD default := by
      cases StdMap.find Acc.1 E.1.FileName <;> rfl
    simp only [hF, if_true, hS0] at h
    cases hv : E.2.isForValidDecl I with
    | false =>
      simp only [hv, Bool.false_eq_true, if_false, Except.ok.injEq] at h
      subst h
      intro Row hRow
      rcases mem_set_elim _ _ _ _ hRow with rfl | hRow
      · exact hold
      · exact hinv Row hRow
    | true =>
      simp only [hv, if_true] at h
      split at h
      · cases h
      · rename_i S1 hc
        simp only [Except.ok.injEq] at h
        subst h
        obtain ⟨h1, h2, h3, h4, h5, h6, _⟩ := countAssignments_ok Env _ _ _ hc
        intro Row hRow
        rcases mem_set_elim _ _ _ _ hRow with rfl | hRow
        · unfold RowOK at hold ⊢
          simp only at h1 h2 h3 h4 h5 ⊢
          omega
        · exact hinv Row hRow
  · simp only [hF, if_false, Except.ok.injEq] at h
    subst h
    exact hinv

theorem aggregateStats_value (Env : StatsEnv) (I : ProgramInfo) (F : List String)
    (Es : List (PersistentSourceLoc × CVRef))
    (Acc Acc' : StdMap String FileStats × List CVRef)
    (h : aggregateStats Env I F Acc Es = .ok Acc') (File : String) :
    (StdMap.find Acc'.1 File).getD default
        = ((StdMap.find Acc.1 File).getD default).add
            (rowOfAtoms Env (if File ∈ F then countedAtoms I Es File else []))
    ∧ (StdMap.contains Acc'.1 File = true
        ↔ StdMap.contains Acc.1 File = true ∨ (File ∈ F ∧ ∃ E ∈ Es, E.1.FileName = File))
    ∧ (File ∈ F → ∀ N ∈ countedAtoms I Es File, IsLatticeConstant Env N) := by
  induction Es generalizing Acc with
  | nil =>
    simp only [aggregateStats, Except.ok.injEq] at h
    subst h
    refine ⟨?_, ?_, ?_⟩
    · simp [countedAtoms, rowOfAtoms_nil, fileStats_add_zero]
    · simp
    · intro _ N hN
      cases hN
  | cons E Es ih =>
    unfold aggregateStats at h
    cases hstep : statsStep Env I F Acc E with
    | error e => simp [hstep] at h
    | ok Acc1 =>
      simp only [hstep] at h
      obtain ⟨s1, s2, s3⟩ := statsStep_value Env I F Acc Acc1 E hstep File
      obtain ⟨i1, i2, i3⟩ := ih Acc1 h
      refine ⟨?_, ?_, ?_⟩
      · rw [i1, s1, fileStats_add_assoc, ← rowOfAtoms_append]
        by_cases hF : File ∈ F
        · simp only [hF, if_true, countedAtoms]
        · simp only [hF, if_false, List.append_nil]
      · rw [i2, s2]
        constructor
        · rintro ((hx | ⟨hx, hy⟩) | ⟨hx, E', hE', hy⟩)
          · exact Or.inl hx
          · exact Or.inr ⟨hx, E, List.mem_cons_self _ _, hy⟩
          · exact Or.inr ⟨hx, E', List.mem_cons_of_mem _ hE', hy⟩
        · rintro (hx | ⟨hx, E', hE', hy⟩)
          · exact Or.inl (Or.inl hx)
          · rcases List.mem_cons.1 hE' with rfl | hE'
            · exact Or.inl (Or.inr ⟨hx, hy⟩)
            · exact Or.inr ⟨hx, E', hE', hy⟩
      · intro hF N hN
        simp only [countedAtoms, List.mem_append] at hN
        rcases hN with hN | hN
        · exact s3 hF N hN
        · exact i3 hF N hN

theorem aggregateStats_error (Env : StatsEnv) (I : ProgramInfo) (F : List String)
    (Es : List (PersistentSourceLoc × CVRef))
    (Acc : StdMap String FileStats × List CVRef) (e : Failure)
    (h : aggregateStats Env I F Acc Es = .error e) :
    e = .unreachable "bad constant in environment map"
      ∧ ∃ File ∈ F, ∃ N ∈ countedAtoms I Es File, ¬ IsLatticeConstant Env N := by
  induction Es generalizing Acc with
  | nil => simp [aggregateStats] at h
  | cons E Es ih =>
    unfold aggregateStats at h
    cases hstep : statsStep Env I F Acc E with
    | error e' =>
      simp only [hstep, Except.error.injEq] at h
      subst h
      obtain ⟨h1, hF, N, hN, h2⟩ := statsStep_error Env I F Acc E e' hstep
      refine ⟨h1, E.1.FileName, hF, N, ?_, h2⟩
      simp only [countedAtoms, List.mem_append]
      exact Or.inl hN
    | ok Acc1 =>
      simp only [hstep] at h
      obtain ⟨h1, File, hF, N, hN, h2⟩ := ih Acc1 h
      refine ⟨h1, File, hF, N, ?_, h2⟩
      simp only [countedAtoms, List.mem_append]
      exact Or.inr hN

theorem aggregateStats_rowOK (Env : StatsEnv) (I : ProgramInfo) (F : List String)
    (Es : List (PersistentSourceLoc × CVRef))
    (Acc Acc' : StdMap String FileStats × List CVRef)
    (hinv : ∀ Row ∈ Acc.1, RowOK Row.2)
    (h : aggregateStats Env I F Acc Es = .ok Acc') : ∀ Row ∈ Acc'.1, RowOK Row.2 := by
  induction Es generalizing Acc with
  | nil =>
    simp only [aggregateStats, Except.ok.injEq] at h
    subst h
    exact hinv
  | cons E Es ih =>
    unfold aggregateStats at h
    cases hstep : statsStep Env I F Acc E with
    | error e => simp [hstep] at h
    | ok Acc1 =>
      simp only [hstep] at h
      exact ih Acc1 (statsStep_rowOK Env I F Acc Acc1 E hinv hstep) h

theorem dumpRow_tot (OnlySummary JsonFormat : Bool) (St : String × FileStats × Bool)
    (Row : String × FileStats) :
    (dumpRow OnlySummary JsonFormat St Row).2.1 = St.2.1.add Row.2 := by
  unfold dumpRow
  cases OnlySummary <;> cases JsonFormat <;> rfl

theorem foldl_dumpRow_tot (OnlySummary JsonFormat : Bool) (Rows : List (String × FileStats))
    (St : String × FileStats × Bool) :
    (Rows.foldl (dumpRow OnlySummary JsonFormat) St).2.1 = St.2.1.add (sumRows Rows) := by
  induction Rows generalizing St with
  | nil => simp [sumRows, fileStats_add_zero]
  | cons Row Rows ih =>
    rw [List.foldl_cons, ih, dumpRow_tot, fileStats_add_assoc]
    rfl

theorem sumRows_rowOK (Rows : List (String × FileStats))
    (h : ∀ Row ∈ Rows, RowOK Row.2) : RowOK (sumRows Rows) := by
  induction Rows with
  | nil => simp [sumRows, RowOK]
  | cons Row Rows ih =>
    have h1 := h Row (List.mem_cons_self _ _)
    have h2 := ih (fun R hR => h R (List.mem_cons_of_mem _ hR))
    unfold RowOK at h1 h2 ⊢
    simp only [sumRows, FileStats.add]
    omega

theorem printStats_ok (Env : StatsEnv) (I : ProgramInfo) (F : List String)
    (OnlySummary JsonFormat : Bool) (R : StatsResult)
    (h : printStats Env I F OnlySummary JsonFormat = .ok R) :
    aggregateStats Env I F ([], []) I.Variables = .ok (R.FilesToVars, R.InSrcCVars)
    ∧ R.Tot = sumRows R.FilesToVars := by
  unfold printStats at h
  cases hagg : aggregateStats Env I F ([], []) I.Variables with
  | error e => simp [hagg] at h
  | ok Acc =>
    obtain ⟨Rows, InSrc⟩ := Acc
    simp only [hagg, Except.ok.injEq] at h
    subst h
    refine ⟨rfl, ?_⟩
    dsimp only
    rw [foldl_dumpRow_tot, fileStats_zero_add]

theorem printStats_error (Env : StatsEnv) (I : ProgramInfo) (F : List String)
    (OnlySummary JsonFormat : Bool) (e : Failure)
    (h : printStats Env I F OnlySummary JsonFormat = .error e) :
    aggregateStats Env I F ([], []) I.Variables = .error e := by
  unfold printStats at h
  cases hagg : aggregateStats Env I F ([], []) I.Variables with
  | error e' =>
    simp only [hagg, Except.error.injEq] at h
    rw [h]
  | ok Acc =>
    obtain ⟨Rows, InSrc⟩ := Acc
    simp [hagg] at h

theorem statsStep_invalid (Env : StatsEnv) (I : ProgramInfo) (F : List String)
    (Acc : StdMap String FileStats × List CVRef) (E : PersistentSourceLoc × CVRef)
    (hv : E.2.isForValidDecl I = false) :
    ∃ Acc', statsStep Env I F Acc E = .ok Acc'
      ∧ ∀ File, (StdMap.find Acc'.1 File).getD default
          = (StdMap.find Acc.1 File).getD default := by
  have hex : ∃ Acc', statsStep Env I F Acc E = .ok Acc' := by
    unfold statsStep
    by_cases hF : E.1.FileName ∈ F
    · simp [hF, hv]
    · simp [hF]
  obtain ⟨Acc', h⟩ := hex
  refine ⟨Acc', h, ?_⟩
  intro File
  have hnil : entryAtoms I E File = [] := by simp [entryAtoms, hv]
  rw [(statsStep_value Env I F Acc Acc' E h File).1, hnil]
  simp [rowOfAtoms_nil, fileStats_add_zero]

/-- C21: when `printStats` returns, (1) no row is kept for a file outside `F`;
(2) the row of a file is the row of the atoms that `getVarsFromConstraint`
collects from the variables for valid declarations registered at locations of
that file, so that its constraints count is their number; (3) an entry whose
variable is not for a valid declaration leaves every counter of every file as
it was; (4) an entry of a file outside `F` changes nothing; (5) the Summary
totals are the sums of the rows, which are rows of files of `F` only. -/
theorem printStats_valid_only (Env : StatsEnv) (I : ProgramInfo) (F : List String)
    (OnlySummary JsonFormat : Bool) (R : StatsResult)
    (h : printStats Env I F OnlySummary JsonFormat = .ok R) :
    (∀ File, File ∉ F → StdMap.find R.FilesToVars File = none)
    ∧ (∀ File S, StdMap.find R.FilesToVars File = some S →
        File ∈ F ∧ (∃ E ∈ I.Variables, E.1.FileName = File)
        ∧ S = rowOfAtoms Env (countedAtoms I I.Variables File)
        ∧ S.VarC = (countedAtoms I I.Variables File).length)
    ∧ (∀ (Acc : StdMap String FileStats × List CVRef) (E : PersistentSourceLoc × CVRef),
        E.2.isForValidDecl I = false →
        ∃ Acc', statsStep Env I F Acc E = .ok Acc'
          ∧ ∀ File, (StdMap.find Acc'.1 File).getD default
              = (StdMap.find Acc.1 File).getD default)
    ∧ (∀ (Acc : StdMap String FileStats × List CVRef) (E : PersistentSourceLoc × CVRef),
        E.1.FileName ∉ F → statsStep Env I F Acc E = .ok Acc)
    ∧ R.Tot = sumRows R.FilesToVars := by
  obtain ⟨hagg, htot⟩ := printStats_ok Env I F OnlySummary JsonFormat R h
  have hcon : ∀ File, StdMap.contains R.FilesToVars File = true
      ↔ (File ∈ F ∧ ∃ E ∈ I.Variables, E.1.FileName = File) := by
    intro File
    have := (aggregateStats_value Env I F I.Variables ([], []) _ hagg File).2.1
    simpa [StdMap.contains, StdMap.find] using this
  refine ⟨?_, ?_, ?_, ?_, htot⟩
  · intro File hF
    cases hf : StdMap.find R.FilesToVars File with
    | none => rfl
    | some S =>
      exfalso
      exact hF ((hcon File).1 (by simp [StdMap.contains, hf])).1
  · intro File S hf
    obtain ⟨hF, hE⟩ := (hcon File).1 (by simp [StdMap.contains, hf])
    have hval := (aggregateStats_value Env I F I.Variables ([], []) _ hagg File).1
    simp only [hf, Option.getD_some, StdMap.find, Option.getD_none, hF, if_true] at hval
    have hS : S = rowOfAtoms Env (countedAtoms I I.Variables File) := by
      rw [hval]
      exact fileStats_zero_add _
    refine ⟨hF, hE, hS, ?_⟩
    rw [hS]
    rfl
  · intro Acc E hv
    exact statsStep_invalid Env I F Acc E hv
  · intro Acc E hF
    unfold statsStep
    simp [hF]

theorem printStats_valid_only_witness :
    (printStats sampleStatsEnv sampleStatsInfo ["a.c", "b.c"] false true = .ok sampleStatsResult
      ∧ sampleStatsResult.FilesToVars = [("a.c", ⟨1, 1, 0, 0, 0⟩), ("b.c", ⟨2, 0, 0, 0, 2⟩)]
      ∧ sampleStatsResult.Tot = ⟨3, 1, 0, 0, 2⟩)
    ∧ (∀ File, File ∉ ["a.c", "b.c"] → StdMap.find sampleStatsResult.FilesToVars File = none)
    ∧ (∀ File S, StdMap.find sampleStatsResult.FilesToVars File = some S →
        File ∈ ["a.c", "b.c"] ∧ (∃ E ∈ sampleStatsInfo.Variables, E.1.FileName = File)
        ∧ S = rowOfAtoms sampleStatsEnv (countedAtoms sampleStatsInfo sampleStatsInfo.Variables
            File)
        ∧ S.VarC = (countedAtoms sampleStatsInfo sampleStatsInfo.Variables File).length)
    ∧ (∀ (Acc : StdMap String FileStats × List CVRef) (E : PersistentSourceLoc × CVRef),
        E.2.isForValidDecl sampleStatsInfo = false →
        ∃ Acc', statsStep sampleStatsEnv sampleStatsInfo ["a.c", "b.c"] Acc E = .ok Acc'
          ∧ ∀ File, (StdMap.find Acc'.1 File).getD default
              = (StdMap.find Acc.1 File).getD default)
    ∧ (∀ (Acc : StdMap String FileStats × List CVRef) (E : PersistentSourceLoc × CVRef),
        E.1.FileName ∉ ["a.c", "b.c"] →
        statsStep sampleStatsEnv sampleStatsInfo ["a.c", "b.c"] Acc E = .ok Acc)
    ∧ sampleStatsResult.Tot = sumRows sampleStatsResult.FilesToVars :=
  ⟨⟨rfl, rfl, rfl⟩,
    printStats_valid_only sampleStatsEnv sampleStatsInfo ["a.c", "b.c"] false true
      sampleStatsResult rfl⟩

/-- C27: when `printStats` returns, the constraints count of every per-file row
is the sum of its `ptr`, `ntarr`, `arr` and `wild` counts, each Summary total
is the sum of its column over the rows, and `TotalConstraints` is the sum of
the four other totals. It returns whenever the solution assigns a lattice
constant to every counted atom; otherwise it reaches the `llvm_unreachable`
of its `switch`, which is the only way for it not to return. -/
theorem printStats_partition (Env : StatsEnv) (I : ProgramInfo) (F : List String)
    (OnlySummary JsonFormat : Bool) :
    (∀ R, printStats Env I F OnlySummary JsonFormat = .ok R →
      (∀ Row ∈ R.FilesToVars, Row.2.VarC = Row.2.PC + Row.2.NtaC + Row.2.AC + Row.2.WC)
      ∧ R.Tot = sumRows R.FilesToVars
      ∧ R.Tot.VarC = R.Tot.PC + R.Tot.NtaC + R.Tot.AC + R.Tot.WC)
    ∧ ((∀ File ∈ F, ∀ N ∈ countedAtoms I I.Variables File, IsLatticeConstant Env N) →
        ∃ R, printStats Env I F OnlySummary JsonFormat = .ok R)
    ∧ (∀ e, printStats Env I F OnlySummary JsonFormat = .error e →
        e = .unreachable "bad constant in environment map"
        ∧ ∃ File ∈ F, ∃ N ∈ countedAtoms I I.Variables File, ¬ IsLatticeConstant Env N) := by
  refine ⟨?_, ?_, ?_⟩
  · intro R h
    obtain ⟨hagg, htot⟩ := printStats_ok Env I F OnlySummary JsonFormat R h
    have hrows : ∀ Row ∈ R.FilesToVars, RowOK Row.2 :=
      aggregateStats_rowOK Env I F I.Variables ([], []) (R.FilesToVars, R.InSrcCVars)
        (by intro Row hRow; cases hRow) hagg
    refine ⟨hrows, htot, ?_⟩
    rw [htot]
    exact sumRows_rowOK R.FilesToVars hrows
  · intro hconst
    cases hrun : printStats Env I F OnlySummary JsonFormat with
    | ok R => exact ⟨R, rfl⟩
    | error e =>
      exfalso
      obtain ⟨_, File, hF, N, hN, hbad⟩ :=
        aggregateStats_error Env I F I.Variables ([], []) e
          (printStats_error Env I F OnlySummary JsonFormat e hrun)
      exact hbad (hconst File hF N hN)
  · intro e h
    exact aggregateStats_error Env I F I.Variables ([], []) e
      (printStats_error Env I F OnlySummary JsonFormat e h)

/-- C22, where it fails: with `AllTypes` off, every JSON output of `printStats`
ends with the text `}},` of line 266, a line break and the closing
`}}` of line 277: the separator written after the `ConstraintStats`
object is followed by no member, so the text is not a JSON document. -/
theorem printStats_json_dangling_separator (Env : StatsEnv) (I : ProgramInfo)
    (F : List String) (OnlySummary : Bool) (R : StatsResult)
    (hA : Env.AllTypes = false) (h : printStats Env I F OnlySummary true = .ok R) :
    ∃ Pre, R.O = Pre ++ "\"TotalWild\":" ++ toString R.Tot.WC ++ "\x7d\x7d,\n\x7d\x7d" := by
  unfold printStats at h
  cases hagg : aggregateStats Env I F ([], []) I.Variables with
  | error e => simp [hagg] at h
  | ok Acc =>
    obtain ⟨Rows, InSrc⟩ := Acc
    simp only [hagg, Except.ok.injEq] at h
    subst h
    simp only [hA, Bool.not_true, Bool.false_eq_true, if_false, if_true]
    have key : ∀ X W : String,
        X ++ "\"TotalWild\":" ++ W ++ "\x7d\x7d,\n" ++ "\x7d\x7d"
          = X ++ "\"TotalWild\":" ++ W ++ "\x7d\x7d,\n\x7d\x7d" := by
      intro X W
      rw [String.append_assoc _ "\x7d\x7d,\n" "\x7d\x7d"]
      rfl
    exact ⟨_, key _ _⟩

set_option maxRecDepth 100000 in
theorem printStats_json_dangling_separator_witness :
    sampleStatsResult.O
        = "\x7b\"Stats\":\x7b\"ConstraintStats\":\x7b\"Individual\":["
          ++ "\x7b\"a.c\":\x7b\"constraints\":1,\"ptr\":1,\"ntarr\":0,\"arr\":0,\"wild\":0\x7d\x7d,\n"
          ++ "\x7b\"b.c\":\x7b\"constraints\":2,\"ptr\":0,\"ntarr\":0,\"arr\":0,\"wild\":2\x7d\x7d],"
          ++ "\"Summary\":\x7b\"TotalConstraints\":3,\"TotalPtrs\":1,\"TotalNTArr\":0,"
          ++ "\"TotalArr\":0,\"TotalWild\":2\x7d\x7d,\n\x7d\x7d"
    ∧ ∃ Pre, sampleStatsResult.O
        = Pre ++ "\"TotalWild\":" ++ toString sampleStatsResult.Tot.WC
          ++ "\x7d\x7d,\n\x7d\x7d" :=
  ⟨rfl,
    printStats_json_dangling_separator sampleStatsEnv sampleStatsInfo ["a.c", "b.c"] false
      sampleStatsResult rfl rfl⟩

/-! ## Root causes -/

/-- C24, where it fails: in `sampleBlameInfo` the direct wild atom 1 is
attributed to atom 2, the store holds an implication whose premise has the
left-hand side 2 and whose conclusion has the left-hand side 3, and atom 3
is a variable atom of a valid declaration; `computeInterimConstraintState`
returns with `RCMap[3]` holding atom 3 only: the implication map is looked
up for the direct wild atom itself and not for the atoms that the visit
reaches from it. -/
theorem computeInterimConstraintState_implication_not_followed :
    (∃ R, computeInterimConstraintState specExternals sampleBlameGraph sampleBlameInfo ["a.c"]
        = .ok R
      ∧ R.1.RCMap = [(1, [1]), (2, [1]), (3, [3])]
      ∧ R.1.SrcWMap = [(1, [1, 2]), (3, [3])])
    ∧ 1 ∈ StdMap.index (interimState specExternals sampleBlameGraph sampleBlameInfo).RCMap 2
    ∧ (Constraint.implies ⟨.Var 2, .Wild, true⟩ ⟨.Var 3, .Wild, true⟩, [""])
        ∈ sampleBlameInfo.CS
    ∧ Atom.Var 3 ∈ (validVars specExternals sampleBlameInfo).2
    ∧ 1 ∉ StdMap.index (interimState specExternals sampleBlameGraph sampleBlameInfo).RCMap 3 := by
  refine ⟨⟨_, rfl, rfl, rfl⟩, ?_, ?_, ?_, ?_⟩
  · decide
  · decide
  · decide
  · decide

theorem mem_setInsert (s : List Nat) (a x : Nat) : x ∈ setInsert s a ↔ x = a ∨ x ∈ s := by
  induction s with
  | nil => simp [setInsert]
  | cons b s ih =>
    unfold setInsert
    by_cases hab : a = b
    · subst hab
      simp
    · by_cases hlt : a < b
      · simp [hab, hlt]
      · simp only [hab, hlt, if_false, List.mem_cons, ih]
        constructor
        · rintro (h | h | h)
          · exact Or.inr (Or.inl h)
          · exact Or.inl h
          · exact Or.inr (Or.inr h)
        · rintro (h | h | h)
          · exact Or.inr (Or.inl h)
          · exact Or.inl h
          · exact Or.inr (Or.inr h)

theorem mem_foldl_setInsert (L s : List Nat) (x : Nat) :
    x ∈ L.foldl setInsert s ↔ x ∈ s ∨ x ∈ L := by
  induction L generalizing s with
  | nil => simp
  | cons a L ih =>
    rw [List.foldl_cons, ih, mem_setInsert]
    simp only [List.mem_cons]
    constructor
    · rintro ((h | h) | h)
      · exact Or.inr (Or.inl h)
      · exact Or.inl h
      · exact Or.inr (Or.inr h)
    · rintro (h | h | h)
      · exact Or.inl (Or.inr h)
      · exact Or.inl (Or.inl h)
      · exact Or.inr h

theorem attributed_refl (AllValidVars : List Atom) (VA : Nat)
    (St : StdMap Nat (List Nat) × List Nat) : Attributed AllValidVars VA St St [] := by
  refine ⟨?_, ?_, ?_, ?_⟩
  · intro a w
    simp
  · intro a
    simp
  · intro a ha
    cases ha
  · intro a ha
    exact Or.inl ha

theorem attributed_trans (AllValidVars : List Atom) (VA : Nat)
    (St St1 St2 : StdMap Nat (List Nat) × List Nat) (H1 H2 : List Nat)
    (h1 : Attributed AllValidVars VA St St1 H1) (h2 : Attributed AllValidVars VA St1 St2 H2) :
    Attributed AllValidVars VA St St2 (H1 ++ H2) := by
  obtain ⟨a1, b1, c1, d1⟩ := h1
  obtain ⟨a2, b2, c2, d2⟩ := h2
  refine ⟨?_, ?_, ?_, ?_⟩
  · intro a w
    rw [a2, a1]
    simp only [List.mem_append]
    constructor
    · rintro ((h | ⟨h, h'⟩) | ⟨h, h'⟩)
      · exact Or.inl h
      · exact Or.inr ⟨h, Or.inl h'⟩
      · exact Or.inr ⟨h, Or.inr h'⟩
    · rintro (h | ⟨h, h' | h'⟩)
      · exact Or.inl (Or.inl h)
      · exact Or.inl (Or.inr ⟨h, h'⟩)
      · exact Or.inr ⟨h, h'⟩
  · intro a
    rw [b2, b1]
    simp only [List.mem_append, or_assoc]
  · intro a ha
    rcases List.mem_append.1 ha with ha | ha
    · exact c1 a ha
    · exact c2 a ha
  · intro a ha
    rcases d2 a ha with ha | ha
    · rcases d1 a ha with ha | ha
      · exact Or.inl ha
      · exact Or.inr (List.mem_append.2 (Or.inl ha))
    · exact Or.inr (List.mem_append.2 (Or.inr ha))

theorem bfsVisitor_attributed (AllValidVars : List Atom) (VA : Nat)
    (St : StdMap Nat (List Nat) × List Nat) (SearchAtom : Atom) :
    ∃ Hs, Attributed AllValidVars VA St (bfsVisitor AllValidVars VA St SearchAtom) Hs := by
  cases SearchAtom with
  | Var Loc =>
    by_cases hv : Atom.Var Loc ∈ AllValidVars
    · refine ⟨[Loc], ?_, ?_, ?_, ?_⟩
      · intro a w
        simp only [bfsVisitor, hv, if_true, StdMap.index_set_iff, List.mem_singleton]
        by_cases ha : a = Loc
        · subst ha
          simp only [if_true, mem_setInsert, and_true]
          exact or_comm
        · simp [ha]
      · intro a
        simp only [bfsVisitor, hv, if_true, mem_setInsert, List.mem_singleton]
        exact or_comm
      · intro a ha
        rw [List.mem_singleton.1 ha]
        exact hv
      · intro a ha
        simp only [bfsVisitor, hv, if_true, StdMap.contains, StdMap.find_set_iff] at ha
        by_cases hLoc : a = Loc
        · exact Or.inr (List.mem_singleton.2 hLoc)
        · simp only [hLoc, if_false] at ha
          exact Or.inl ha
    · have : bfsVisitor AllValidVars VA St (Atom.Var Loc) = St := by
        simp [bfsVisitor, hv]
      rw [this]
      exact ⟨[], attributed_refl _ _ _⟩
  | Ptr => exact ⟨[], attributed_refl _ _ _⟩
  | Arr => exact ⟨[], attributed_refl _ _ _⟩
  | NTArr => exact ⟨[], attributed_refl _ _ _⟩
  | Wild => exact ⟨[], attributed_refl _ _ _⟩

theorem foldl_bfsVisitor_attributed (AllValidVars : List Atom) (VA : Nat) (L : List Atom)
    (St : StdMap Nat (List Nat) × List Nat) :
    ∃ Hs, Attributed AllValidVars VA St (L.foldl (bfsVisitor AllValidVars VA) St) Hs := by
  induction L generalizing St with
  | nil => exact ⟨[], attributed_refl _ _ _⟩
  | cons A L ih =>
    obtain ⟨H1, h1⟩ := bfsVisitor_attributed AllValidVars VA St A
    obtain ⟨H2, h2⟩ := ih (bfsVisitor AllValidVars VA St A)
    exact ⟨H1 ++ H2, attributed_trans _ _ _ _ _ _ _ h1 h2⟩

theorem foldl_implied_attributed (G : ConstraintsGraph) (AllValidVars : List Atom) (VA : Nat)
    (L : List Atom) (St : StdMap Nat (List Nat) × List Nat) :
    ∃ Hs, Attributed AllValidVars VA St
      (L.foldl
        (fun St ImpA =>
          match ImpA with
          | .Var _ => (G.visitBreadthFirst ImpA).foldl (bfsVisitor AllValidVars VA) St
          | _ => St)
        St) Hs := by
  induction L generalizing St with
  | nil => exact ⟨[], attributed_refl _ _ _⟩
  | cons A L ih =>
    rw [List.foldl_cons]
    cases A with
    | Var Loc =>
      obtain ⟨H1, h1⟩ := foldl_bfsVisitor_attributed AllValidVars VA
        (G.visitBreadthFirst (Atom.Var Loc)) St
      obtain ⟨H2, h2⟩ := ih ((G.visitBreadthFirst (Atom.Var Loc)).foldl
        (bfsVisitor AllValidVars VA) St)
      exact ⟨H1 ++ H2, attributed_trans _ _ _ _ _ _ _ h1 h2⟩
    | Ptr => exact ih St
    | Arr => exact ih St
    | NTArr => exact ih St
    | Wild => exact ih St

theorem directWildStep_inv (G : ConstraintsGraph) (ImpMap : StdMap Atom (List Atom))
    (AllValidVars : List Atom) (C : ConstraintsInfo) (A : Atom)
    (h : InterimInv AllValidVars C) :
    InterimInv AllValidVars (directWildStep G ImpMap AllValidVars C A) := by
  cases A with
  | Ptr => exact h
  | Arr => exact h
  | NTArr => exact h
  | Wild => exact h
  | Var VA =>
    obtain ⟨i1, i2, i3, i4, i5⟩ := h
    obtain ⟨H1, h1⟩ := foldl_bfsVisitor_attributed AllValidVars VA
      (G.visitBreadthFirst (Atom.Var VA)) (C.RCMap, [])
    have hSt2 : ∃ Hs, Attributed AllValidVars VA (C.RCMap, [])
        (if StdMap.contains ImpMap (Atom.Var VA) then
          (StdMap.index ImpMap (Atom.Var VA)).foldl
            (fun St ImpA =>
              match ImpA with
              | .Var _ => (G.visitBreadthFirst ImpA).foldl (bfsVisitor AllValidVars VA) St
              | _ => St)
            ((G.visitBreadthFirst (Atom.Var VA)).foldl (bfsVisitor AllValidVars VA)
              (C.RCMap, []))
        else
          (G.visitBreadthFirst (Atom.Var VA)).foldl (bfsVisitor AllValidVars VA)
            (C.RCMap, [])) Hs := by
      split
      · obtain ⟨H2, h2⟩ := foldl_implied_attributed G AllValidVars VA
          (StdMap.index ImpMap (Atom.Var VA))
          ((G.visitBreadthFirst (Atom.Var VA)).foldl (bfsVisitor AllValidVars VA)
            (C.RCMap, []))
        exact ⟨H1 ++ H2, attributed_trans _ _ _ _ _ _ _ h1 h2⟩
      · exact ⟨H1, h1⟩
    obtain ⟨Hs, a1, a2, a3, a4⟩ := hSt2
    unfold directWildStep
    dsimp only
    refine ⟨?_, ?_, ?_, ?_, ?_⟩
    · intro a w
      rw [a1, StdMap.index_set_iff]
      by_cases hw : w = VA
      · subst hw
        simp only [if_true, true_and, mem_foldl_setInsert, a2, List.not_mem_nil, false_or]
        rw [i1]
      · simp only [hw, if_false, false_and, or_false]
        exact i1 a w
    · intro w
      rw [mem_setInsert, ← i2]
      unfold StdMap.contains
      rw [StdMap.find_set_iff]
      by_cases hw : w = VA
      · simp [hw]
      · simp [hw]
    · intro a w hw
      rw [mem_setInsert]
      rcases (a1 a w).1 hw with hw | ⟨hw, _⟩
      · exact Or.inr (i3 a w hw)
      · exact Or.inl hw
    · intro a ha
      rcases a4 a ha with ha | ha
      · exact i4 a ha
      · exact a3 a ha
    · intro w a ha
      rw [StdMap.index_set_iff] at ha
      by_cases hw : w = VA
      · simp only [hw, if_true, mem_foldl_setInsert, a2, List.not_mem_nil, false_or] at ha
        rcases ha with ha | ha
        · exact i5 VA a ha
        · exact a3 a ha
      · simp only [hw, if_false] at ha
        exact i5 w a ha

theorem foldl_directWildStep_inv (G : ConstraintsGraph) (ImpMap : StdMap Atom (List Atom))
    (AllValidVars : List Atom) (As : List Atom) (C : ConstraintsInfo)
    (h : InterimInv AllValidVars C) :
    InterimInv AllValidVars (As.foldl (directWildStep G ImpMap AllValidVars) C) := by
  induction As generalizing C with
  | nil => exact h
  | cons A As ih => exact ih _ (directWildStep_inv G ImpMap AllValidVars C A h)

theorem interimInv_empty (AllValidVars : List Atom) : InterimInv AllValidVars {} := by
  refine ⟨?_, ?_, ?_, ?_, ?_⟩
  · intro a w
    show w ∈ ([] : List Nat) ↔ a ∈ ([] : List Nat)
    simp
  · intro w
    simp [StdMap.contains, StdMap.find]
  · intro a w hw
    have hw' : w ∈ ([] : List Nat) := hw
    cases hw'
  · intro a ha
    simp [StdMap.contains, StdMap.find] at ha
  · intro w a ha
    have ha' : a ∈ ([] : List Nat) := ha
    cases ha'

theorem interimState_inv (X : Externals) (G : ConstraintsGraph) (I : ProgramInfo) :
    InterimInv (validVars X I).2 (interimState X G I) :=
  foldl_directWildStep_inv G (I.CS.foldl impMapStep []) (validVars X I).2
    (G.getSuccessors Atom.Wild) {} (interimInv_empty _)

theorem mem_findIntersection (A B Out : List Nat) (x : Nat) :
    x ∈ findIntersection A B Out ↔ x ∈ Out ∨ (x ∈ A ∧ x ∈ B) := by
  unfold findIntersection
  rw [mem_foldl_setInsert]
  simp

theorem computePtrLevelStats_frame (I : ProgramInfo) (C : ConstraintsInfo)
    (R : ConstraintsInfo × StdMap Nat PVPtr) (h : computePtrLevelStats I C = .ok R) :
    R.1.RCMap = C.RCMap ∧ R.1.SrcWMap = C.SrcWMap ∧ R.1.AllWildAtoms = C.AllWildAtoms
      ∧ R.1.InSrcWildAtoms = C.InSrcWildAtoms
      ∧ R.1.TotalNonDirectWildAtoms = C.TotalNonDirectWildAtoms
      ∧ R.1.InSrcNonDirectWildAtoms = C.InSrcNonDirectWildAtoms := by
  unfold computePtrLevelStats at h
  split at h
  · cases h
  · split at h
    · cases h
    · split at h
      · cases h
      · simp only [Except.ok.injEq] at h
        subst h
        exact ⟨rfl, rfl, rfl, rfl, rfl, rfl⟩

/-- C23: in the `CState` that `computeInterimConstraintState` computes, and
returns with, `RCMap` and `SrcWMap` are inverse relations (`w` is in
`RCMap[a]` if and only if `a` is in `SrcWMap[w]`), the keys of `SrcWMap` are
the members of `AllWildAtoms`, every member of a set of `RCMap` is in
`AllWildAtoms`, and `InSrcWildAtoms` is a subset of `AllWildAtoms`. -/
theorem rcMap_srcWMap_inverse (X : Externals) (G : ConstraintsGraph) (I : ProgramInfo)
    (FilePaths : List String) :
    ((∀ a w, w ∈ StdMap.index (interimState X G I).RCMap a
        ↔ a ∈ StdMap.index (interimState X G I).SrcWMap w)
      ∧ (∀ w, StdMap.contains (interimState X G I).SrcWMap w = true
          ↔ w ∈ (interimState X G I).AllWildAtoms)
      ∧ (∀ a w, w ∈ StdMap.index (interimState X G I).RCMap a →
          w ∈ (interimState X G I).AllWildAtoms)
      ∧ (∀ w, w ∈ (interimState X G I).InSrcWildAtoms →
          w ∈ (interimState X G I).AllWildAtoms))
    ∧ (∀ R, computeInterimConstraintState X G I FilePaths = .ok R →
        R.2.1 = true
        ∧ R.1.RCMap = (interimState X G I).RCMap
        ∧ R.1.SrcWMap = (interimState X G I).SrcWMap
        ∧ R.1.AllWildAtoms = (interimState X G I).AllWildAtoms
        ∧ R.1.InSrcWildAtoms = (interimState X G I).InSrcWildAtoms) := by
  obtain ⟨i1, i2, i3, _, _⟩ := interimState_inv X G I
  refine ⟨⟨i1, i2, i3, ?_⟩, ?_⟩
  · intro w hw
    unfold interimState at hw
    dsimp only at hw
    rw [mem_findIntersection] at hw
    rcases hw with hw | ⟨hw, _⟩
    · have hempty : ∀ (As : List Atom) (C : ConstraintsInfo), C.InSrcWildAtoms = [] →
          (As.foldl (directWildStep G (I.CS.foldl impMapStep []) (validVars X I).2)
            C).InSrcWildAtoms = [] := by
        intro As
        induction As with
        | nil => exact fun C hC => hC
        | cons A As ih =>
          intro C hC
          rw [List.foldl_cons]
          apply ih
          cases A <;> exact hC
      rw [hempty (G.getSuccessors Atom.Wild) {} rfl] at hw
      cases hw
    · exact hw
  · intro R hR
    unfold computeInterimConstraintState at hR
    cases hp : computePtrLevelStats I (interimState X G I) with
    | error e => simp [hp] at hR
    | ok P =>
      simp only [hp, Except.ok.injEq] at hR
      subst hR
      obtain ⟨f1, f2, f3, f4, _, _⟩ := computePtrLevelStats_frame I _ P hp
      exact ⟨rfl, f1, f2, f3, f4⟩

/-! ## Pointer-level statistics -/

theorem insertOwnAtoms_covers (vars : List Atom) (Proto : Bool) (PVC : PVPtr)
    (M M' : StdMap Nat PVPtr) (h : insertOwnAtoms vars Proto PVC M = .ok M') :
    (∀ k, StdMap.contains M k = true → StdMap.contains M' k = true)
    ∧ (∀ a, Atom.Var a ∈ vars → StdMap.contains M' a = true) := by
  induction vars generalizing M with
  | nil =>
    simp only [insertOwnAtoms, Except.ok.injEq] at h
    subst h
    exact ⟨fun _ hk => hk, fun a ha => by cases ha⟩
  | cons A As ih =>
    unfold insertOwnAtoms at h
    cases A with
    | Var Loc =>
      simp only at h
      split at h
      · cases h
      · obtain ⟨m1, m2⟩ := ih _ h
        have hset : ∀ k, StdMap.contains M k = true ∨ k = Loc →
            StdMap.contains (StdMap.set M Loc PVC) k = true := by
          intro k hk
          unfold StdMap.contains
          rw [StdMap.find_set_iff]
          by_cases hkl : k = Loc
          · simp [hkl]
          · rcases hk with hk | hk
            · simpa [hkl, StdMap.contains] using hk
            · exact absurd hk hkl
        refine ⟨fun k hk => m1 k (hset k (Or.inl hk)), ?_⟩
        intro a ha
        rcases List.mem_cons.1 ha with ha | ha
        · cases ha
          exact m1 Loc (hset Loc (Or.inr rfl))
        · exact m2 a ha
    | Ptr =>
      obtain ⟨m1, m2⟩ := ih _ h
      refine ⟨m1, ?_⟩
      intro a ha
      rcases List.mem_cons.1 ha with ha | ha
      · cases ha
      · exact m2 a ha
    | Arr =>
      obtain ⟨m1, m2⟩ := ih _ h
      refine ⟨m1, ?_⟩
      intro a ha
      rcases List.mem_cons.1 ha with ha | ha
      · cases ha
      · exact m2 a ha
    | NTArr =>
      obtain ⟨m1, m2⟩ := ih _ h
      refine ⟨m1, ?_⟩
      intro a ha
      rcases List.mem_cons.1 ha with ha | ha
      · cases ha
      · exact m2 a ha
    | Wild =>
      obtain ⟨m1, m2⟩ := ih _ h
      refine ⟨m1, ?_⟩
      intro a ha
      rcases List.mem_cons.1 ha with ha | ha
      · cases ha
      · exact m2 a ha

mutual
theorem pv_insertCVAtoms_covers :
    ∀ (P : PVConstraint) (PVC : PVPtr) (M M' : StdMap Nat PVPtr),
      P.insertCVAtoms PVC M = .ok M' →
      (∀ k, StdMap.contains M k = true → StdMap.contains M' k = true)
      ∧ (∀ a R, Atom.Var a ∈ P.getVarsFromConstraint R →
          Atom.Var a ∈ R ∨ StdMap.contains M' a = true)
  | .mk vars fv g v p, PVC, M, M', h => by
    unfold PVConstraint.insertCVAtoms at h
    cases ho : insertOwnAtoms vars p PVC M with
    | error e => simp [ho] at h
    | ok M1 =>
      simp only [ho] at h
      obtain ⟨o1, o2⟩ := insertOwnAtoms_covers vars p PVC M M1 ho
      cases fv with
      | none =>
        simp only [Except.ok.injEq] at h
        subst h
        refine ⟨o1, ?_⟩
        intro a R ha
        unfold PVConstraint.getVarsFromConstraint at ha
        rcases List.mem_append.1 ha with ha | ha
        · exact Or.inr (o2 a ha)
        · exact Or.inl ha
      | some FVC =>
        simp only at h
        obtain ⟨f1, f2⟩ := fv_insertCVAtoms_covers FVC _ M1 M' h
        refine ⟨fun k hk => f1 k (o1 k hk), ?_⟩
        intro a R ha
        unfold PVConstraint.getVarsFromConstraint at ha
        rcases f2 a _ ha with ha | ha
        · rcases List.mem_append.1 ha with ha | ha
          · exact Or.inr (f1 a (o2 a ha))
          · exact Or.inl ha
        · exact Or.inr ha
theorem fv_insertCVAtoms_covers :
    ∀ (F : FVConstraint) (Component : Via → PVPtr) (M M' : StdMap Nat PVPtr),
      F.insertCVAtoms Component M = .ok M' →
      (∀ k, StdMap.contains M k = true → StdMap.contains M' k = true)
      ∧ (∀ a R, Atom.Var a ∈ F.getVarsFromConstraint R →
          Atom.Var a ∈ R ∨ StdMap.contains M' a = true)
  | .mk (e, i) ps b v, Component, M, M', h => by
    unfold FVConstraint.insertCVAtoms at h
    cases he : e.insertCVAtoms (Component .externalReturn) M with
    | error err => simp [he] at h
    | ok M1 =>
      simp only [he] at h
      obtain ⟨e1, e2⟩ := pv_insertCVAtoms_covers e _ M M1 he
      obtain ⟨p1, p2⟩ := params_insertCVAtoms_covers ps Component 0 M1 M' h
      refine ⟨fun k hk => p1 k (e1 k hk), ?_⟩
      intro a R ha
      unfold FVConstraint.getVarsFromConstraint at ha
      rcases p2 a _ ha with ha | ha
      · rcases e2 a R ha with ha | ha
        · exact Or.inl ha
        · exact Or.inr (p1 a ha)
      · exact Or.inr ha
theorem params_insertCVAtoms_covers :
    ∀ (ps : List (PVConstraint × PVConstraint)) (Component : Via → PVPtr) (J : Nat)
      (M M' : StdMap Nat PVPtr),
      insertParamsCVAtoms ps Component J M = .ok M' →
      (∀ k, StdMap.contains M k = true → StdMap.contains M' k = true)
      ∧ (∀ a R, Atom.Var a ∈ paramsVarsFromConstraint ps R →
          Atom.Var a ∈ R ∨ StdMap.contains M' a = true)
  | [], Component, J, M, M', h => by
    simp only [insertParamsCVAtoms, Except.ok.injEq] at h
    subst h
    refine ⟨fun _ hk => hk, ?_⟩
    intro a R ha
    unfold paramsVarsFromConstraint at ha
    exact Or.inl ha
  | (e, i) :: ps, Component, J, M, M', h => by
    unfold insertParamsCVAtoms at h
    cases he : e.insertCVAtoms (Component (.externalParam J)) M with
    | error err => simp [he] at h
    | ok M1 =>
      simp only [he] at h
      obtain ⟨e1, e2⟩ := pv_insertCVAtoms_covers e _ M M1 he
      obtain ⟨p1, p2⟩ := params_insertCVAtoms_covers ps Component (J + 1) M1 M' h
      refine ⟨fun k hk => p1 k (e1 k hk), ?_⟩
      intro a R ha
      unfold paramsVarsFromConstraint at ha
      rcases p2 a _ ha with ha | ha
      · rcases e2 a R ha with ha | ha
        · exact Or.inl ha
        · exact Or.inr (p1 a ha)
      · exact Or.inr ha
end

theorem keysAscending_set {V : Type} (m : StdMap Nat V) (k : Nat) (v : V)
    (h : KeysAscending m) : KeysAscending (StdMap.set m k v) := by
  unfold KeysAscending at h ⊢
  induction m with
  | nil => simp [StdMap.set]
  | cons b m ih =>
    obtain ⟨k', v'⟩ := b
    simp only [List.map_cons, List.pairwise_cons] at h
    obtain ⟨h1, h2⟩ := h
    unfold StdMap.set
    by_cases hk : k = k'
    · subst hk
      simp only [if_true, List.map_cons, List.pairwise_cons]
      exact ⟨h1, h2⟩
    · by_cases hl : k < k'
      · have hl' : KeyOrder.lt k k' = true := by simp [KeyOrder.lt, hl]
        simp only [hk, if_false, hl', if_true, List.map_cons, List.pairwise_cons,
          List.mem_cons]
        refine ⟨?_, h1, h2⟩
        intro x hx
        rcases hx with hx | hx
        · rw [hx]
          exact hl
        · exact Nat.lt_trans hl (h1 x hx)
      · have hl' : KeyOrder.lt k k' = false := by simp [KeyOrder.lt, hl]
        simp only [hk, if_false, hl', Bool.false_eq_true, List.map_cons, List.pairwise_cons]
        refine ⟨?_, ih h2⟩
        intro x hx
        obtain ⟨pr, hpr, rfl⟩ := List.mem_map.1 hx
        rcases mem_set_elim m k v pr hpr with hpr | hpr
        · rw [hpr]
          show k' < k
          omega
        · exact h1 pr.1 (List.mem_map.2 ⟨pr, hpr, rfl⟩)

theorem find_of_mem_ascending {V : Type} (m : StdMap Nat V) (h : KeysAscending m) (k : Nat)
    (v : V) (hm : (k, v) ∈ m) : StdMap.find m k = some v := by
  unfold KeysAscending at h
  induction m with
  | nil => cases hm
  | cons b m ih =>
    obtain ⟨k', v'⟩ := b
    simp only [List.map_cons, List.pairwise_cons] at h
    obtain ⟨h1, h2⟩ := h
    rcases List.mem_cons.1 hm with hm | hm
    · cases hm
      simp [StdMap.find]
    · have hlt : k' < k := h1 k (List.mem_map.2 ⟨(k, v), hm, rfl⟩)
      have hne : ¬ k = k' := by omega
      simp only [StdMap.find, hne, if_false]
      exact ih h2 hm

theorem foldl_bfsVisitor_ascending (AllValidVars : List Atom) (VA : Nat) (L : List Atom)
    (St : StdMap Nat (List Nat) × List Nat) (h : KeysAscending St.1) :
    KeysAscending (L.foldl (bfsVisitor AllValidVars VA) St).1 := by
  induction L generalizing St with
  | nil => exact h
  | cons A L ih =>
    rw [List.foldl_cons]
    apply ih
    unfold bfsVisitor
    cases A with
    | Var Loc =>
      dsimp only
      split
      · exact keysAscending_set _ _ _ h
      · exact h
    | Ptr => exact h
    | Arr => exact h
    | NTArr => exact h
    | Wild => exact h

theorem foldl_implied_ascending (G : ConstraintsGraph) (AllValidVars : List Atom) (VA : Nat)
    (L : List Atom) (St : StdMap Nat (List Nat) × List Nat) (h : KeysAscending St.1) :
    KeysAscending
      (L.foldl
        (fun St ImpA =>
          match ImpA with
          | .Var _ => (G.visitBreadthFirst ImpA).foldl (bfsVisitor AllValidVars VA) St
          | _ => St)
        St).1 := by
  induction L generalizing St with
  | nil => exact h
  | cons A L ih =>
    rw [List.foldl_cons]
    apply ih
    cases A with
    | Var Loc => exact foldl_bfsVisitor_ascending AllValidVars VA _ St h
    | Ptr => exact h
    | Arr => exact h
    | NTArr => exact h
    | Wild => exact h

theorem directWildStep_ascending (G : ConstraintsGraph) (ImpMap : StdMap Atom (List Atom))
    (AllValidVars : List Atom) (C : ConstraintsInfo) (A : Atom)
    (h : KeysAscending C.RCMap ∧ KeysAscending C.SrcWMap) :
    KeysAscending (directWildStep G ImpMap AllValidVars C A).RCMap
      ∧ KeysAscending (directWildStep G ImpMap AllValidVars C A).SrcWMap := by
  cases A with
  | Ptr => exact h
  | Arr => exact h
  | NTArr => exact h
  | Wild => exact h
  | Var VA =>
    unfold directWildStep
    dsimp only
    refine ⟨?_, keysAscending_set _ _ _ h.2⟩
    have h1 := foldl_bfsVisitor_ascending AllValidVars VA
      (G.visitBreadthFirst (Atom.Var VA)) (C.RCMap, []) h.1
    split
    · exact foldl_implied_ascending G AllValidVars VA _ _ h1
    · exact h1

theorem interimState_ascending (X : Externals) (G : ConstraintsGraph) (I : ProgramInfo) :
    KeysAscending (interimState X G I).RCMap ∧ KeysAscending (interimState X G I).SrcWMap := by
  have key : ∀ (As : List Atom) (C : ConstraintsInfo),
      KeysAscending C.RCMap ∧ KeysAscending C.SrcWMap →
      KeysAscending
          (As.foldl (directWildStep G (I.CS.foldl impMapStep []) (validVars X I).2) C).RCMap
        ∧ KeysAscending
          (As.foldl (directWildStep G (I.CS.foldl impMapStep []) (validVars X I).2) C).SrcWMap := by
    intro As
    induction As with
    | nil => exact fun C hC => hC
    | cons A As ih =>
      intro C hC
      rw [List.foldl_cons]
      exact ih _ (directWildStep_ascending G _ _ C A hC)
  exact key (G.getSuccessors Atom.Wild) {}
    ⟨by simp [KeysAscending], by simp [KeysAscending]⟩

theorem mem_validVars (X : Externals) (I : ProgramInfo)
    (Es : List (PersistentSourceLoc × CVRef)) (Acc : List Atom × List Atom) (x : Atom)
    (h : x ∈ (Es.foldl (validVarsStep X I) Acc).2) :
    x ∈ Acc.2 ∨ ∃ E ∈ Es, E.2.isForValidDecl I = true ∧ x ∈ getVarsFromConstraint I E.2 [] := by
  induction Es generalizing Acc with
  | nil => exact Or.inl h
  | cons E Es ih =>
    rw [List.foldl_cons] at h
    rcases ih _ h with h1 | ⟨E', hE', hv, hx⟩
    · unfold validVarsStep at h1
      cases hv : E.2.isForValidDecl I with
      | false =>
        simp only [hv, Bool.false_eq_true, if_false] at h1
        exact Or.inl h1
      | true =>
        simp only [hv, if_true] at h1
        have h2 : x ∈ (getVarsFromConstraint I E.2 []).foldl refInsert Acc.2 := by
          split at h1
          · exact h1
          · exact h1
        rcases (mem_foldl_refInsert _ _ _).1 h2 with h2 | h2
        · exact Or.inl h2
        · exact Or.inr ⟨E, List.mem_cons_self _ _, hv, h2⟩
    · exact Or.inr ⟨E', List.mem_cons_of_mem _ hE', hv, hx⟩

theorem insertCVAtoms_covers (I : ProgramInfo) (C : CVRef) (M M' : StdMap Nat PVPtr)
    (h : insertCVAtoms I C M = .ok M') :
    (∀ k, StdMap.contains M k = true → StdMap.contains M' k = true)
    ∧ (∀ a, Atom.Var a ∈ getVarsFromConstraint I C [] → StdMap.contains M' a = true) := by
  cases C with
  | PV P =>
    obtain ⟨h1, h2⟩ := pv_insertCVAtoms_covers (I.deref P) ⟨P, []⟩ M M' h
    refine ⟨h1, ?_⟩
    intro a ha
    rcases h2 a [] ha with ha | ha
    · cases ha
    · exact ha
  | FV F =>
    obtain ⟨h1, h2⟩ := fv_insertCVAtoms_covers (I.FVs F) (componentOf F) M M' h
    refine ⟨h1, ?_⟩
    intro a ha
    rcases h2 a [] ha with ha | ha
    · cases ha
    · exact ha

theorem buildAtomPtrMap_covers (I : ProgramInfo) (Es : List (PersistentSourceLoc × CVRef))
    (M M' : StdMap Nat PVPtr) (h : buildAtomPtrMap I M Es = .ok M') :
    (∀ k, StdMap.contains M k = true → StdMap.contains M' k = true)
    ∧ (∀ E ∈ Es, ∀ a, Atom.Var a ∈ getVarsFromConstraint I E.2 [] →
        StdMap.contains M' a = true) := by
  induction Es generalizing M with
  | nil =>
    simp only [buildAtomPtrMap, Except.ok.injEq] at h
    subst h
    exact ⟨fun _ hk => hk, fun E hE => by cases hE⟩
  | cons E Es ih =>
    unfold buildAtomPtrMap at h
    cases hi : insertCVAtoms I E.2 M with
    | error e => simp [hi] at h
    | ok M1 =>
      simp only [hi] at h
      obtain ⟨c1, c2⟩ := insertCVAtoms_covers I E.2 M M1 hi
      obtain ⟨b1, b2⟩ := ih M1 h
      refine ⟨fun k hk => b1 k (c1 k hk), ?_⟩
      intro E' hE' a ha
      rcases List.mem_cons.1 hE' with rfl | hE'
      · exact b1 a (c2 a ha)
      · exact b2 E' hE' a ha

theorem foldl_ptrRC_index (CV : PVPtr) (RCs : List Nat) (P0 : StdMap PVPtr (List Nat))
    (CV' : PVPtr) (w : Nat) :
    w ∈ StdMap.index
        (RCs.foldl (fun M RC => StdMap.set M CV (setInsert (StdMap.index M CV) RC)) P0) CV'
      ↔ w ∈ StdMap.index P0 CV' ∨ (CV' = CV ∧ w ∈ RCs) := by
  induction RCs generalizing P0 with
  | nil => simp
  | cons RC RCs ih =>
    rw [List.foldl_cons, ih, StdMap.index_set_iff]
    by_cases hc : CV' = CV
    · subst hc
      simp only [if_true, mem_setInsert, true_and, List.mem_cons]
      constructor
      · rintro ((h | h) | h)
        · exact Or.inr (Or.inl h)
        · exact Or.inl h
        · exact Or.inr (Or.inr h)
      · rintro (h | h | h)
        · exact Or.inl (Or.inr h)
        · exact Or.inl (Or.inl h)
        · exact Or.inr h
    · simp [hc]

theorem ptrRCLoop_spec (AtomPtrMap : StdMap Nat PVPtr) (Entries : List (Nat × List Nat))
    (P0 P : StdMap PVPtr (List Nat)) (h : ptrRCLoop AtomPtrMap P0 Entries = .ok P)
    (CV : PVPtr) (w : Nat) :
    w ∈ StdMap.index P CV
      ↔ w ∈ StdMap.index P0 CV
        ∨ ∃ Entry ∈ Entries, StdMap.find AtomPtrMap Entry.1 = some CV ∧ w ∈ Entry.2 := by
  induction Entries generalizing P0 with
  | nil =>
    simp only [ptrRCLoop, Except.ok.injEq] at h
    subst h
    simp
  | cons Entry Entries ih =>
    unfold ptrRCLoop at h
    cases hf : StdMap.find AtomPtrMap Entry.1 with
    | none => simp [hf] at h
    | some CV0 =>
      simp only [hf] at h
      rw [ih _ h, foldl_ptrRC_index]
      constructor
      · rintro ((h1 | ⟨h1, h2⟩) | ⟨E, hE, h1, h2⟩)
        · exact Or.inl h1
        · exact Or.inr ⟨Entry, List.mem_cons_self _ _, by rw [hf, h1], h2⟩
        · exact Or.inr ⟨E, List.mem_cons_of_mem _ hE, h1, h2⟩
      · rintro (h1 | ⟨E, hE, h1, h2⟩)
        · exact Or.inl (Or.inl h1)
        · rcases List.mem_cons.1 hE with rfl | hE
          · rw [hf] at h1
            cases h1
            exact Or.inl (Or.inr ⟨rfl, h2⟩)
          · exact Or.inr ⟨E, hE, h1, h2⟩

theorem ptrRCLoop_returns (AtomPtrMap : StdMap Nat PVPtr) (Entries : List (Nat × List Nat))
    (P0 : StdMap PVPtr (List Nat))
    (h : ∀ Entry ∈ Entries, StdMap.contains AtomPtrMap Entry.1 = true) :
    ∃ P, ptrRCLoop AtomPtrMap P0 Entries = .ok P := by
  induction Entries generalizing P0 with
  | nil => exact ⟨P0, rfl⟩
  | cons Entry Entries ih =>
    unfold ptrRCLoop
    have hc := h Entry (List.mem_cons_self _ _)
    unfold StdMap.contains at hc
    cases hf : StdMap.find AtomPtrMap Entry.1 with
    | none => simp [hf] at hc
    | some CV0 =>
      simp only
      exact ih _ (fun E hE => h E (List.mem_cons_of_mem _ hE))

theorem ptrSrcWInner_returns (AtomPtrMap : StdMap Nat PVPtr) (First : Nat) (Keys : List Nat)
    (P0 : StdMap Nat (List PVPtr))
    (h : ∀ Key ∈ Keys, StdMap.contains AtomPtrMap Key = true) :
    ∃ P, ptrSrcWInner AtomPtrMap First P0 Keys = .ok P := by
  induction Keys generalizing P0 with
  | nil => exact ⟨P0, rfl⟩
  | cons Key Keys ih =>
    unfold ptrSrcWInner
    have hc := h Key (List.mem_cons_self _ _)
    unfold StdMap.contains at hc
    cases hf : StdMap.find AtomPtrMap Key with
    | none => simp [hf] at hc
    | some CV0 =>
      simp only
      exact ih _ (fun K hK => h K (List.mem_cons_of_mem _ hK))

theorem ptrSrcWLoop_returns (AtomPtrMap : StdMap Nat PVPtr) (Entries : List (Nat × List Nat))
    (P0 : StdMap Nat (List PVPtr))
    (h : ∀ Entry ∈ Entries, ∀ Key ∈ Entry.2, StdMap.contains AtomPtrMap Key = true) :
    ∃ P, ptrSrcWLoop AtomPtrMap P0 Entries = .ok P := by
  induction Entries generalizing P0 with
  | nil => exact ⟨P0, rfl⟩
  | cons Entry Entries ih =>
    unfold ptrSrcWLoop
    obtain ⟨P1, hP1⟩ := ptrSrcWInner_returns AtomPtrMap Entry.1 Entry.2 P0
      (h Entry (List.mem_cons_self _ _))
    rw [hP1]
    exact ih P1 (fun E hE => h E (List.mem_cons_of_mem _ hE))

theorem interimState_ptrRCMap (X : Externals) (G : ConstraintsGraph) (I : ProgramInfo) :
    (interimState X G I).PtrRCMap = [] := by
  have key : ∀ (As : List Atom) (C : ConstraintsInfo), C.PtrRCMap = [] →
      (As.foldl (directWildStep G (I.CS.foldl impMapStep []) (validVars X I).2) C).PtrRCMap
        = [] := by
    intro As
    induction As with
    | nil => exact fun C hC => hC
    | cons A As ih =>
      intro C hC
      rw [List.foldl_cons]
      apply ih
      cases A <;> exact hC
  exact key (G.getSuccessors Atom.Wild) {} rfl

/-- C29: every key of `RCMap` and every member of a set of `SrcWMap` is the key
of a variable atom that `getVarsFromConstraint` collects from an entry of
`Variables` for a valid declaration. When the first loop of
`computePtrLevelStats` completes, `AtomPtrMap` has the key of every variable
atom that `getVarsFromConstraint` collects from an entry of `Variables`, the
two membership assertions hold and `computePtrLevelStats` returns, with
`PtrRCMap[CV]` the union of `RCMap[a]` over the keys `a` that `AtomPtrMap`
maps to `CV`; so `computePtrLevelStats` fails only where its first loop,
the assertion of `insertCVAtoms`, fails. -/
theorem computePtrLevelStats_membership (X : Externals) (G : ConstraintsGraph)
    (I : ProgramInfo) :
    (∀ a, StdMap.contains (interimState X G I).RCMap a = true →
      ∃ E ∈ I.Variables, E.2.isForValidDecl I = true
        ∧ Atom.Var a ∈ getVarsFromConstraint I E.2 [])
    ∧ (∀ w a, a ∈ StdMap.index (interimState X G I).SrcWMap w →
        ∃ E ∈ I.Variables, E.2.isForValidDecl I = true
          ∧ Atom.Var a ∈ getVarsFromConstraint I E.2 [])
    ∧ (∀ AtomPtrMap, buildAtomPtrMap I [] I.Variables = .ok AtomPtrMap →
        (∀ E ∈ I.Variables, ∀ a, Atom.Var a ∈ getVarsFromConstraint I E.2 [] →
          StdMap.contains AtomPtrMap a = true)
        ∧ (∀ a, StdMap.contains (interimState X G I).RCMap a = true →
            StdMap.contains AtomPtrMap a = true)
        ∧ (∀ w a, a ∈ StdMap.index (interimState X G I).SrcWMap w →
            StdMap.contains AtomPtrMap a = true)
        ∧ ∃ R, computePtrLevelStats I (interimState X G I) = .ok R ∧ R.2 = AtomPtrMap
            ∧ ∀ CV w, w ∈ StdMap.index R.1.PtrRCMap CV
                ↔ ∃ a, StdMap.find AtomPtrMap a = some CV
                    ∧ w ∈ StdMap.index (interimState X G I).RCMap a)
    ∧ (∀ e, computePtrLevelStats I (interimState X G I) = .error e →
        buildAtomPtrMap I [] I.Variables = .error e) := by
  obtain ⟨_, _, _, i4, i5⟩ := interimState_inv X G I
  obtain ⟨hascR, hascS⟩ := interimState_ascending X G I
  have hvalid : ∀ a, Atom.Var a ∈ (validVars X I).2 →
      ∃ E ∈ I.Variables, E.2.isForValidDecl I = true
        ∧ Atom.Var a ∈ getVarsFromConstraint I E.2 [] := by
    intro a ha
    rcases mem_validVars X I I.Variables ([], []) (Atom.Var a) ha with h | h
    · cases h
    · exact h
  have h1 : ∀ a, StdMap.contains (interimState X G I).RCMap a = true →
      ∃ E ∈ I.Variables, E.2.isForValidDecl I = true
        ∧ Atom.Var a ∈ getVarsFromConstraint I E.2 [] :=
    fun a ha => hvalid a (i4 a ha)
  have h2 : ∀ w a, a ∈ StdMap.index (interimState X G I).SrcWMap w →
      ∃ E ∈ I.Variables, E.2.isForValidDecl I = true
        ∧ Atom.Var a ∈ getVarsFromConstraint I E.2 [] :=
    fun w a ha => hvalid a (i5 w a ha)
  have h3 : ∀ AtomPtrMap, buildAtomPtrMap I [] I.Variables = .ok AtomPtrMap →
      (∀ E ∈ I.Variables, ∀ a, Atom.Var a ∈ getVarsFromConstraint I E.2 [] →
        StdMap.contains AtomPtrMap a = true)
      ∧ (∀ a, StdMap.contains (interimState X G I).RCMap a = true →
          StdMap.contains AtomPtrMap a = true)
      ∧ (∀ w a, a ∈ StdMap.index (interimState X G I).SrcWMap w →
          StdMap.contains AtomPtrMap a = true)
      ∧ ∃ R, computePtrLevelStats I (interimState X G I) = .ok R ∧ R.2 = AtomPtrMap
          ∧ ∀ CV w, w ∈ StdMap.index R.1.PtrRCMap CV
              ↔ ∃ a, StdMap.find AtomPtrMap a = some CV
                  ∧ w ∈ StdMap.index (interimState X G I).RCMap a := by
    intro AtomPtrMap hb
    have hcov := (buildAtomPtrMap_covers I I.Variables [] AtomPtrMap hb).2
    have hkR : ∀ a, StdMap.contains (interimState X G I).RCMap a = true →
        StdMap.contains AtomPtrMap a = true := by
      intro a ha
      obtain ⟨E, hE, _, hx⟩ := h1 a ha
      exact hcov E hE a hx
    have hkS : ∀ w a, a ∈ StdMap.index (interimState X G I).SrcWMap w →
        StdMap.contains AtomPtrMap a = true := by
      intro w a ha
      obtain ⟨E, hE, _, hx⟩ := h2 w a ha
      exact hcov E hE a hx
    obtain ⟨P, hP⟩ := ptrRCLoop_returns AtomPtrMap (interimState X G I).RCMap
      (interimState X G I).PtrRCMap
      (fun Entry hEntry => hkR Entry.1 (StdMap.contains_of_mem _ Entry.1 Entry.2 hEntry))
    obtain ⟨S, hS⟩ := ptrSrcWLoop_returns AtomPtrMap (interimState X G I).SrcWMap
      (interimState X G I).PtrSrcWMap
      (by
        intro Entry hEntry Key hKey
        apply hkS Entry.1 Key
        have hf := find_of_mem_ascending _ hascS Entry.1 Entry.2 hEntry
        simp only [StdMap.index, hf, Option.getD_some]
        exact hKey)
    refine ⟨hcov, hkR, hkS,
      ({ interimState X G I with PtrRCMap := P, PtrSrcWMap := S }, AtomPtrMap), ?_, rfl, ?_⟩
    · unfold computePtrLevelStats
      rw [hb]
      simp only
      rw [hP]
      simp only
      rw [hS]
    · intro CV w
      show w ∈ StdMap.index P CV ↔ _
      rw [ptrRCLoop_spec AtomPtrMap _ _ P hP CV w, interimState_ptrRCMap]
      constructor
      · rintro (h | ⟨Entry, hEntry, hf, hw⟩)
        · have h' : w ∈ ([] : List Nat) := h
          cases h'
        · refine ⟨Entry.1, hf, ?_⟩
          have hfind := find_of_mem_ascending _ hascR Entry.1 Entry.2 hEntry
          simp only [StdMap.index, hfind, Option.getD_some]
          exact hw
      · rintro ⟨a, hf, hw⟩
        cases hfind : StdMap.find (interimState X G I).RCMap a with
        | none =>
          simp only [StdMap.index, hfind, Option.getD_none] at hw
          have h' : w ∈ ([] : List Nat) := hw
          cases h'
        | some Set =>
          simp only [StdMap.index, hfind, Option.getD_some] at hw
          exact Or.inr ⟨(a, Set), StdMap.exists_mem_of_find _ a Set hfind, hf, hw⟩
  refine ⟨h1, h2, h3, ?_⟩
  intro e he
  cases hb : buildAtomPtrMap I [] I.Variables with
  | error e' =>
    unfold computePtrLevelStats at he
    simp only [hb, Except.error.injEq] at he
    rw [he]
  | ok AtomPtrMap =>
    obtain ⟨_, _, _, R, hR, _, _⟩ := h3 AtomPtrMap hb
    rw [hR] at he
    cases he

/-! ## The statements at the samples -/

theorem printStats_partition_witness :
    (printStats sampleStatsEnv sampleStatsInfo ["a.c", "b.c"] true false).map
        (fun R => (R.FilesToVars, R.Tot))
      = .ok ([("a.c", ⟨1, 1, 0, 0, 0⟩), ("b.c", ⟨2, 0, 0, 0, 2⟩)], ⟨3, 1, 0, 0, 2⟩)
    ∧ ∀ R, printStats sampleStatsEnv sampleStatsInfo ["a.c", "b.c"] true false = .ok R →
        (∀ Row ∈ R.FilesToVars, Row.2.VarC = Row.2.PC + Row.2.NtaC + Row.2.AC + Row.2.WC)
        ∧ R.Tot = sumRows R.FilesToVars
        ∧ R.Tot.VarC = R.Tot.PC + R.Tot.NtaC + R.Tot.AC + R.Tot.WC :=
  ⟨rfl, (printStats_partition sampleStatsEnv sampleStatsInfo ["a.c", "b.c"] true false).1⟩

theorem rcMap_srcWMap_inverse_witness :
    ((interimState specExternals sampleBlameGraph sampleBlameInfo).AllWildAtoms = [1, 3]
      ∧ (interimState specExternals sampleBlameGraph sampleBlameInfo).InSrcWildAtoms = [1, 3])
    ∧ (∀ a w, w ∈ StdMap.index (interimState specExternals sampleBlameGraph sampleBlameInfo).RCMap a
        ↔ a ∈ StdMap.index (interimState specExternals sampleBlameGraph sampleBlameInfo).SrcWMap
            w)
    ∧ (∀ w, StdMap.contains (interimState specExternals sampleBlameGraph sampleBlameInfo).SrcWMap
          w = true
        ↔ w ∈ (interimState specExternals sampleBlameGraph sampleBlameInfo).AllWildAtoms)
    ∧ (∀ a w, w ∈ StdMap.index (interimState specExternals sampleBlameGraph sampleBlameInfo).RCMap
          a →
        w ∈ (interimState specExternals sampleBlameGraph sampleBlameInfo).AllWildAtoms)
    ∧ (∀ w, w ∈ (interimState specExternals sampleBlameGraph sampleBlameInfo).InSrcWildAtoms →
        w ∈ (interimState specExternals sampleBlameGraph sampleBlameInfo).AllWildAtoms) :=
  ⟨⟨rfl, rfl⟩,
    (rcMap_srcWMap_inverse specExternals sampleBlameGraph sampleBlameInfo ["a.c"]).1⟩

theorem computePtrLevelStats_membership_witness :
    (∃ R, computePtrLevelStats sampleBlameInfo
          (interimState specExternals sampleBlameGraph sampleBlameInfo) = .ok R
        ∧ R.2 = [(1, ⟨.obj 1, []⟩), (2, ⟨.obj 2, []⟩), (3, ⟨.obj 3, []⟩)]
        ∧ R.1.PtrRCMap = [(⟨.obj 1, []⟩, [1]), (⟨.obj 2, []⟩, [1]), (⟨.obj 3, []⟩, [3])])
    ∧ ∀ a, StdMap.contains (interimState specExternals sampleBlameGraph sampleBlameInfo).RCMap a
          = true →
        ∃ E ∈ sampleBlameInfo.Variables, E.2.isForValidDecl sampleBlameInfo = true
          ∧ Atom.Var a ∈ getVarsFromConstraint sampleBlameInfo E.2 [] :=
  ⟨⟨_, rfl, rfl, rfl⟩,
    (computePtrLevelStats_membership specExternals sampleBlameGraph sampleBlameInfo).1⟩

end ThreeC
